import Mathlib

/-!
Verification development for `pkgs/desktops/gnome/extensions/update-extensions.py`,
the GNOME Shell extensions updater.  The script scrapes the paginated search API
of extensions.gnome.org, selects one extension version per supported GNOME Shell
major version, downloads and hashes each selected archive, tracks package-name
collisions, and serializes the results into `extensions.json` and
`collisions.json`.

Python dictionaries are modelled as insertion-ordered association lists
(`AList`), Python strings as Lean `String`s (with character-level processing on
`String.data` where the script manipulates text), and the script's external
collaborators (`urllib` responses, the `nix-prefetch-url` subprocess, file
contents) as explicit oracle functions passed to the modelled operations.
-/

namespace UpdateExtensions

/-! ## Association lists: the model of Python `dict`

A Python `dict` is an insertion-ordered map.  `dinsert` models `d[k] = v`
(overwrite in place if the key is present, append otherwise), `lookupA` models
`d[k]` / `d.get(k)`, `updateAt` models an in-place update of an existing key.
-/

/-- Association list with insertion-ordered keys, the model of a Python dict. -/
abbrev AList (α β : Type) : Type := List (α × β)

instance {ε α : Type} [DecidableEq ε] [DecidableEq α] : DecidableEq (Except ε α) := fun x y =>
  match x, y with
  | Except.ok a, Except.ok b =>
      if h : a = b then isTrue (by rw [h]) else isFalse (fun he => h (Except.ok.inj he))
  | Except.error e, Except.error f =>
      if h : e = f then isTrue (by rw [h]) else isFalse (fun he => h (Except.error.inj he))
  | Except.ok _, Except.error _ => isFalse (fun he => Except.noConfusion he)
  | Except.error _, Except.ok _ => isFalse (fun he => Except.noConfusion he)

namespace AList

variable {α β : Type} [DecidableEq α]

/-- `d[k]`, returning the value of the first entry with key `k`. -/
def lookupA : AList α β → α → Option β
  | [], _ => none
  | kv :: rest, k => if k = kv.1 then some kv.2 else lookupA rest k

/-- `d[k] = v`: overwrite the first entry with key `k` in place, or append. -/
def dinsert : AList α β → α → β → AList α β
  | [], k, v => [(k, v)]
  | kv :: rest, k, v => if k = kv.1 then (k, v) :: rest else kv :: dinsert rest k v

/-- In-place update of the value stored at an existing key (`d[k].mutate()`).
If the key is absent this is the identity; in the script the corresponding
access would raise `KeyError`, and every call site guarantees presence. -/
def updateAt : AList α β → α → (β → β) → AList α β
  | [], _, _ => []
  | kv :: rest, k, f => if k = kv.1 then (kv.1, f kv.2) :: rest else kv :: updateAt rest k f

/-- The keys of the dict, in insertion order (`d.keys()`). -/
def keysA (d : AList α β) : List α := d.map (fun kv => kv.1)

end AList

open AList

/-! ## Character-level models of the Python string primitives used -/

/-- Python `s.startswith(p)`, character-exact on the underlying data. -/
def pyStartsWith (s p : String) : Bool := List.isPrefixOf p.data s.data

/-- Python `int(s)` for a non-negative decimal numeral (all uses in the script
are on decimal version labels such as `"45"`). -/
def strToNat (s : String) : Nat :=
  s.data.foldl (fun acc c => acc * 10 + (c.toNat - 48)) 0

/-! ## The `supported_versions` table (lines 17-27)

A fixed map from GNOME Shell major-version label to the prefix used to match
the fine-grained shell versions advertised by an extension.
-/

/-- The hardcoded `supported_versions` dict: label, matching prefix. -/
def supportedVersions : List (String × String) :=
  [("38", "3.38"), ("40", "40"), ("41", "41"), ("42", "42"), ("43", "43"),
   ("44", "44"), ("45", "45"), ("46", "46"), ("47", "47")]

/-- `supported_versions.keys()`. -/
def supportedKeys : List String := supportedVersions.map (fun kv => kv.1)

/-! ## Version Selector (`generate_extension_versions`, lines 86-136) -/

/-- Python `max(gen, default=None)` over a list of ints. -/
def listMaxInt : List Int → Option Int
  | [] => none
  | x :: xs => some (xs.foldl max x)

/-- The versions offered by the extension whose shell-version label starts
with `pre`, in map order (the generator on lines 101-105). -/
def matchingVersions (m : AList String Int) (pre : String) : List Int :=
  (m.filter (fun kv => pyStartsWith kv.1 pre)).map (fun kv => kv.2)

/-- The per-group maximum as the script computes it, including the Python
falsiness test `if not extension_version: continue` on line 109, which skips
both `None` (no matching label) and the integer `0`. -/
def selectedVersion (m : AList String Int) (pre : String) : Option Int :=
  match listMaxInt (matchingVersions m pre) with
  | none => none
  | some v => if v = 0 then none else some v

/-- One iteration of the loop on lines 98-112: `acc` is the dict built so far,
`kv` the current `(shell_version, version_prefix)` pair. -/
def selStep (m : AList String Int) (acc : AList String Int) (kv : String × String) :
    AList String Int :=
  match listMaxInt (matchingVersions m kv.2) with
  | none => acc
  | some v => if v = 0 then acc else dinsert acc kv.1 v

/-- Lines 97-112: determine one extension version per supported shell version.
The result dict maps shell-version labels (in `supported_versions` order) to
the newest compatible extension version. -/
def selectVersions (m : AList String Int) : AList String Int :=
  supportedVersions.foldl (selStep m) []

/-- Python `sorted(set(l))` for ints: ascending, duplicates removed. -/
def sortedSet (l : List Int) : List Int :=
  List.insertionSort (fun a b => a ≤ b) l.dedup

/-- One selected version: extension version (stringified on line 129),
archive hash, base64-encoded `metadata.json` content. -/
structure SelectedVersion where
  version : String
  sha256 : String
  metadata : String
  deriving DecidableEq, Repr

/-- `generate_extension_versions` (lines 86-136), parameterized by the fetch
oracle `fetch v = fetch_extension_data uuid (str v)` for the fixed uuid of the
call.  The first component is the list of versions passed to
`fetch_extension_data`, in call order (the loop on lines 116-121 performs
exactly one external fetch per element); the second is the returned
`shell version -> {"version", "sha256", "metadata"}` map. -/
def generateExtensionVersions (fetch : Int → String × String) (m : AList String Int) :
    List Int × AList String SelectedVersion :=
  let extensionVersions := selectVersions m
  let downloads := sortedSet (extensionVersions.map (fun kv => kv.2))
  let cache : AList Int (String × String) := downloads.map (fun v => (v, fetch v))
  let full : AList String SelectedVersion := extensionVersions.map (fun kv =>
    let hm := (lookupA cache kv.2).getD ("", "")
    (kv.1, { version := toString kv.2, sha256 := hm.1, metadata := hm.2 }))
  (downloads, full)

/-! ## Extension Transformer (`pname_from_url`, `process_extension`, lines 139-226) -/

/-- Python `s.split(sep)` for a one-character separator, keeping empty parts
(so `"/a/".split("/") = ["", "a", ""]`). -/
def splitOnChar (sep : Char) : List Char → List (List Char)
  | [] => [[]]
  | c :: rest =>
      let r := splitOnChar sep rest
      if c = sep then [] :: r
      else
        match r with
        | [] => [[c]]
        | h :: t => (c :: h) :: t

/-- `pname_from_url` (lines 139-145): parse `"/extension/1475/battery-time/"`
into `("battery-time", "1475")`.  Returns `none` where the Python code would
raise `IndexError` (fewer than four path segments). -/
def pnameFromUrl (url : String) : Option (String × String) :=
  let parts := (splitOnChar '/' url.data).map (fun cs => String.mk cs)
  match parts[3]?, parts[2]? with
  | some a, some b => some (a, b)
  | _, _ => none

/-- One value of the raw `shell_version_map` sent by the catalog; only the
`"version"` key is consumed by the script (line 200). -/
structure RawVersionEntry where
  version : Int
  deriving DecidableEq

/-- A raw extension record as returned by the search API (the keys consumed
by the script; `pk` is the catalog's primary key used for sorting). -/
structure RawExtension where
  uuid : String
  name : String
  description : String
  link : String
  shell_version_map : AList String RawVersionEntry
  pk : Int
  deriving DecidableEq

/-- The output record produced by `process_extension` (lines 219-226). -/
structure ProcessedExtension where
  uuid : String
  name : String
  pname : String
  description : String
  link : String
  shell_version_map : AList String SelectedVersion
  deriving DecidableEq

/-- The `package_name_registry` global: shell version -> pname -> uuids. -/
abbrev Registry : Type := AList String (AList String (List String))

/-- Lines 39-41: the registry starts with one empty dict per supported
shell version. -/
def registryInit : Registry :=
  supportedVersions.map (fun kv => (kv.1, ([] : AList String (List String))))

/-- Lines 212-217, one loop iteration: record `uuid` under `pname` for shell
version `sv`, creating the entry if absent. -/
def registryAdd (uuid pname : String) (reg : Registry) (sv : String) : Registry :=
  updateAt reg sv (fun inner =>
    match lookupA inner pname with
    | some us => dinsert inner pname (us ++ [uuid])
    | none => dinsert inner pname [uuid])

/-- Line 199-201: project the raw `shell_version_map` to its `"version"` ints. -/
def rawVersionInts (ext : RawExtension) : AList String Int :=
  ext.shell_version_map.map (fun kv => (kv.1, kv.2.version))

/-- Lookup through both registry levels: the uuid list recorded for
`(shell version, pname)`. -/
def regLookup2 (reg : Registry) (sv p : String) : Option (List String) :=
  (lookupA reg sv).bind (fun inner => lookupA inner p)

/-- `process_extension` (lines 148-226), parameterized by the fetch oracle and
threading the `package_name_registry` state explicitly.  `Except.error` models
the uncaught `IndexError` from `pname_from_url` on a malformed link. -/
def processExtension (fetch : Int → String × String) (ext : RawExtension)
    (reg : Registry) : Except String (Option ProcessedExtension × Registry) :=
  if ext.shell_version_map = [] then Except.ok (none, reg)
  else
    let full := (generateExtensionVersions fetch (rawVersionInts ext)).2
    if full = [] then Except.ok (none, reg)
    else
      match pnameFromUrl ext.link with
      | none => Except.error "IndexError: malformed link"
      | some (pname, _pnameId) =>
          let reg2 := (keysA full).foldl (registryAdd ext.uuid pname) reg
          Except.ok (some { uuid := ext.uuid, name := ext.name, pname := pname,
                            description := ext.description,
                            link := "https://extensions.gnome.org" ++ ext.link,
                            shell_version_map := full }, reg2)

/-! ## Paginated Fetcher: `request` (lines 229-240) and
`scrape_extensions_index` (lines 243-282)

`resp i` is the outcome of the `i`-th `urllib.request.urlopen` attempt for the
one url of the call (`Except.error c` models `urllib.error.HTTPError` with
status code `c`); the url never changes across the retries of a single
`request` call.  The body of the `with` block raises no `HTTPError` in this
script, so modelling the generator-based context manager at the `urlopen`
level is exact.
-/

/-- The default `retry_codes` argument of `request` (line 230). -/
def defaultRetryCodes : List Nat := [500, 502, 503, 504]

/-- The retry loop of `request` (lines 231-240), instrumented with the list of
attempts performed: `requestT resp codes attempt remaining` runs attempts
`attempt, attempt+1, …` while `remaining` retries are still allowed, returning
the attempted indices and the final outcome.  The guard
`e.code in retry_codes and attempt < retries` is `c ∈ codes && remaining > 0`. -/
def requestT {α : Type} (resp : Nat → Except Nat α) (codes : List Nat) :
    Nat → Nat → List Nat × Except Nat α
  | attempt, 0 => ([attempt], resp attempt)
  | attempt, n + 1 =>
      match resp attempt with
      | Except.ok a => ([attempt], Except.ok a)
      | Except.error c =>
          if c ∈ codes then
            let r := requestT resp codes (attempt + 1) n
            (attempt :: r.1, r.2)
          else ([attempt], Except.error c)

/-- `request(url, retries, retry_codes)`: attempt trace and outcome. -/
def request {α : Type} (resp : Nat → Except Nat α) (retries : Nat)
    (codes : List Nat) : List Nat × Except Nat α :=
  requestT resp codes 0 retries

instance : DecidableRel (fun a b : RawExtension => a.pk ≤ b.pk) :=
  fun a b => Int.decLe a.pk b.pk

instance : IsTotal RawExtension (fun a b => a.pk ≤ b.pk) :=
  ⟨fun a b => le_total a.pk b.pk⟩

instance : IsTrans RawExtension (fun a b => a.pk ≤ b.pk) :=
  ⟨fun _ _ _ h1 h2 => le_trans h1 h2⟩

/-- Line 281: `extensions.sort(key=itemgetter("pk"))` — a stable sort by the
catalog's primary key. -/
def sortByPk (l : List RawExtension) : List RawExtension :=
  List.insertionSort (fun a b => a.pk ≤ b.pk) l

/-- The `while True` loop of `scrape_extensions_index` (lines 252-277).
`pr p` is the outcome of the whole `request(…page=p)` block for page `p`
(after its internal retries): either the parsed `extensions` array or the
`HTTPError` code that `request` re-raised.  `fuel` bounds the number of loop
iterations so the model is total; `none` means the loop did not finish within
`fuel` pages.  `some (Except.error c)` models the uncaught re-raise of a
non-404 error. -/
def scrapeGo (pr : Nat → Except Nat (List RawExtension)) :
    Nat → Nat → List RawExtension → Option (Except Nat (List RawExtension))
  | 0, _, _ => none
  | fuel + 1, page, acc =>
      match pr (page + 1) with
      | Except.ok data =>
          if data.length < 25 then some (Except.ok (acc ++ data))
          else scrapeGo pr fuel (page + 1) (acc ++ data)
      | Except.error c =>
          if c = 404 then some (Except.ok acc) else some (Except.error c)

/-- `scrape_extensions_index` (lines 243-282): loop from page 1, then sort the
accumulated records by `pk`. -/
def scrapeExtensionsIndex (pr : Nat → Except Nat (List RawExtension))
    (fuel : Nat) : Option (Except Nat (List RawExtension)) :=
  match scrapeGo pr fuel 0 [] with
  | none => none
  | some (Except.ok l) => some (Except.ok (sortByPk l))
  | some (Except.error c) => some (Except.error c)

/-! ## Content Resolver: `fetch_extension_data` (lines 46-83)

`proc i` is the result of the `i`-th `subprocess.run` of `nix-prefetch-url`
for the fixed download url of the call; `metadataContent` is the text content
of `metadata.json` inside the unpacked archive (read in text mode, line 80).
-/

/-- Result of one `subprocess.run` call. -/
structure ProcResult where
  returncode : Int
  stdout : String
  stderr : String
  deriving DecidableEq

/-- The `for _ in range(0, 10)` retry loop (lines 57-66): run attempts from
`start` while `remaining` allows, stopping at the first attempt whose exit
status is 0.  Returns the attempted indices and the successful index. -/
def fetchAttempts (proc : Nat → ProcResult) : Nat → Nat → List Nat × Option Nat
  | _, 0 => ([], none)
  | start, n + 1 =>
      if (proc start).returncode = 0 then ([start], some start)
      else
        let r := fetchAttempts proc (start + 1) n
        (start :: r.1, r.2)

/-- Python `str.isspace` characters relevant to `str.strip()` here. -/
def wsChar (c : Char) : Bool := c = ' ' || c = '\t' || c = '\n' || c = '\r'

/-- Python `s.strip()`. -/
def pyStrip (s : String) : String :=
  String.mk (((s.data.dropWhile wsChar).reverse.dropWhile wsChar).reverse)

/-- Python `s.splitlines()` restricted to `"\n"` line breaks (the only ones in
`nix-prefetch-url` output): split on newlines, dropping one final empty part. -/
def pySplitlines (s : String) : List String :=
  let ps := splitOnChar '\n' s.data
  let ps := if ps.getLast? = some [] then ps.dropLast else ps
  ps.map (fun cs => String.mk cs)

/-- The base64 alphabet used by `base64.b64encode`. -/
def b64Alphabet : List Char :=
  "ABCDEFGHIJKLMNOPQRSTUVWXYZabcdefghijklmnopqrstuvwxyz0123456789+/".data

/-- The base64 digit for a 6-bit value. -/
def b64Char (n : Nat) : Char := b64Alphabet.getD n 'A'

/-- `base64.b64encode` on a byte sequence, with `=` padding. -/
def b64encode : List Nat → List Char
  | [] => []
  | [a] => [b64Char (a / 4), b64Char (a % 4 * 16), '=', '=']
  | [a, b] => [b64Char (a / 4), b64Char (a % 4 * 16 + b / 16), b64Char (b % 16 * 4), '=']
  | a :: b :: c :: rest =>
      b64Char (a / 4) :: b64Char (a % 4 * 16 + b / 16) ::
        b64Char (b % 16 * 4 + c / 64) :: b64Char (c % 64) :: b64encode rest

/-- Python `s.encode("ascii")` (line 81): the byte sequence if every character
is ASCII, otherwise `none` (a raised `UnicodeEncodeError`). -/
def encodeAscii (s : String) : Option (List Nat) :=
  if s.data.all (fun c => c.toNat < 128) then some (s.data.map Char.toNat) else none

/-- `fetch_extension_data` (lines 46-83): run `nix-prefetch-url` up to 10
times; on success parse the hash and store path from stdout and base64-encode
the ASCII-encoded `metadata.json` content.  Returns the attempt trace and the
`(sha256, metadata)` pair, or the message of the raised exception. -/
def fetchExtensionData (proc : Nat → ProcResult) (metadataContent : String) :
    List Nat × Except String (String × String) :=
  let r := fetchAttempts proc 0 10
  match r.2 with
  | none =>
      (r.1, Except.error "Retried 10 times, but still failed to download the extension. Exiting.")
  | some i =>
      let lines := pySplitlines (proc i).stdout
      match lines[0]?, lines[1]? with
      | some l0, some _l1 =>
          (match encodeAscii metadataContent with
           | some bytes => (r.1, Except.ok (pyStrip l0, String.mk (b64encode bytes)))
           | none => (r.1, Except.error "UnicodeEncodeError"))
      | _, _ => (r.1, Except.error "IndexError")

/-- Whether an `Except` result is a raised exception. -/
def isErrorE {ε α : Type} : Except ε α → Bool
  | Except.error _ => true
  | Except.ok _ => false

/-- A concrete subprocess oracle used to instantiate theorems: two failures,
then a success printing the hash and the store path. -/
def sampleProc : Nat → ProcResult := fun i =>
  if i < 2 then { returncode := 1, stdout := "", stderr := "err" }
  else { returncode := 0, stdout := "sha256-xyz\n/nix/store/abc\n", stderr := "" }

/-! ## Collision report (`__main__`, lines 331-347) -/

/-- Insertion into a descending-ordered list by a numeric key. -/
def insertDescBy (key : String → Nat) (x : String) : List String → List String
  | [] => [x]
  | y :: ys => if key y ≤ key x then x :: y :: ys else y :: insertDescBy key x ys

/-- `sorted(l, key=…, reverse=True)` for a numeric key. -/
def sortDescBy (key : String → Nat) : List String → List String
  | [] => []
  | x :: xs => insertDescBy key x (sortDescBy key xs)

/-- Line 333: the 3 supported shell versions with the highest numeric labels.
`float(v)` on the integer-valued labels orders exactly like their `Nat`
values, modelled by `strToNat`. -/
def lastThreeVersions : List String := (sortDescBy strToNat supportedKeys).take 3

/-- Python `set.update(uuids)` on a set modelled as a duplicate-free list in
first-insertion order. -/
def setUpdate (s : List String) (new : List String) : List String :=
  new.foldl (fun acc u => if u ∈ acc then acc else acc ++ [u]) s

/-- Lines 337-341, one registry dict: merge the `(pname, uuids)` pairs of one
shell version's registry into the accumulated `package_name_registry_filtered`. -/
def collisionsStep (filtered : AList String (List String))
    (pkgs : AList String (List String)) : AList String (List String) :=
  pkgs.foldl
    (fun filtered kv =>
      match lookupA filtered kv.1 with
      | some s => dinsert filtered kv.1 (setUpdate s kv.2)
      | none => dinsert filtered kv.1 (setUpdate [] kv.2))
    filtered

/-- Lines 331-345: the collision report — merge the registries of the last 3
shell versions, keep only names with more than one distinct uuid.  The list
value is `list(v)` of the modelled set. -/
def collisionsReport (reg : Registry) : AList String (List String) :=
  let regsForVersions :=
    (reg.filter (fun kv => decide (kv.1 ∈ lastThreeVersions))).map (fun kv => kv.2)
  let merged := regsForVersions.foldl collisionsStep []
  merged.filter (fun kv => decide (1 < kv.2.length))

/-- The uuids recorded for `name` across the last 3 shell versions, in
registry iteration order (the reference value for the collision report). -/
def idsAcrossLastThree (reg : Registry) (name : String) : List String :=
  ((reg.filter (fun kv => decide (kv.1 ∈ lastThreeVersions))).map (fun kv => kv.2)).flatMap
    (fun pkgs => (lookupA pkgs name).getD [])

/-! ## Serializer (`__main__`, lines 298-329)

The writer dumps each processed extension as a single-line JSON string
(`json.dumps` with default separators and `ensure_ascii=False`), injects line
breaks by plain string replacement, and assembles the array by hand.  The
JSON text is modelled as `List Char`; brace characters are referred to by
name throughout.
-/

/-- The `"` character (34). -/
def quoteChar : Char := Char.ofNat 34

/-- The `\` character (92). -/
def backslashChar : Char := Char.ofNat 92

/-- The opening-brace character (123). -/
def braceOpen : Char := Char.ofNat 123

/-- The closing-brace character (125). -/
def braceClose : Char := Char.ofNat 125

/-- The newline character (10). -/
def newlineChar : Char := Char.ofNat 10

/-- Lowercase hex digit, for `\u00XX` escapes. -/
def toHexDigit (n : Nat) : Char :=
  if n < 10 then Char.ofNat (48 + n) else Char.ofNat (87 + n)

/-- How `json.dumps(…, ensure_ascii=False)` renders one character inside a
string literal: short escapes for `"`? `\`, backspace, tab, newline, form
feed and carriage return, `\u00XX` for other control characters, the raw
character otherwise. -/
def escapeChar (c : Char) : List Char :=
  if c = quoteChar then [backslashChar, quoteChar]
  else if c = backslashChar then [backslashChar, backslashChar]
  else if c.toNat = 8 then [backslashChar, 'b']
  else if c.toNat = 9 then [backslashChar, 't']
  else if c.toNat = 10 then [backslashChar, 'n']
  else if c.toNat = 12 then [backslashChar, 'f']
  else if c.toNat = 13 then [backslashChar, 'r']
  else if c.toNat < 32 then
    [backslashChar, 'u', '0', '0', toHexDigit (c.toNat / 16), toHexDigit (c.toNat % 16)]
  else [c]

/-- Escape a whole string-literal body. -/
def escapeStr : List Char → List Char
  | [] => []
  | c :: rest => escapeChar c ++ escapeStr rest

/-- A dumped JSON string literal: quote, escaped body, quote. -/
def qstr (s : List Char) : List Char := quoteChar :: (escapeStr s ++ [quoteChar])

/-- JSON values (numbers restricted to integers, all the script produces). -/
inductive Json where
  | str : String → Json
  | num : Int → Json
  | jbool : Bool → Json
  | null : Json
  | arr : List Json → Json
  | obj : List (String × Json) → Json

mutual

/-- `json.dumps` with the default separators `", "` and `": "`. -/
def dumps : Json → List Char
  | Json.str s => qstr s.data
  | Json.num i => (toString i).data
  | Json.jbool b => if b then "true".data else "false".data
  | Json.null => "null".data
  | Json.arr xs => '[' :: (dumpsElems xs ++ [']'])
  | Json.obj ms => braceOpen :: (dumpsMembers ms ++ [braceClose])

def dumpsElems : List Json → List Char
  | [] => []
  | [x] => dumps x
  | x :: y :: rest => dumps x ++ ',' :: ' ' :: dumpsElems (y :: rest)

def dumpsMembers : List (String × Json) → List Char
  | [] => []
  | [kv] => qstr kv.1.data ++ ':' :: ' ' :: dumps kv.2
  | kv :: m :: rest =>
      qstr kv.1.data ++ ':' :: ' ' :: dumps kv.2 ++ ',' :: ' ' :: dumpsMembers (m :: rest)

end

/-- The JSON object for one selected version (the inner dict literal of
lines 128-135). -/
def innerToJson (vi : SelectedVersion) : Json :=
  Json.obj [("version", Json.str vi.version), ("sha256", Json.str vi.sha256),
    ("metadata", Json.str vi.metadata)]

/-- The JSON object for one processed extension (the dict literal of
lines 219-226), in its key order. -/
def recordToJson (r : ProcessedExtension) : Json :=
  Json.obj [("uuid", Json.str r.uuid), ("name", Json.str r.name),
    ("pname", Json.str r.pname), ("description", Json.str r.description),
    ("link", Json.str r.link),
    ("shell_version_map",
      Json.obj (r.shell_version_map.map (fun kv => (kv.1, innerToJson kv.2))))]

/-- The scan of Python `s.replace(pat, new)`, with explicit fuel so the
recursion is structural: one unit of fuel covers at least one consumed input
character, so `fuel = s.length` always suffices. -/
def replaceAllF (pat new : List Char) : Nat → List Char → List Char
  | _, [] => []
  | 0, s => s
  | fuel + 1, c :: rest =>
      if pat ≠ [] ∧ pat.isPrefixOf (c :: rest) then
        new ++ replaceAllF pat new fuel ((c :: rest).drop pat.length)
      else c :: replaceAllF pat new fuel rest

/-- Python `s.replace(pat, new)`: scan left to right, replacing each
non-overlapping occurrence; replacement text is not rescanned.  (Python's
behavior for an empty pattern is not modelled; every pattern the script uses
is nonempty.) -/
def replaceAll (pat new s : List Char) : List Char :=
  replaceAllF pat new s.length s

/-- The replacement pattern of line 313 (`{"45": {`, first version entry). -/
def patFirst (v : String) : List Char :=
  braceOpen :: quoteChar :: (v.data ++ [quoteChar, ':', ' ', braceOpen])

/-- The replacement text of line 313 (line break and indent injected). -/
def patFirstNew (v : String) : List Char :=
  braceOpen :: newlineChar :: ' ' :: ' ' :: ' ' :: ' ' :: quoteChar ::
    (v.data ++ [quoteChar, ':', ' ', braceOpen])

/-- The replacement pattern of line 315 (`, "45": {`, later version entry). -/
def patRest (v : String) : List Char :=
  ',' :: ' ' :: quoteChar :: (v.data ++ [quoteChar, ':', ' ', braceOpen])

/-- The replacement text of line 315. -/
def patRestNew (v : String) : List Char :=
  ',' :: newlineChar :: ' ' :: ' ' :: ' ' :: ' ' :: quoteChar ::
    (v.data ++ [quoteChar, ':', ' ', braceOpen])

/-- The pattern of line 317: three closing braces. -/
def tripleBrace : List Char := [braceClose, braceClose, braceClose]

/-- The replacement text of line 317 (`}`, line break, two spaces, `}}`). -/
def tripleBraceNew : List Char :=
  braceClose :: newlineChar :: ' ' :: ' ' :: [braceClose, braceClose]

/-- Lines 311-317: inject the per-version line breaks into one dumped
extension, then break the final triple of closing braces. -/
def injectBreaks (s : List Char) : List Char :=
  replaceAll tripleBrace tripleBraceNew
    (supportedVersions.foldl
      (fun acc kv =>
        replaceAll (patRest kv.1) (patRestNew kv.1)
          (replaceAll (patFirst kv.1) (patFirstNew kv.1) acc))
      s)

/-- The writer loop of lines 302-320: `"[ "` before the first record, `", "`
before the rest, each record followed by a newline. -/
def writeLoop : Nat → List ProcessedExtension → List Char
  | _, [] => []
  | idx, r :: rest =>
      (if idx = 0 then ['[', ' '] else [',', ' ']) ++
        (injectBreaks (dumps (recordToJson r)) ++ newlineChar :: writeLoop (idx + 1) rest)

/-- Lines 301-321: the full content written to `extensions.json`. -/
def writeExtensionsJson (rs : List ProcessedExtension) : List Char :=
  writeLoop 0 rs ++ [']', newlineChar]

/-- Whether `pat` occurs as a contiguous substring. -/
def hasSub (pat : List Char) : List Char → Bool
  | [] => pat.isEmpty
  | c :: rest => pat.isPrefixOf (c :: rest) || hasSub pat rest

/-- No string field of the record contains three consecutive closing braces
(the substring the post-processing of line 317 corrupts). -/
def cleanRecord (r : ProcessedExtension) : Prop :=
  hasSub tripleBrace r.uuid.data = false ∧ hasSub tripleBrace r.name.data = false ∧
  hasSub tripleBrace r.pname.data = false ∧
  hasSub tripleBrace r.description.data = false ∧
  hasSub tripleBrace r.link.data = false ∧
  ∀ kv ∈ r.shell_version_map, hasSub tripleBrace kv.2.version.data = false ∧
    hasSub tripleBrace kv.2.sha256.data = false ∧
    hasSub tripleBrace kv.2.metadata.data = false

/-- A transformed extension record as the pipeline produces it: clean string
fields, at least one version entry, and distinct shell versions drawn from
the supported table (§3 of the data model). -/
def goodRecord (r : ProcessedExtension) : Prop :=
  cleanRecord r ∧ r.shell_version_map ≠ [] ∧
  (keysA r.shell_version_map).Nodup ∧
  ∀ k ∈ keysA r.shell_version_map, k ∈ supportedKeys

/-- A record whose description contains three consecutive closing braces. -/
def badDescRecord : ProcessedExtension :=
  { uuid := "bad@example.org", name := "Bad", pname := "bad",
    description := String.mk tripleBrace, link := "/extension/1/bad/",
    shell_version_map := [("45", { version := "1", sha256 := "sha", metadata := "bQ==" })] }

/-- A well-behaved record with two version entries. -/
def goodSampleRecord : ProcessedExtension :=
  { uuid := "good@example.org", name := "Good", pname := "good",
    description := "A good one", link := "/extension/2/good/",
    shell_version_map :=
      [("44", { version := "7", sha256 := "sha256-q", metadata := "bQ==" }),
       ("45", { version := "8", sha256 := "sha256-r", metadata := "bR==" })] }

/-! ## A JSON reader, the model of the `json.load` well-formedness check
(lines 327-329)

A standard strict recursive-descent reader over characters: whitespace is
allowed around every token, string literals accept the escape sequences of
the JSON grammar and reject raw control characters, numbers are integers.
`fuel` bounds the recursion depth; the top-level entry point supplies one
unit of fuel per input character, which dominates any parse since every
recursive call consumes input.
-/

/-- JSON insignificant whitespace. -/
def jsonWs (c : Char) : Bool := c = ' ' || c = '\t' || c = '\n' || c = '\r'

/-- Skip insignificant whitespace. -/
def skipJsonWs : List Char → List Char
  | [] => []
  | c :: rest => if jsonWs c then skipJsonWs rest else c :: rest

/-- Value of one hex digit. -/
def hexVal (c : Char) : Option Nat :=
  if 48 ≤ c.toNat ∧ c.toNat ≤ 57 then some (c.toNat - 48)
  else if 97 ≤ c.toNat ∧ c.toNat ≤ 102 then some (c.toNat - 87)
  else if 65 ≤ c.toNat ∧ c.toNat ≤ 70 then some (c.toNat - 55)
  else none

/-- Read a string-literal body after the opening quote: the decoded
characters and the input after the closing quote.  Raw control characters
are rejected (strict mode, as in Python's `json.load`). -/
def parseStringBody : List Char → Option (List Char × List Char)
  | [] => none
  | c :: rest =>
      if c = quoteChar then some ([], rest)
      else if c = backslashChar then
        match rest with
        | [] => none
        | e :: rest2 =>
            if e = quoteChar then
              (parseStringBody rest2).map (fun p => (quoteChar :: p.1, p.2))
            else if e = backslashChar then
              (parseStringBody rest2).map (fun p => (backslashChar :: p.1, p.2))
            else if e = '/' then
              (parseStringBody rest2).map (fun p => ('/' :: p.1, p.2))
            else if e = 'b' then
              (parseStringBody rest2).map (fun p => (Char.ofNat 8 :: p.1, p.2))
            else if e = 'f' then
              (parseStringBody rest2).map (fun p => (Char.ofNat 12 :: p.1, p.2))
            else if e = 'n' then
              (parseStringBody rest2).map (fun p => (Char.ofNat 10 :: p.1, p.2))
            else if e = 'r' then
              (parseStringBody rest2).map (fun p => (Char.ofNat 13 :: p.1, p.2))
            else if e = 't' then
              (parseStringBody rest2).map (fun p => (Char.ofNat 9 :: p.1, p.2))
            else if e = 'u' then
              match rest2 with
              | h1 :: h2 :: h3 :: h4 :: rest3 =>
                  match hexVal h1, hexVal h2, hexVal h3, hexVal h4 with
                  | some a, some b, some c3, some d =>
                      (parseStringBody rest3).map
                        (fun p => (Char.ofNat (a * 4096 + b * 256 + c3 * 16 + d) :: p.1, p.2))
                  | _, _, _, _ => none
              | _ => none
            else none
      else if c.toNat < 32 then none
      else (parseStringBody rest).map (fun p => (c :: p.1, p.2))

/-- Longest digit prefix and the rest. -/
def takeDigits : List Char → List Char × List Char
  | [] => ([], [])
  | c :: rest =>
      if 48 ≤ c.toNat ∧ c.toNat ≤ 57 then
        let r := takeDigits rest
        (c :: r.1, r.2)
      else ([], c :: rest)

/-- Decimal value of a digit list. -/
def digitsToNat (ds : List Char) : Nat :=
  ds.foldl (fun acc c => acc * 10 + (c.toNat - 48)) 0

mutual

/-- Read one JSON value (after optional whitespace). -/
def parseValue : Nat → List Char → Option (Json × List Char)
  | 0, _ => none
  | fuel + 1, cs =>
      match skipJsonWs cs with
      | [] => none
      | c :: rest =>
          if c = quoteChar then
            (parseStringBody rest).map (fun p => (Json.str (String.mk p.1), p.2))
          else if c = braceOpen then
            (parseObjBody fuel true rest).map (fun p => (Json.obj p.1, p.2))
          else if c = '[' then
            (parseArrBody fuel true rest).map (fun p => (Json.arr p.1, p.2))
          else if c = 't' then
            if List.isPrefixOf ['r', 'u', 'e'] rest then some (Json.jbool true, rest.drop 3)
            else none
          else if c = 'f' then
            if List.isPrefixOf ['a', 'l', 's', 'e'] rest then some (Json.jbool false, rest.drop 4)
            else none
          else if c = 'n' then
            if List.isPrefixOf ['u', 'l', 'l'] rest then some (Json.null, rest.drop 3)
            else none
          else if c = '-' then
            match takeDigits rest with
            | ([], _) => none
            | (d :: ds, rest2) => some (Json.num (-(digitsToNat (d :: ds) : Int)), rest2)
          else if 48 ≤ c.toNat ∧ c.toNat ≤ 57 then
            match takeDigits (c :: rest) with
            | (ds, rest2) => some (Json.num (digitsToNat ds), rest2)
          else none

/-- Read the members of an object after its `{` (`allowEmpty` is false after
a comma, so a trailing comma is rejected). -/
def parseObjBody : Nat → Bool → List Char → Option (List (String × Json) × List Char)
  | 0, _, _ => none
  | fuel + 1, allowEmpty, cs =>
      match skipJsonWs cs with
      | [] => none
      | c :: rest =>
          if c = braceClose then
            if allowEmpty then some ([], rest) else none
          else if c = quoteChar then
            match parseStringBody rest with
            | none => none
            | some (key, rest2) =>
                match skipJsonWs rest2 with
                | [] => none
                | d :: rest3 =>
                    if d = ':' then
                      match parseValue fuel rest3 with
                      | none => none
                      | some (v, rest4) =>
                          match skipJsonWs rest4 with
                          | [] => none
                          | e :: rest5 =>
                              if e = ',' then
                                (parseObjBody fuel false rest5).map
                                  (fun p => ((String.mk key, v) :: p.1, p.2))
                              else if e = braceClose then
                                some ([(String.mk key, v)], rest5)
                              else none
                    else none
          else none

/-- Read the elements of an array after its `[`. -/
def parseArrBody : Nat → Bool → List Char → Option (List Json × List Char)
  | 0, _, _ => none
  | fuel + 1, allowEmpty, cs =>
      match skipJsonWs cs with
      | [] => none
      | c :: rest =>
          if c = ']' then
            if allowEmpty then some ([], rest) else none
          else
            match parseValue fuel (c :: rest) with
            | none => none
            | some (v, rest2) =>
                match skipJsonWs rest2 with
                | [] => none
                | e :: rest3 =>
                    if e = ',' then
                      (parseArrBody fuel false rest3).map (fun p => (v :: p.1, p.2))
                    else if e = ']' then some ([v], rest3)
                    else none

end

/-- `json.load` well-formedness: the whole input is one JSON value
surrounded by whitespace. -/
def jsonParse (cs : List Char) : Option Json :=
  match parseValue (cs.length + 1) cs with
  | none => none
  | some (j, rest) =>
      match skipJsonWs rest with
      | [] => some j
      | _ => none

/-- A concrete registry used to instantiate theorems: the short name `"foo"`
is used by two extensions across the last three shell versions. -/
def sampleRegistry : Registry :=
  [("45", [("foo", ["id1"])]), ("47", [("foo", ["id2"]), ("bar", ["id3"])])]

/-- A concrete raw record used to instantiate theorems: one release that is
compatible with GNOME Shell 45. -/
def sampleRaw : RawExtension :=
  { uuid := "cool@example.org", name := "Cool", description := "A cool extension",
    link := "/extension/99/cool-ext/", shell_version_map := [("45", ⟨7⟩)], pk := 99 }

/-- A concrete raw record with no releases (`shell_version_map` empty). -/
def sampleRawEmpty : RawExtension :=
  { uuid := "empty@example.org", name := "Empty", description := "No releases",
    link := "/extension/100/empty-ext/", shell_version_map := [], pk := 100 }

/-- A concrete fetch oracle used to instantiate theorems. -/
def sampleFetch : Int → String × String := fun _ => ("sha256-abc", "bWV0YQ==")

/-! ## The shapes the serializer's string replacements produce

`recordPartial r done` is the dumped record after the replacement passes for
the versions in `done` have rewritten their separators; `recordPretty r` is
the final pretty-printed record after the closing-brace pass of line 317. -/

/-- `": "`, the separator `json.dumps` places after keys. -/
def colsp : List Char := [':', ' ']

/-- `", "`, the separator `json.dumps` places between members. -/
def csp : List Char := [',', ' ']

/-- The injected line break and four-space indent. -/
def ind4 : List Char := newlineChar :: [' ', ' ', ' ', ' ']

/-- Common shape of the two version-entry patterns of lines 313 and 315:
a short prefix, then `"v": ` and an opening brace. -/
def patQ (pre : List Char) (v : String) : List Char :=
  pre ++ quoteChar :: (v.data ++ [quoteChar, ':', ' ', braceOpen])

/-- No occurrence of `pat` begins inside `A` when `A` is followed by `R`. -/
def noStart (pat A R : List Char) : Prop :=
  ∀ b, b <:+ A → b ≠ [] → pat.isPrefixOf (b ++ R) = false

/-- The dumped members of one inner version object. -/
def innerMems (vi : SelectedVersion) : List Char :=
  dumpsMembers [("version", Json.str vi.version), ("sha256", Json.str vi.sha256),
    ("metadata", Json.str vi.metadata)]

/-- One dumped version entry: key, `": "`, inner object. -/
def svmEntry (k : String) (vi : SelectedVersion) : List Char :=
  qstr k.data ++ (colsp ++ dumps (innerToJson vi))

/-- One dumped version entry with the close of its inner object removed. -/
def svmEntryOpen (k : String) (vi : SelectedVersion) : List Char :=
  qstr k.data ++ (colsp ++ braceOpen :: innerMems vi)

/-- The separator before the first version entry, rewritten by the line-313
replacement once the entry's version has been processed. -/
def sepFirst (done : List String) (k : String) : List Char :=
  if k ∈ done then braceOpen :: ind4 else [braceOpen]

/-- The separator before a later version entry, rewritten by the line-315
replacement once the entry's version has been processed. -/
def sepRest (done : List String) (k : String) : List Char :=
  if k ∈ done then ',' :: ind4 else csp

/-- Later version entries, each preceded by its separator. -/
def svmEntriesTail (done : List String) : List (String × SelectedVersion) → List Char
  | [] => []
  | (k, vi) :: rest => sepRest done k ++ (svmEntry k vi ++ svmEntriesTail done rest)

/-- The dumped version map after the passes for `done`. -/
def svmPart (done : List String) : List (String × SelectedVersion) → List Char
  | [] => braceOpen :: [braceClose]
  | (k, vi) :: rest =>
      sepFirst done k ++ (svmEntry k vi ++ (svmEntriesTail done rest ++ [braceClose]))

/-- The six fixed members of a dumped record, through the final `": "` before
the version map. -/
def fixedPart (r : ProcessedExtension) : List Char :=
  qstr "uuid".data ++ (colsp ++ (qstr r.uuid.data ++ (csp ++
    (qstr "name".data ++ (colsp ++ (qstr r.name.data ++ (csp ++
    (qstr "pname".data ++ (colsp ++ (qstr r.pname.data ++ (csp ++
    (qstr "description".data ++ (colsp ++ (qstr r.description.data ++ (csp ++
    (qstr "link".data ++ (colsp ++ (qstr r.link.data ++ (csp ++
    (qstr "shell_version_map".data ++ colsp))))))))))))))))))))

/-- The dumped record after the passes for `done`. -/
def recordPartial (r : ProcessedExtension) (done : List String) : List Char :=
  braceOpen :: (fixedPart r ++ (svmPart done r.shell_version_map ++ [braceClose]))

/-- The version-entry chain with the last inner close removed. -/
def svmChainOpen (done : List String) :
    (String × SelectedVersion) → List (String × SelectedVersion) → List Char
  | kv, [] => svmEntryOpen kv.1 kv.2
  | kv, e :: rest => svmEntry kv.1 kv.2 ++ (sepRest done e.1 ++ svmChainOpen done e rest)

/-- The fully rewritten version-entry chain of the final output. -/
def prettyChain : (String × SelectedVersion) → List (String × SelectedVersion) → List Char
  | kv, [] => svmEntryOpen kv.1 kv.2
  | kv, e :: rest => svmEntry kv.1 kv.2 ++ ((',' :: ind4) ++ prettyChain e rest)

/-- The final pretty-printed record, all three passes applied. -/
def recordPretty (r : ProcessedExtension) : List Char :=
  match r.shell_version_map with
  | [] => []
  | kv :: rest =>
      braceOpen :: (fixedPart r ++ ((braceOpen :: ind4) ++
        (prettyChain kv rest ++ tripleBraceNew)))

/-- The output after the first record: `", "`, record, newline, repeated. -/
def prettyTailRecords : List ProcessedExtension → List Char
  | [] => []
  | r :: rest => ',' :: ' ' :: (recordPretty r ++ newlineChar :: prettyTailRecords rest)

/-- Parser fuel sufficient for one record. -/
def recFuel (r : ProcessedExtension) : Nat := 2 * r.shell_version_map.length + 21

/-- Parser fuel sufficient for the element list of the whole file. -/
def arrFuel : List ProcessedExtension → Nat
  | [] => 0
  | r :: rest => recFuel r + (arrFuel rest + 1)

/-! ## Association-list lemmas -/

namespace AList

variable {α β : Type} [DecidableEq α]

theorem lookupA_nil (k : α) : lookupA ([] : AList α β) k = none := rfl

theorem lookupA_cons (kv : α × β) (rest : AList α β) (k : α) :
    lookupA (kv :: rest) k = if k = kv.1 then some kv.2 else lookupA rest k := rfl

theorem lookupA_dinsert_ne (d : AList α β) (k k' : α) (v : β) (h : k' ≠ k) :
    lookupA (dinsert d k v) k' = lookupA d k' := by
  induction d with
  | nil => simp [dinsert, lookupA, h]
  | cons kv rest ih =>
      by_cases hk : k = kv.1
      · subst hk
        simp [dinsert, lookupA_cons, h]
      · simp only [dinsert, if_neg hk, lookupA_cons]
        by_cases hk' : k' = kv.1 <;> simp [hk', ih]

theorem lookupA_dinsert_self (d : AList α β) (k : α) (v : β) :
    lookupA (dinsert d k v) k = some v := by
  induction d with
  | nil => simp [dinsert, lookupA]
  | cons kv rest ih =>
      by_cases hk : k = kv.1
      · simp [dinsert, lookupA, hk]
      · simp [dinsert, hk, lookupA_cons, ih]

theorem keysA_dinsert_notMem (d : AList α β) (k : α) (v : β)
    (h : k ∉ keysA d) : keysA (dinsert d k v) = keysA d ++ [k] := by
  induction d with
  | nil => simp [dinsert, keysA]
  | cons kv rest ih =>
      simp only [keysA, List.map_cons, List.mem_cons] at h
      push_neg at h
      simp only [dinsert, if_neg h.1, keysA, List.map_cons]
      have := ih (by simpa [keysA] using h.2)
      simpa [keysA] using congrArg (List.cons kv.1) this

theorem lookupA_eq_none_of_notMem (d : AList α β) (k : α) (h : k ∉ keysA d) :
    lookupA d k = none := by
  induction d with
  | nil => rfl
  | cons kv rest ih =>
      simp only [keysA, List.map_cons, List.mem_cons] at h
      push_neg at h
      simp [lookupA_cons, h.1, ih (by simpa [keysA] using h.2)]

theorem updateAt_notMem (d : AList α β) (k : α) (f : β → β) (h : k ∉ keysA d) :
    updateAt d k f = d := by
  induction d with
  | nil => rfl
  | cons kv rest ih =>
      simp only [keysA, List.map_cons, List.mem_cons] at h
      push_neg at h
      simp [updateAt, h.1, ih (by simpa [keysA] using h.2)]

theorem lookupA_updateAt_ne (d : AList α β) (k k' : α) (f : β → β) (h : k' ≠ k) :
    lookupA (updateAt d k f) k' = lookupA d k' := by
  induction d with
  | nil => rfl
  | cons kv rest ih =>
      by_cases hk : k = kv.1
      · subst hk
        simp [updateAt, lookupA_cons, h]
      · by_cases hk' : k' = kv.1 <;> simp [updateAt, hk, lookupA_cons, hk', ih]

theorem lookupA_updateAt_self (d : AList α β) (k : α) (f : β → β) :
    lookupA (updateAt d k f) k = (lookupA d k).map f := by
  induction d with
  | nil => rfl
  | cons kv rest ih =>
      by_cases hk : k = kv.1
      · simp [updateAt, hk, lookupA_cons]
      · simp [updateAt, hk, lookupA_cons, ih]

theorem keysA_updateAt (d : AList α β) (k : α) (f : β → β) :
    keysA (updateAt d k f) = keysA d := by
  induction d with
  | nil => rfl
  | cons kv rest ih =>
      by_cases hk : k = kv.1
      · simp [updateAt, hk, keysA]
      · simp only [updateAt, if_neg hk, keysA, List.map_cons]
        simpa [keysA] using ih

theorem mem_keysA_dinsert (d : AList α β) (k k' : α) (v : β) :
    k' ∈ keysA (dinsert d k v) ↔ k' = k ∨ k' ∈ keysA d := by
  induction d with
  | nil => simp [dinsert, keysA]
  | cons kv rest ih =>
      by_cases hk : k = kv.1
      · subst hk
        have h1 : dinsert (kv :: rest) kv.1 v = (kv.1, v) :: rest := by
          simp [dinsert]
        rw [h1]
        simp only [keysA, List.map_cons, List.mem_cons]
        tauto
      · have h1 : dinsert (kv :: rest) k v = kv :: dinsert rest k v := by
          simp [dinsert, hk]
        rw [h1]
        simp only [keysA, List.map_cons, List.mem_cons]
        simp only [keysA] at ih
        rw [ih]
        tauto

end AList

/-! ## Facts about the Version Selector (claims C2 and C7) -/

theorem listMaxInt_eq_none_iff (l : List Int) : listMaxInt l = none ↔ l = [] := by
  cases l <;> simp [listMaxInt]

theorem foldl_max_spec (xs : List Int) (x : Int) :
    xs.foldl max x ∈ x :: xs ∧ x ≤ xs.foldl max x ∧ ∀ w ∈ xs, w ≤ xs.foldl max x := by
  induction xs generalizing x with
  | nil => simp
  | cons y ys ih =>
      have h := ih (max x y)
      rw [List.foldl_cons]
      refine ⟨?_, ?_, ?_⟩
      · rcases List.mem_cons.mp h.1 with hmem | hmem
        · rcases max_choice x y with hc | hc
          · rw [hmem, hc]
            simp
          · rw [hmem, hc]
            simp
        · simp [hmem]
      · exact le_trans (le_max_left x y) h.2.1
      · intro w hw
        rcases List.mem_cons.mp hw with hw | hw
        · subst hw
          exact le_trans (le_max_right x w) h.2.1
        · exact h.2.2 w hw

theorem listMaxInt_spec (l : List Int) (v : Int) (h : listMaxInt l = some v) :
    v ∈ l ∧ ∀ w ∈ l, w ≤ v := by
  cases l with
  | nil => simp [listMaxInt] at h
  | cons x xs =>
      simp only [listMaxInt, Option.some_inj] at h
      subst h
      have h := foldl_max_spec xs x
      refine ⟨h.1, fun w hw => ?_⟩
      rcases List.mem_cons.mp hw with hw | hw
      · subst hw
        exact h.2.1
      · exact h.2.2 w hw

theorem selStep_foldl_notMem (m : AList String Int) :
    ∀ (l : List (String × String)) (acc : AList String Int) (g : String),
      g ∉ l.map (fun kv => kv.1) →
      lookupA (l.foldl (selStep m) acc) g = lookupA acc g := by
  intro l
  induction l with
  | nil => intro acc g _; rfl
  | cons kv rest ih =>
      intro acc g hg
      simp only [List.map_cons, List.mem_cons] at hg
      push_neg at hg
      rw [List.foldl_cons, ih _ g hg.2]
      rcases hM : listMaxInt (matchingVersions m kv.2) with _ | v
      · simp [selStep, hM]
      · by_cases hv : v = 0
        · simp [selStep, hM, hv]
        · simp [selStep, hM, hv, lookupA_dinsert_ne _ _ _ _ hg.1]

theorem selStep_foldl_mem (m : AList String Int) :
    ∀ (l : List (String × String)) (acc : AList String Int),
      (l.map (fun kv => kv.1)).Nodup →
      ∀ g p : String, (g, p) ∈ l → g ∉ keysA acc →
      lookupA (l.foldl (selStep m) acc) g = selectedVersion m p := by
  intro l
  induction l with
  | nil => intro acc _ g p hmem; simp at hmem
  | cons kv rest ih =>
      intro acc hnd g p hmem hacc
      obtain ⟨k, q⟩ := kv
      simp only [List.map_cons, List.nodup_cons] at hnd
      rw [List.foldl_cons]
      rcases List.mem_cons.mp hmem with heq | htail
      · have hg : g = k := congrArg Prod.fst heq
        have hp : p = q := congrArg Prod.snd heq
        subst hg
        subst hp
        rw [selStep_foldl_notMem m rest _ g hnd.1]
        rcases hM : listMaxInt (matchingVersions m p) with _ | v
        · simp [selStep, selectedVersion, hM, lookupA_eq_none_of_notMem _ _ hacc]
        · by_cases hv : v = 0
          · simp [selStep, selectedVersion, hM, hv, lookupA_eq_none_of_notMem _ _ hacc]
          · simp [selStep, selectedVersion, hM, hv, lookupA_dinsert_self]
      · have hgrest : g ∈ rest.map (fun kv => kv.1) := List.mem_map.mpr ⟨(g, p), htail, rfl⟩
        have hgk : g ≠ k := by
          intro h
          rw [h] at hgrest
          exact hnd.1 hgrest
        refine ih (selStep m acc (k, q)) hnd.2 g p htail ?_
        rcases hM : listMaxInt (matchingVersions m q) with _ | v
        · simpa [selStep, hM] using hacc
        · by_cases hv : v = 0
          · simpa [selStep, hM, hv] using hacc
          · simp only [selStep, hM, if_neg hv]
            intro hmem'
            rcases (mem_keysA_dinsert acc k g v).mp hmem' with h | h
            · exact hgk h
            · exact hacc h

/-- C2 (amended): for every input map from fine-grained compatibility labels
to version numbers and every `(group, prefix)` pair of the fixed
`supported_versions` table, the Version Selector maps the group to the maximum
version number among the labels starting with the prefix, with the proviso
that the script's Python falsiness test also drops the group when that maximum
is the integer `0`; the group is absent from the result exactly when no label
matches the prefix or the maximum matching version is `0`. -/
theorem selector_picks_max_matching (m : AList String Int) (g p : String)
    (h : (g, p) ∈ supportedVersions) :
    lookupA (selectVersions m) g = selectedVersion m p ∧
    (lookupA (selectVersions m) g = none ↔
      matchingVersions m p = [] ∨ listMaxInt (matchingVersions m p) = some 0) ∧
    (∀ v : Int, lookupA (selectVersions m) g = some v →
      v ∈ matchingVersions m p ∧ ∀ w ∈ matchingVersions m p, w ≤ v) := by
  have hmain : lookupA (selectVersions m) g = selectedVersion m p :=
    selStep_foldl_mem m supportedVersions [] (by decide) g p h (by simp [keysA])
  refine ⟨hmain, ?_, ?_⟩
  · rw [hmain]
    unfold selectedVersion
    rcases hM : listMaxInt (matchingVersions m p) with _ | v
    · simp [(listMaxInt_eq_none_iff _).mp hM]
    · have hne : matchingVersions m p ≠ [] := by
        intro h0
        rw [h0] at hM
        simp [listMaxInt] at hM
      by_cases hv : v = 0
      · subst hv
        simp [hne]
      · simp [hne, hv]
  · intro v hv
    rw [hmain] at hv
    unfold selectedVersion at hv
    rcases hM : listMaxInt (matchingVersions m p) with _ | w
    · rw [hM] at hv
      simp at hv
    · rw [hM] at hv
      by_cases hw : w = 0
      · simp [hw] at hv
      · simp [hw] at hv
        subst hv
        exact listMaxInt_spec _ _ hM

/-- Witness for C2: on the spec's own example `{"44": 10, "44.1": 12, "45": 3}`
the group `"44"` is mapped to version `12`. -/
theorem selector_picks_max_matching_witness :
    (("44", "44") ∈ supportedVersions) ∧
    lookupA (selectVersions [("44", (10 : Int)), ("44.1", 12), ("45", 3)]) "44" = some 12 := by
  refine ⟨by decide, ?_⟩
  have h := (selector_picks_max_matching [("44", (10 : Int)), ("44.1", 12), ("45", 3)]
    "44" "44" (by decide)).1
  rw [h]
  decide

/-- Counterexample for C2 as stated: with input `{"44": 0}` the label `"44"`
does start with the prefix `"44"` of group `"44"`, yet the group is absent
from the result, because line 109 (`if not extension_version`) treats the
version number `0` as "no version". -/
theorem selector_drops_zero_version :
    lookupA (selectVersions [("44", (0 : Int))]) "44" = none ∧
    pyStartsWith "44" "44" = true := by decide

/-- C7: within one call of `generate_extension_versions` (one raw record),
the versions passed to `fetch_extension_data` — the first component of the
model, built on lines 114-121 — contain no duplicates, and consist of exactly
the selected extension versions.  Hence the same `(uuid, version)` archive is
fetched at most once even when it serves several compatibility groups. -/
theorem fetch_once_per_selected_version (fetch : Int → String × String)
    (m : AList String Int) :
    (generateExtensionVersions fetch m).1.Nodup ∧
    ∀ v : Int, v ∈ (generateExtensionVersions fetch m).1 ↔
      v ∈ (selectVersions m).map (fun kv => kv.2) := by
  have h1 : (generateExtensionVersions fetch m).1 =
      sortedSet ((selectVersions m).map (fun kv => kv.2)) := rfl
  rw [h1]
  unfold sortedSet
  constructor
  · exact ((List.perm_insertionSort _ _).symm).nodup (List.nodup_dedup _)
  · intro v
    rw [(List.perm_insertionSort _ _).mem_iff, List.mem_dedup]

/-! ## More association-list lemmas, for the Collision Registry -/

namespace AList

variable {α β γ : Type} [DecidableEq α]

theorem keysA_dinsert_mem (d : AList α β) (k : α) (v : β) (h : k ∈ keysA d) :
    keysA (dinsert d k v) = keysA d := by
  induction d with
  | nil => simp [keysA] at h
  | cons kv rest ih =>
      by_cases hk : k = kv.1
      · have h1 : dinsert (kv :: rest) k v = (k, v) :: rest := by simp [dinsert, hk]
        rw [h1]
        simp [keysA, hk]
      · have h1 : dinsert (kv :: rest) k v = kv :: dinsert rest k v := by simp [dinsert, hk]
        rw [h1]
        have h' : k ∈ kv.1 :: keysA rest := h
        have h2 : k ∈ keysA rest := by
          rcases List.mem_cons.mp h' with h'' | h''
          · exact absurd h'' hk
          · exact h''
        have h3 := ih h2
        simp only [keysA, List.map_cons]
        simp only [keysA] at h3
        rw [h3]

theorem exists_lookupA_eq_some_of_mem (d : AList α β) (k : α) (h : k ∈ keysA d) :
    ∃ v, lookupA d k = some v := by
  induction d with
  | nil => simp [keysA] at h
  | cons kv rest ih =>
      by_cases hk : k = kv.1
      · exact ⟨kv.2, by simp [lookupA_cons, hk]⟩
      · have h' : k ∈ kv.1 :: keysA rest := h
        have h2 : k ∈ keysA rest := by
          rcases List.mem_cons.mp h' with h'' | h''
          · exact absurd h'' hk
          · exact h''
        rcases ih h2 with ⟨v, hv⟩
        exact ⟨v, by simp [lookupA_cons, hk, hv]⟩

end AList

theorem AList.keysA_map_fst_eq {α β γ : Type} (d : AList α β) (g : α × β → α × γ)
    (h : ∀ kv, (g kv).1 = kv.1) : keysA (d.map g) = keysA d := by
  simp only [keysA, List.map_map]
  congr 1
  funext kv
  exact h kv

theorem registryAdd_lookup_ne (u pn : String) (reg : Registry) (sv sv' : String)
    (h : sv' ≠ sv) : lookupA (registryAdd u pn reg sv) sv' = lookupA reg sv' :=
  lookupA_updateAt_ne _ _ _ _ h

theorem registryAdd_keysA (u pn : String) (reg : Registry) (sv : String) :
    keysA (registryAdd u pn reg sv) = keysA reg :=
  keysA_updateAt _ _ _

theorem registryAdd_lookup2_self (u pn : String) (reg : Registry) (sv : String)
    (h : sv ∈ keysA reg) :
    regLookup2 (registryAdd u pn reg sv) sv pn =
      some ((regLookup2 reg sv pn).getD [] ++ [u]) := by
  rcases exists_lookupA_eq_some_of_mem reg sv h with ⟨inner, hinner⟩
  rcases hpn : lookupA inner pn with _ | us
  · simp [regLookup2, registryAdd, lookupA_updateAt_self, hinner, hpn, lookupA_dinsert_self]
  · simp [regLookup2, registryAdd, lookupA_updateAt_self, hinner, hpn, lookupA_dinsert_self]

theorem registryAdd_lookup2_other (u pn : String) (reg : Registry) (sv p : String)
    (h : p ≠ pn) :
    regLookup2 (registryAdd u pn reg sv) sv p = regLookup2 reg sv p := by
  rcases hsv : lookupA reg sv with _ | inner
  · simp [regLookup2, registryAdd, lookupA_updateAt_self, hsv]
  · rcases hpn : lookupA inner pn with _ | us
    · simp [regLookup2, registryAdd, lookupA_updateAt_self, hsv, hpn,
        lookupA_dinsert_ne _ _ _ _ h]
    · simp [regLookup2, registryAdd, lookupA_updateAt_self, hsv, hpn,
        lookupA_dinsert_ne _ _ _ _ h]

theorem registry_foldl_spec (u pn : String) :
    ∀ (svs : List String) (reg : Registry), svs.Nodup →
      (∀ sv ∈ svs, sv ∈ keysA reg) →
      (∀ sv ∈ svs, regLookup2 (svs.foldl (registryAdd u pn) reg) sv pn =
          some ((regLookup2 reg sv pn).getD [] ++ [u])) ∧
      (∀ sv ∈ svs, ∀ p, p ≠ pn →
          regLookup2 (svs.foldl (registryAdd u pn) reg) sv p = regLookup2 reg sv p) ∧
      (∀ sv, sv ∉ svs →
          lookupA (svs.foldl (registryAdd u pn) reg) sv = lookupA reg sv) := by
  intro svs
  induction svs with
  | nil => exact fun reg _ _ => ⟨by simp, by simp, fun sv _ => rfl⟩
  | cons sv0 rest ih =>
      intro reg hnd hkeys
      have hnd' := List.nodup_cons.mp hnd
      have hkeys1 : ∀ sv ∈ rest, sv ∈ keysA (registryAdd u pn reg sv0) := by
        intro sv hsv
        rw [registryAdd_keysA]
        exact hkeys sv (List.mem_cons_of_mem _ hsv)
      have IH := ih (registryAdd u pn reg sv0) hnd'.2 hkeys1
      rw [List.foldl_cons]
      refine ⟨?_, ?_, ?_⟩
      · intro sv hsv
        rcases List.mem_cons.mp hsv with heq | htail
        · subst heq
          have h1 : regLookup2 (rest.foldl (registryAdd u pn) (registryAdd u pn reg sv))
              sv pn = regLookup2 (registryAdd u pn reg sv) sv pn := by
            unfold regLookup2
            rw [IH.2.2 sv hnd'.1]
          rw [h1, registryAdd_lookup2_self u pn reg sv (hkeys sv (by simp))]
        · have hne : sv ≠ sv0 := fun h => hnd'.1 (h ▸ htail)
          rw [IH.1 sv htail]
          have h2 : regLookup2 (registryAdd u pn reg sv0) sv pn = regLookup2 reg sv pn := by
            unfold regLookup2
            rw [registryAdd_lookup_ne u pn reg sv0 sv hne]
          rw [h2]
      · intro sv hsv p hp
        rcases List.mem_cons.mp hsv with heq | htail
        · subst heq
          have h1 : regLookup2 (rest.foldl (registryAdd u pn) (registryAdd u pn reg sv))
              sv p = regLookup2 (registryAdd u pn reg sv) sv p := by
            unfold regLookup2
            rw [IH.2.2 sv hnd'.1]
          rw [h1, registryAdd_lookup2_other u pn reg sv p hp]
        · have hne : sv ≠ sv0 := fun h => hnd'.1 (h ▸ htail)
          rw [IH.2.1 sv htail p hp]
          unfold regLookup2
          rw [registryAdd_lookup_ne u pn reg sv0 sv hne]
      · intro sv hsv
        have h1 : sv ∉ rest := fun h => hsv (List.mem_cons_of_mem _ h)
        have h2 : sv ≠ sv0 := fun h => hsv (by simp [h])
        rw [IH.2.2 sv h1, registryAdd_lookup_ne u pn reg sv0 sv h2]

theorem selStep_foldl_keys_sublist (m : AList String Int) :
    ∀ (l : List (String × String)) (acc : AList String Int),
      ∃ s, keysA (l.foldl (selStep m) acc) = keysA acc ++ s ∧
        s.Sublist (l.map (fun kv => kv.1)) := by
  intro l
  induction l with
  | nil => exact fun acc => ⟨[], by simp, by simp⟩
  | cons kv rest ih =>
      intro acc
      rw [List.foldl_cons]
      rcases hM : listMaxInt (matchingVersions m kv.2) with _ | v
      · have hstep : selStep m acc kv = acc := by simp [selStep, hM]
        rw [hstep]
        rcases ih acc with ⟨s, hs, hsub⟩
        exact ⟨s, hs, List.Sublist.cons _ hsub⟩
      · by_cases hv : v = 0
        · have hstep : selStep m acc kv = acc := by simp [selStep, hM, hv]
          rw [hstep]
          rcases ih acc with ⟨s, hs, hsub⟩
          exact ⟨s, hs, List.Sublist.cons _ hsub⟩
        · have hstep : selStep m acc kv = dinsert acc kv.1 v := by simp [selStep, hM, hv]
          rw [hstep]
          rcases ih (dinsert acc kv.1 v) with ⟨s, hs, hsub⟩
          by_cases hmem : kv.1 ∈ keysA acc
          · rw [keysA_dinsert_mem _ _ _ hmem] at hs
            exact ⟨s, hs, List.Sublist.cons _ hsub⟩
          · rw [keysA_dinsert_notMem _ _ _ hmem, List.append_assoc] at hs
            exact ⟨kv.1 :: s, by simpa using hs, List.Sublist.cons₂ _ hsub⟩

theorem selectVersions_keys_sublist (m : AList String Int) :
    (keysA (selectVersions m)).Sublist supportedKeys := by
  rcases selStep_foldl_keys_sublist m supportedVersions [] with ⟨s, hs, hsub⟩
  have h0 : keysA (selectVersions m) = s := by
    rw [show selectVersions m = supportedVersions.foldl (selStep m) [] from rfl, hs]
    rfl
  rw [h0]
  exact hsub

theorem selectVersions_keys_nodup (m : AList String Int) :
    (keysA (selectVersions m)).Nodup :=
  List.Nodup.sublist (selectVersions_keys_sublist m) (by decide)

theorem generateExtensionVersions_keysA (fetch : Int → String × String)
    (m : AList String Int) :
    keysA (generateExtensionVersions fetch m).2 = keysA (selectVersions m) := by
  refine keysA_map_fst_eq (selectVersions m) _ (fun kv => rfl)

/-- C10: whenever `process_extension` skips a record — because the raw
`shell_version_map` is empty (line 193) or the version selection yields no
groups (line 206) — it returns `None` and the `package_name_registry` is left
completely unchanged. -/
theorem process_extension_skip_frame (fetch : Int → String × String)
    (ext : RawExtension) (reg : Registry)
    (h : ext.shell_version_map = [] ∨
      (generateExtensionVersions fetch (rawVersionInts ext)).2 = []) :
    processExtension fetch ext reg = Except.ok (none, reg) := by
  rcases h with h | h
  · simp [processExtension, h]
  · by_cases hsvm : ext.shell_version_map = []
    · simp [processExtension, hsvm]
    · simp [processExtension, hsvm, h]

/-- Witness for C10: a record with an empty `shell_version_map` is skipped and
the initial registry comes back untouched. -/
theorem process_extension_skip_frame_witness :
    processExtension sampleFetch sampleRawEmpty registryInit = Except.ok (none, registryInit) :=
  process_extension_skip_frame sampleFetch sampleRawEmpty registryInit (Or.inl rfl)

/-- C9: when `process_extension` produces a record, the registry is updated
exactly once per (compatibility group, extension) pair (lines 212-217): for
each shell version present in the selection the record's uuid is appended to
the uuid list registered for (group, pname) — the entry being created as
`[uuid]` if absent — while every other (group, name) entry is unchanged. -/
theorem process_extension_updates_registry_once
    (fetch : Int → String × String) (ext : RawExtension) (reg : Registry)
    (pname pid sv p : String)
    (hsvm : ext.shell_version_map ≠ [])
    (hfull : (generateExtensionVersions fetch (rawVersionInts ext)).2 ≠ [])
    (hlink : pnameFromUrl ext.link = some (pname, pid))
    (hreg : keysA reg = supportedKeys) :
    processExtension fetch ext reg =
      Except.ok (some (ProcessedExtension.mk ext.uuid ext.name pname ext.description
          ("https://extensions.gnome.org" ++ ext.link)
          (generateExtensionVersions fetch (rawVersionInts ext)).2),
        (keysA (generateExtensionVersions fetch (rawVersionInts ext)).2).foldl
          (registryAdd ext.uuid pname) reg) ∧
    (sv ∈ keysA (generateExtensionVersions fetch (rawVersionInts ext)).2 →
      regLookup2 ((keysA (generateExtensionVersions fetch (rawVersionInts ext)).2).foldl
          (registryAdd ext.uuid pname) reg) sv pname =
        some ((regLookup2 reg sv pname).getD [] ++ [ext.uuid])) ∧
    (sv ∈ keysA (generateExtensionVersions fetch (rawVersionInts ext)).2 → p ≠ pname →
      regLookup2 ((keysA (generateExtensionVersions fetch (rawVersionInts ext)).2).foldl
          (registryAdd ext.uuid pname) reg) sv p = regLookup2 reg sv p) ∧
    (sv ∉ keysA (generateExtensionVersions fetch (rawVersionInts ext)).2 →
      lookupA ((keysA (generateExtensionVersions fetch (rawVersionInts ext)).2).foldl
          (registryAdd ext.uuid pname) reg) sv = lookupA reg sv) := by
  have hkeysfull : keysA (generateExtensionVersions fetch (rawVersionInts ext)).2 =
      keysA (selectVersions (rawVersionInts ext)) :=
    generateExtensionVersions_keysA fetch (rawVersionInts ext)
  have hnd : (keysA (generateExtensionVersions fetch (rawVersionInts ext)).2).Nodup := by
    rw [hkeysfull]
    exact selectVersions_keys_nodup _
  have hsub : ∀ sv' ∈ keysA (generateExtensionVersions fetch (rawVersionInts ext)).2,
      sv' ∈ keysA reg := by
    intro sv' h
    rw [hreg]
    rw [hkeysfull] at h
    exact (selectVersions_keys_sublist _).subset h
  have HF := registry_foldl_spec ext.uuid pname
    (keysA (generateExtensionVersions fetch (rawVersionInts ext)).2) reg hnd hsub
  refine ⟨?_, fun h => HF.1 sv h, fun h hp => HF.2.1 sv h p hp, fun h => HF.2.2 sv h⟩
  simp [processExtension, hsvm, hfull, hlink, keysA]

/-- Witness for C9: processing the sample record against the initial registry
creates the entry `("45", "cool-ext") -> ["cool@example.org"]`. -/
theorem process_extension_updates_registry_once_witness :
    regLookup2 ((keysA (generateExtensionVersions sampleFetch (rawVersionInts sampleRaw)).2).foldl
        (registryAdd "cool@example.org" "cool-ext") registryInit) "45" "cool-ext" =
      some ["cool@example.org"] := by
  have h := (process_extension_updates_registry_once sampleFetch sampleRaw registryInit
    "cool-ext" "99" "45" "other" (by decide) (by decide) (by decide) (by decide)).2.1
    (by decide)
  rw [show sampleRaw.uuid = "cool@example.org" from rfl] at h
  rw [h]
  decide

/-! ## Facts about the `request` retry loop (claim C3) -/

theorem requestT_ok_first {α : Type} (resp : Nat → Except Nat α) (codes : List Nat)
    (att : Nat) (a : α) (h : resp att = Except.ok a) :
    ∀ n, requestT resp codes att n = ([att], Except.ok a) := by
  intro n
  cases n with
  | zero => simp [requestT, h]
  | succ n => simp [requestT, h]

theorem requestT_err_stop {α : Type} (resp : Nat → Except Nat α) (codes : List Nat)
    (att c : Nat) (h : resp att = Except.error c) (hc : c ∉ codes) :
    ∀ n, requestT resp codes att n = ([att], Except.error c) := by
  intro n
  cases n with
  | zero => simp [requestT, h]
  | succ n => simp [requestT, h, hc]

theorem requestT_err_retry {α : Type} (resp : Nat → Except Nat α) (codes : List Nat)
    (att c n : Nat) (h : resp att = Except.error c) (hc : c ∈ codes) :
    requestT resp codes att (n + 1) =
      (att :: (requestT resp codes (att + 1) n).1, (requestT resp codes (att + 1) n).2) := by
  simp [requestT, h, hc]

theorem requestT_ok_after {α : Type} (resp : Nat → Except Nat α) (codes : List Nat)
    (a : α) : ∀ (k att n : Nat), k ≤ n →
      (∀ j, j < k → ∃ cj ∈ codes, resp (att + j) = Except.error cj) →
      resp (att + k) = Except.ok a →
      requestT resp codes att n = (List.range' att (k + 1), Except.ok a) := by
  intro k
  induction k with
  | zero =>
      intro att n _ _ hok
      rw [requestT_ok_first resp codes att a (by simpa using hok)]
      simp [List.range'_succ]
  | succ k ih =>
      intro att n hkn hfail hok
      obtain ⟨n', rfl⟩ : ∃ n', n = n' + 1 := ⟨n - 1, by omega⟩
      rcases hfail 0 (Nat.succ_pos k) with ⟨c0, hc0, hr0⟩
      rw [Nat.add_zero] at hr0
      rw [requestT_err_retry resp codes att c0 n' hr0 hc0]
      have IH := ih (att + 1) n' (by omega)
        (fun j hj => by
          rcases hfail (j + 1) (by omega) with ⟨cj, hcj, hrj⟩
          exact ⟨cj, hcj, by rw [show att + 1 + j = att + (j + 1) by omega]; exact hrj⟩)
        (by rw [show att + 1 + k = att + (k + 1) by omega]; exact hok)
      rw [IH]
      simp [List.range'_succ]

theorem requestT_all_fail {α : Type} (resp : Nat → Except Nat α) (codes : List Nat) :
    ∀ (n att : Nat),
      (∀ j, j ≤ n → ∃ cj ∈ codes, resp (att + j) = Except.error cj) →
      ∃ cE ∈ codes, resp (att + n) = Except.error cE ∧
        requestT resp codes att n = (List.range' att (n + 1), Except.error cE) := by
  intro n
  induction n with
  | zero =>
      intro att hfail
      rcases hfail 0 (le_refl 0) with ⟨c, hc, hr⟩
      rw [Nat.add_zero] at hr
      exact ⟨c, hc, by simpa using hr, by simp [requestT, hr, List.range'_succ]⟩
  | succ n ih =>
      intro att hfail
      rcases hfail 0 (Nat.zero_le _) with ⟨c0, hc0, hr0⟩
      rw [Nat.add_zero] at hr0
      rcases ih (att + 1)
        (fun j hj => by
          rcases hfail (j + 1) (by omega) with ⟨cj, hcj, hrj⟩
          exact ⟨cj, hcj, by rw [show att + 1 + j = att + (j + 1) by omega]; exact hrj⟩)
        with ⟨cE, hcE, hrE, hT⟩
      refine ⟨cE, hcE, by rw [show att + (n + 1) = att + 1 + n by omega]; exact hrE, ?_⟩
      rw [requestT_err_retry resp codes att c0 n hr0 hc0, hT]
      simp [List.range'_succ]

/-- C3 (amended): for one page request, only the status codes in
`retry_codes` (by default 500, 502, 503 and 504) are retried: such a failure
is re-attempted with the same page up to `retries` more times and surfaces as
fatal only after all `retries + 1` attempts failed, while any other HTTP
failure — 404, but also e.g. 403 or 501 — is raised on the attempt where it
occurs, without any retry. -/
theorem request_retry_behavior {α : Type} (resp : Nat → Except Nat α)
    (retries : Nat) (codes : List Nat) (c k : Nat) (a : α) :
    (resp 0 = Except.error c → c ∉ codes →
      request resp retries codes = ([0], Except.error c)) ∧
    (k ≤ retries → (∀ j, j < k → ∃ cj ∈ codes, resp j = Except.error cj) →
      resp k = Except.ok a →
      request resp retries codes = (List.range' 0 (k + 1), Except.ok a)) ∧
    ((∀ j, j ≤ retries → ∃ cj ∈ codes, resp j = Except.error cj) →
      ∃ cE ∈ codes, resp retries = Except.error cE ∧
        request resp retries codes = (List.range' 0 (retries + 1), Except.error cE)) := by
  refine ⟨?_, ?_, ?_⟩
  · intro h hc
    exact requestT_err_stop resp codes 0 c h hc retries
  · intro hk hfail hok
    exact requestT_ok_after resp codes a k 0 retries hk
      (fun j hj => by simpa using hfail j hj) (by simpa using hok)
  · intro hfail
    rcases requestT_all_fail resp codes retries 0
      (fun j hj => by simpa using hfail j hj) with ⟨cE, hcE, hrE, hT⟩
    exact ⟨cE, hcE, by simpa using hrE, hT⟩

/-- Witness for C3: two retryable 503 failures followed by a success make
three attempts (pages 0, 1, 2 of the retry loop) and return the value. -/
theorem request_retry_behavior_witness :
    request (fun j => if j < 2 then Except.error 503 else Except.ok (42 : Nat)) 5
      defaultRetryCodes = (List.range' 0 3, Except.ok 42) := by
  have h := (request_retry_behavior
    (fun j => if j < 2 then Except.error 503 else Except.ok (42 : Nat)) 5
    defaultRetryCodes 0 2 42).2.1 (by decide)
    (fun j hj => ⟨503, by decide, by simp [hj]⟩) rfl
  exact h

/-- Counterexample for C3 as stated: a constant `403 Forbidden` response —
an HTTP failure other than 404 — is never retried: `request` performs exactly
one attempt and surfaces the failure immediately, although its retry budget
(5 retries) is untouched. -/
theorem non_retry_code_not_retried :
    request (fun _ => (Except.error 403 : Except Nat Unit)) 5 defaultRetryCodes =
      ([0], Except.error 403) ∧
    (403 : Nat) ≠ 404 ∧ ([0] : List Nat).length = 1 := by
  refine ⟨rfl, by decide, rfl⟩

/-! ## Facts about `scrape_extensions_index` (claim C5) -/

theorem scrapeGo_run (pr : Nat → Except Nat (List RawExtension))
    (pages : Nat → List RawExtension) (k : Nat) :
    ∀ (d page0 : Nat) (acc : List RawExtension) (fuel : Nat),
      page0 + d + 1 = k → d + 1 ≤ fuel →
      (∀ p, page0 < p → p < k → pr p = Except.ok (pages p) ∧ 25 ≤ (pages p).length) →
      (pr k = Except.ok (pages k) → (pages k).length < 25 →
        scrapeGo pr fuel page0 acc =
          some (Except.ok (acc ++ (List.range' (page0 + 1) (d + 1)).flatMap pages))) ∧
      (pr k = Except.error 404 →
        scrapeGo pr fuel page0 acc =
          some (Except.ok (acc ++ (List.range' (page0 + 1) d).flatMap pages))) := by
  intro d
  induction d with
  | zero =>
      intro page0 acc fuel hk hfuel _hfull
      obtain ⟨f, rfl⟩ : ∃ f, fuel = f + 1 := ⟨fuel - 1, by omega⟩
      have hk' : k = page0 + 1 := by omega
      subst hk'
      constructor
      · intro hok hlen
        simp [scrapeGo, hok, hlen, List.range'_succ]
      · intro h404
        simp [scrapeGo, h404]
  | succ d ih =>
      intro page0 acc fuel hk hfuel hfull
      obtain ⟨f, rfl⟩ : ∃ f, fuel = f + 1 := ⟨fuel - 1, by omega⟩
      have hp1 := hfull (page0 + 1) (by omega) (by omega)
      have hnl : ¬ ((pages (page0 + 1)).length < 25) := by omega
      have hstep : scrapeGo pr (f + 1) page0 acc =
          scrapeGo pr f (page0 + 1) (acc ++ pages (page0 + 1)) := by
        simp [scrapeGo, hp1.1, hnl]
      rw [hstep]
      have IH := ih (page0 + 1) (acc ++ pages (page0 + 1)) f (by omega) (by omega)
        (fun p h1 h2 => hfull p (by omega) h2)
      constructor
      · intro hok hlen
        rw [IH.1 hok hlen]
        rw [show List.range' (page0 + 1) (d + 1 + 1) =
          (page0 + 1) :: List.range' (page0 + 1 + 1) (d + 1) from List.range'_succ _ _ _]
        simp [List.append_assoc]
      · intro h404
        rw [IH.2 h404]
        rw [show List.range' (page0 + 1) (d + 1) =
          (page0 + 1) :: List.range' (page0 + 1 + 1) d from List.range'_succ _ _ _]
        simp [List.append_assoc]

/-- C5: if pages 1..k-1 are full (at least the page size of 25 items) then
the fetcher halts at page `k`: when page `k` has fewer than 25 items its
items are included in the result; when page `k` answers HTTP 404 the result
contains exactly the items of pages 1..k-1.  Either way the accumulated items
are sorted by the catalog's `pk` insertion-order key (the result is the
stable sort of the accumulation, hence sorted and a permutation of it). -/
theorem scrape_pagination_termination
    (pr : Nat → Except Nat (List RawExtension)) (pages : Nat → List RawExtension)
    (k fuel : Nat) (hk : 1 ≤ k) (hfuel : k ≤ fuel)
    (hfullpages : ∀ p, 1 ≤ p → p < k → pr p = Except.ok (pages p) ∧ 25 ≤ (pages p).length) :
    (pr k = Except.ok (pages k) → (pages k).length < 25 →
      scrapeExtensionsIndex pr fuel =
        some (Except.ok (sortByPk ((List.range' 1 k).flatMap pages))) ∧
      List.Sorted (fun a b : RawExtension => a.pk ≤ b.pk)
        (sortByPk ((List.range' 1 k).flatMap pages)) ∧
      (sortByPk ((List.range' 1 k).flatMap pages)).Perm
        ((List.range' 1 k).flatMap pages)) ∧
    (pr k = Except.error 404 →
      scrapeExtensionsIndex pr fuel =
        some (Except.ok (sortByPk ((List.range' 1 (k - 1)).flatMap pages))) ∧
      (sortByPk ((List.range' 1 (k - 1)).flatMap pages)).Perm
        ((List.range' 1 (k - 1)).flatMap pages)) := by
  have H := scrapeGo_run pr pages k (k - 1) 0 [] fuel (by omega) (by omega)
    (fun p h1 h2 => hfullpages p (by omega) h2)
  constructor
  · intro hok hlen
    have h1 := H.1 hok hlen
    rw [show (k - 1) + 1 = k by omega] at h1
    simp only [Nat.zero_add, List.nil_append] at h1
    refine ⟨?_, List.sorted_insertionSort _ _, List.perm_insertionSort _ _⟩
    unfold scrapeExtensionsIndex
    rw [h1]
  · intro h404
    have h1 := H.2 h404
    simp only [Nat.zero_add, List.nil_append] at h1
    refine ⟨?_, List.perm_insertionSort _ _⟩
    unfold scrapeExtensionsIndex
    rw [h1]

/-- Witness for C5: a single page with one item (fewer than 25) halts the
fetcher after that page and returns the item. -/
theorem scrape_pagination_termination_witness :
    scrapeExtensionsIndex
        (fun p => if p = 1 then Except.ok [sampleRaw] else Except.error 404) 1 =
      some (Except.ok [sampleRaw]) := by
  have h := (scrape_pagination_termination
    (fun p => if p = 1 then Except.ok [sampleRaw] else Except.error 404)
    (fun _ => [sampleRaw]) 1 1 (le_refl 1) (le_refl 1)
    (fun p hp1 hp2 => absurd (Nat.lt_of_le_of_lt hp1 hp2) (Nat.lt_irrefl 1))).1
    rfl (by decide)
  rw [h.1]
  decide

/-! ## Facts about `fetch_extension_data` (claims C6 and C8) -/

theorem fetchAttempts_all_fail (proc : Nat → ProcResult) :
    ∀ (n start : Nat), (∀ j, j < n → (proc (start + j)).returncode ≠ 0) →
      fetchAttempts proc start n = (List.range' start n, none) := by
  intro n
  induction n with
  | zero => intro start _; rfl
  | succ n ih =>
      intro start hfail
      have h0 : (proc start).returncode ≠ 0 := by simpa using hfail 0 (Nat.succ_pos n)
      have IH := ih (start + 1) (fun j hj => by
        have h := hfail (j + 1) (by omega)
        rwa [show start + (j + 1) = start + 1 + j by omega] at h)
      simp [fetchAttempts, h0, IH, List.range'_succ]

theorem fetchAttempts_first_ok (proc : Nat → ProcResult) :
    ∀ (i start n : Nat), i < n → (∀ j, j < i → (proc (start + j)).returncode ≠ 0) →
      (proc (start + i)).returncode = 0 →
      fetchAttempts proc start n = (List.range' start (i + 1), some (start + i)) := by
  intro i
  induction i with
  | zero =>
      intro start n hn _ hok
      obtain ⟨n', rfl⟩ : ∃ n', n = n' + 1 := ⟨n - 1, by omega⟩
      have hok' : (proc start).returncode = 0 := by simpa using hok
      simp [fetchAttempts, hok', List.range'_succ]
  | succ i ih =>
      intro start n hn hfail hok
      obtain ⟨n', rfl⟩ : ∃ n', n = n' + 1 := ⟨n - 1, by omega⟩
      have h0 : (proc start).returncode ≠ 0 := by simpa using hfail 0 (Nat.succ_pos i)
      have IH := ih (start + 1) n' (by omega)
        (fun j hj => by
          have h := hfail (j + 1) (by omega)
          rwa [show start + (j + 1) = start + 1 + j by omega] at h)
        (by rw [show start + 1 + i = start + (i + 1) by omega]; exact hok)
      simp [fetchAttempts, h0, IH, List.range'_succ]
      omega

/-- C6: the Content Resolver retries `nix-prefetch-url` up to 10 times on
non-zero exit status — the trace on total failure is exactly the 10 attempt
indices and the fatal exception is raised; a successful attempt stops the
retrying and, given the collaborator contract that a successful run prints
the hash and the store path on two stdout lines and that the metadata text
is ASCII-encodable (its violation is claim C8's subject), the call returns
the hash and the encoded metadata without raising; under that contract the
exception is raised exactly when all 10 attempts fail. -/
theorem fetch_retry_behavior (proc : Nat → ProcResult) (meta : String)
    (i : Nat) (l0 l1 : String) :
    ((∀ j, j < 10 → (proc j).returncode ≠ 0) →
      fetchExtensionData proc meta =
        (List.range' 0 10,
         Except.error "Retried 10 times, but still failed to download the extension. Exiting.")) ∧
    (i < 10 → (∀ j, j < i → (proc j).returncode ≠ 0) → (proc i).returncode = 0 →
      (pySplitlines (proc i).stdout)[0]? = some l0 →
      (pySplitlines (proc i).stdout)[1]? = some l1 →
      (∀ c ∈ meta.data, c.toNat < 128) →
      fetchExtensionData proc meta =
        (List.range' 0 (i + 1),
         Except.ok (pyStrip l0, String.mk (b64encode (meta.data.map Char.toNat))))) ∧
    ((∀ j, (proc j).returncode = 0 → 2 ≤ (pySplitlines (proc j).stdout).length) →
      (∀ c ∈ meta.data, c.toNat < 128) →
      (isErrorE (fetchExtensionData proc meta).2 = true ↔
        ∀ j, j < 10 → (proc j).returncode ≠ 0)) := by
  have hasc : (∀ c ∈ meta.data, c.toNat < 128) →
      encodeAscii meta = some (meta.data.map Char.toNat) := by
    intro hascii
    unfold encodeAscii
    rw [if_pos]
    exact List.all_eq_true.mpr (fun c hc => decide_eq_true (hascii c hc))
  refine ⟨?_, ?_, ?_⟩
  · intro hfail
    have h := fetchAttempts_all_fail proc 10 0 (fun j hj => by simpa using hfail j hj)
    simp [fetchExtensionData, h]
  · intro hi hfail hok h0 h1 hascii
    have h := fetchAttempts_first_ok proc i 0 10 hi
      (fun j hj => by simpa using hfail j hj) (by simpa using hok)
    simp [fetchExtensionData, h, h0, h1, hasc hascii]
  · intro hcontract hascii
    by_cases hex : ∃ j, j < 10 ∧ (proc j).returncode = 0
    · have hP : ∃ j, (fun j => j < 10 ∧ (proc j).returncode = 0) j := hex
      have hspec := Nat.find_spec hP
      have hmin := fun j (hj : j < Nat.find hP) => Nat.find_min hP hj
      have hfail : ∀ j, j < Nat.find hP → (proc j).returncode ≠ 0 := by
        intro j hj hrc
        exact hmin j hj ⟨by omega, hrc⟩
      have hlen := hcontract (Nat.find hP) hspec.2
      have h0 : (pySplitlines (proc (Nat.find hP)).stdout)[0]? =
          some ((pySplitlines (proc (Nat.find hP)).stdout).get ⟨0, by omega⟩) :=
        List.getElem?_eq_getElem (by omega)
      have h1 : (pySplitlines (proc (Nat.find hP)).stdout)[1]? =
          some ((pySplitlines (proc (Nat.find hP)).stdout).get ⟨1, by omega⟩) :=
        List.getElem?_eq_getElem (by omega)
      have h := fetchAttempts_first_ok proc (Nat.find hP) 0 10 hspec.1
        (fun j hj => by simpa using hfail j hj) (by simpa using hspec.2)
      constructor
      · intro hErr
        exfalso
        rw [show fetchExtensionData proc meta =
          (List.range' 0 (Nat.find hP + 1),
           Except.ok (pyStrip ((pySplitlines (proc (Nat.find hP)).stdout).get ⟨0, by omega⟩),
             String.mk (b64encode (meta.data.map Char.toNat)))) from by
            simp [fetchExtensionData, h, h0, h1, hasc hascii]] at hErr
        simp [isErrorE] at hErr
      · intro hall
        exact absurd hspec.2 (hall (Nat.find hP) hspec.1)
    · push_neg at hex
      have h := fetchAttempts_all_fail proc 10 0 (fun j hj => by simpa using hex j hj)
      constructor
      · intro _
        intro j hj
        exact hex j hj
      · intro _
        rw [show fetchExtensionData proc meta =
          (List.range' 0 10,
           Except.error "Retried 10 times, but still failed to download the extension. Exiting.")
          from by simp [fetchExtensionData, h]]
        rfl

/-- Witness for C6: two failed attempts followed by a success give attempt
trace `[0, 1, 2]` and return the parsed hash with base64 metadata. -/
theorem fetch_retry_behavior_witness :
    fetchExtensionData sampleProc "meta" =
      (List.range' 0 3, Except.ok ("sha256-xyz", "bWV0YQ==")) := by
  have h := (fetch_retry_behavior sampleProc "meta" 2 "sha256-xyz" "/nix/store/abc").2.1
    (by decide) (by decide) (by decide) (by decide) (by decide) (by decide)
  rw [h]
  decide

/-- Counterexample for C8 as stated: an archive whose `metadata.json` holds
the one-character UTF-8 text `"é"` makes the Content Resolver raise
`UnicodeEncodeError` (fatal) instead of returning the encoded content,
because line 81 encodes the text as ASCII, not UTF-8. -/
theorem metadata_non_ascii_raises :
    fetchExtensionData (fun _ => ProcResult.mk 0 "hash\npath\n" "") "é" =
      ([0], Except.error "UnicodeEncodeError") ∧
    ¬ ('é'.toNat < 128) := by
  exact ⟨rfl, by decide⟩

/-- C8 (amended): on a successful fetch the metadata document is returned
base64-encoded exactly when its text is pure ASCII; any non-ASCII character
makes line 81 (`.encode("ascii")`) raise `UnicodeEncodeError` instead of
returning the content. -/
theorem metadata_ascii_roundtrip (proc : Nat → ProcResult) (meta : String)
    (i : Nat) (l0 l1 : String)
    (hi : i < 10) (hfail : ∀ j, j < i → (proc j).returncode ≠ 0)
    (hok : (proc i).returncode = 0)
    (h0 : (pySplitlines (proc i).stdout)[0]? = some l0)
    (h1 : (pySplitlines (proc i).stdout)[1]? = some l1) :
    ((∀ c ∈ meta.data, c.toNat < 128) →
      (fetchExtensionData proc meta).2 =
        Except.ok (pyStrip l0, String.mk (b64encode (meta.data.map Char.toNat)))) ∧
    ((∃ c ∈ meta.data, ¬ c.toNat < 128) →
      (fetchExtensionData proc meta).2 = Except.error "UnicodeEncodeError") := by
  have h := fetchAttempts_first_ok proc i 0 10 hi
    (fun j hj => by simpa using hfail j hj) (by simpa using hok)
  constructor
  · intro hascii
    have hasc : encodeAscii meta = some (meta.data.map Char.toNat) := by
      unfold encodeAscii
      rw [if_pos]
      exact List.all_eq_true.mpr (fun c hc => decide_eq_true (hascii c hc))
    simp [fetchExtensionData, h, h0, h1, hasc]
  · intro hbad
    have hasc : encodeAscii meta = none := by
      unfold encodeAscii
      rw [if_neg]
      intro hall
      rcases hbad with ⟨c, hc, hlt⟩
      exact hlt (of_decide_eq_true (List.all_eq_true.mp hall c hc))
    simp [fetchExtensionData, h, h0, h1, hasc]

/-- Witness for C8 (amended): ASCII metadata `"abc"` comes back as its
base64 encoding `"YWJj"` alongside the hash. -/
theorem metadata_ascii_roundtrip_witness :
    (fetchExtensionData (fun _ => ProcResult.mk 0 "hash\npath\n" "") "abc").2 =
      Except.ok ("hash", "YWJj") := by
  have h := (metadata_ascii_roundtrip (fun _ => ProcResult.mk 0 "hash\npath\n" "") "abc" 0
    "hash" "path" (by decide) (fun j hj => absurd hj (Nat.not_lt_zero j)) (by decide)
    (by decide) (by decide)).1 (by decide)
  rw [h]
  decide

/-! ## Facts about the collision report (claim C4) -/

theorem setUpdate_append (base u1 u2 : List String) :
    setUpdate (setUpdate base u1) u2 = setUpdate base (u1 ++ u2) := by
  unfold setUpdate
  rw [List.foldl_append]

theorem mem_setUpdate (x : String) : ∀ (new base : List String),
    x ∈ setUpdate base new ↔ x ∈ base ∨ x ∈ new := by
  intro new
  induction new with
  | nil => intro base; simp [setUpdate]
  | cons u us ih =>
      intro base
      have h1 : setUpdate base (u :: us) =
          setUpdate (if u ∈ base then base else base ++ [u]) us := rfl
      rw [h1, ih]
      by_cases hu : u ∈ base
      · rw [if_pos hu]
        constructor
        · rintro (h | h)
          · exact Or.inl h
          · simp [h]
        · rintro (h | h)
          · exact Or.inl h
          · rcases List.mem_cons.mp h with h' | h'
            · exact Or.inl (h' ▸ hu)
            · exact Or.inr h'
      · rw [if_neg hu]
        simp only [List.mem_append, List.mem_singleton, List.mem_cons]
        tauto

theorem setUpdate_nodup : ∀ (new base : List String),
    base.Nodup → (setUpdate base new).Nodup := by
  intro new
  induction new with
  | nil => intro base h; exact h
  | cons u us ih =>
      intro base h
      have h1 : setUpdate base (u :: us) =
          setUpdate (if u ∈ base then base else base ++ [u]) us := rfl
      rw [h1]
      by_cases hu : u ∈ base
      · rw [if_pos hu]
        exact ih base h
      · rw [if_neg hu]
        refine ih _ ?_
        exact List.nodup_append.mpr ⟨h, List.nodup_singleton u, fun a ha hb => by
          simp at hb
          subst hb
          exact hu ha⟩

theorem collisionsStep_cons (filtered : AList String (List String)) (k : String)
    (us : List String) (rest : AList String (List String)) :
    collisionsStep filtered ((k, us) :: rest) =
      collisionsStep (dinsert filtered k (setUpdate ((lookupA filtered k).getD []) us)) rest := by
  show List.foldl _ _ _ = _
  rw [List.foldl_cons]
  congr 1
  rcases hf : lookupA filtered k with _ | s
  · simp [hf]
  · simp [hf]

theorem collisionsStep_keys (name : String) :
    ∀ (pkgs filtered : AList String (List String)),
      name ∈ keysA (collisionsStep filtered pkgs) ↔
        name ∈ keysA filtered ∨ name ∈ keysA pkgs := by
  intro pkgs
  induction pkgs with
  | nil => intro filtered; simp [collisionsStep, keysA]
  | cons kv rest ih =>
      intro filtered
      obtain ⟨k, us⟩ := kv
      rw [collisionsStep_cons, ih, mem_keysA_dinsert]
      simp only [keysA, List.map_cons, List.mem_cons]
      tauto

theorem collisionsStep_lookup (name : String) :
    ∀ (pkgs filtered : AList String (List String)),
      (keysA pkgs).Nodup →
      lookupA (collisionsStep filtered pkgs) name =
        (if name ∈ keysA pkgs then
          some (setUpdate ((lookupA filtered name).getD []) ((lookupA pkgs name).getD []))
        else lookupA filtered name) := by
  intro pkgs
  induction pkgs with
  | nil =>
      intro filtered _
      simp [collisionsStep, keysA]
  | cons kv rest ih =>
      intro filtered hnd
      obtain ⟨k, us⟩ := kv
      simp only [keysA, List.map_cons, List.nodup_cons] at hnd
      rw [collisionsStep_cons, ih _ hnd.2]
      by_cases hk : name = k
      · subst hk
        rw [if_neg (by simpa [keysA] using hnd.1)]
        rw [lookupA_dinsert_self]
        rw [if_pos (by simp [keysA])]
        simp [lookupA_cons]
      · simp only [lookupA_dinsert_ne _ _ _ _ hk]
        have hmem : (name ∈ keysA ((k, us) :: rest)) ↔ name ∈ keysA rest := by
          simp [keysA, hk]
        have hlk : lookupA ((k, us) :: rest) name = lookupA rest name := by
          simp [lookupA_cons, hk]
        rw [hlk]
        by_cases hmr : name ∈ keysA rest
        · rw [if_pos hmr, if_pos (hmem.mpr hmr)]
        · rw [if_neg hmr, if_neg (fun h => hmr (hmem.mp h))]

theorem collisions_merge_lookup (name : String) :
    ∀ (regs : List (AList String (List String))) (filtered : AList String (List String)),
      (∀ pkgs ∈ regs, (keysA pkgs).Nodup) →
      lookupA (regs.foldl collisionsStep filtered) name =
        (if name ∈ keysA filtered ∨ ∃ pkgs ∈ regs, name ∈ keysA pkgs then
          some (setUpdate ((lookupA filtered name).getD [])
            (regs.flatMap (fun pkgs => (lookupA pkgs name).getD [])))
        else none) := by
  intro regs
  induction regs with
  | nil =>
      intro filtered _
      simp only [List.foldl_nil, List.flatMap_nil]
      by_cases hmem : name ∈ keysA filtered
      · rw [if_pos (by simp [hmem])]
        rcases exists_lookupA_eq_some_of_mem filtered name hmem with ⟨v, hv⟩
        rw [hv]
        rfl
      · rw [if_neg (by simp [hmem]), lookupA_eq_none_of_notMem _ _ hmem]
  | cons pkgs regs' ih =>
      intro filtered hnd
      rw [List.foldl_cons, ih _ (fun p hp => hnd p (List.mem_cons_of_mem _ hp))]
      simp only [collisionsStep_keys name pkgs filtered]
      rw [collisionsStep_lookup name pkgs filtered (hnd pkgs (by simp))]
      by_cases hpk : name ∈ keysA pkgs
      · rw [if_pos (Or.inl (Or.inr hpk))]
        rw [if_pos (Or.inr ⟨pkgs, by simp, hpk⟩)]
        rw [if_pos hpk]
        simp only [Option.getD_some]
        rw [setUpdate_append, List.flatMap_cons]
      · have hlk : lookupA pkgs name = none := lookupA_eq_none_of_notMem _ _ hpk
        rw [if_neg hpk]
        by_cases hcond : name ∈ keysA filtered ∨ ∃ p ∈ regs', name ∈ keysA p
        · rw [if_pos (show (name ∈ keysA filtered ∨ name ∈ keysA pkgs) ∨
              ∃ p ∈ regs', name ∈ keysA p from by
            rcases hcond with h | h
            · exact Or.inl (Or.inl h)
            · exact Or.inr h)]
          rw [if_pos (by
            rcases hcond with h | ⟨p, hp, h⟩
            · exact Or.inl h
            · exact Or.inr ⟨p, List.mem_cons_of_mem _ hp, h⟩)]
          rw [List.flatMap_cons, hlk]
          rfl
        · rw [if_neg (show ¬ ((name ∈ keysA filtered ∨ name ∈ keysA pkgs) ∨
              ∃ p ∈ regs', name ∈ keysA p) from by
            rintro ((h | h) | h)
            · exact hcond (Or.inl h)
            · exact hpk h
            · exact hcond (Or.inr h))]
          rw [if_neg (by
            rintro (h | ⟨p, hp, h⟩)
            · exact hcond (Or.inl h)
            · rcases List.mem_cons.mp hp with rfl | hp'
              · exact hpk h
              · exact hcond (Or.inr ⟨p, hp', h⟩))]

theorem dinsert_keys_nodup {β : Type} (d : AList String β) (k : String) (v : β)
    (h : (keysA d).Nodup) : (keysA (dinsert d k v)).Nodup := by
  by_cases hk : k ∈ keysA d
  · rwa [keysA_dinsert_mem _ _ _ hk]
  · rw [keysA_dinsert_notMem _ _ _ hk]
    exact List.nodup_append.mpr ⟨h, List.nodup_singleton _, fun a ha hb => by
      simp at hb
      subst hb
      exact hk ha⟩

theorem collisionsStep_keys_nodup :
    ∀ (pkgs filtered : AList String (List String)),
      (keysA filtered).Nodup → (keysA (collisionsStep filtered pkgs)).Nodup := by
  intro pkgs
  induction pkgs with
  | nil => intro f h; exact h
  | cons kv rest ih =>
      intro f h
      obtain ⟨k, us⟩ := kv
      rw [collisionsStep_cons]
      exact ih _ (dinsert_keys_nodup _ _ _ h)

theorem collisions_foldl_keys_nodup :
    ∀ (regs : List (AList String (List String))) (filtered : AList String (List String)),
      (keysA filtered).Nodup → (keysA (regs.foldl collisionsStep filtered)).Nodup := by
  intro regs
  induction regs with
  | nil => intro f h; exact h
  | cons p rest ih =>
      intro f h
      rw [List.foldl_cons]
      exact ih _ (collisionsStep_keys_nodup p f h)

theorem lookupA_filter {β : Type} (p : String × β → Bool) :
    ∀ (l : AList String β) (k : String), (keysA l).Nodup →
      lookupA (List.filter p l) k =
        (lookupA l k).bind (fun v => if p (k, v) then some v else none) := by
  intro l
  induction l with
  | nil => intro k _; rfl
  | cons kv rest ih =>
      intro k hnd
      obtain ⟨k0, v0⟩ := kv
      simp only [keysA, List.map_cons, List.nodup_cons] at hnd
      by_cases hk : k = k0
      · subst hk
        cases hp : p (k, v0) with
        | false =>
            rw [show List.filter p ((k, v0) :: rest) = List.filter p rest from by
              simp [List.filter_cons, hp]]
            rw [ih k hnd.2, lookupA_eq_none_of_notMem _ _ (by simpa [keysA] using hnd.1)]
            simp [lookupA_cons, hp]
        | true =>
            rw [show List.filter p ((k, v0) :: rest) = (k, v0) :: List.filter p rest from by
              simp [List.filter_cons, hp]]
            simp [lookupA_cons, hp]
      · cases hp : p (k0, v0) with
        | false =>
            rw [show List.filter p ((k0, v0) :: rest) = List.filter p rest from by
              simp [List.filter_cons, hp]]
            rw [ih k hnd.2]
            simp [lookupA_cons, hk]
        | true =>
            rw [show List.filter p ((k0, v0) :: rest) = (k0, v0) :: List.filter p rest from by
              simp [List.filter_cons, hp]]
            simp only [lookupA_cons, if_neg hk]
            exact ih k hnd.2

/-- C4: the collision report is built from exactly the 3 compatibility groups
with the highest numeric labels — "47", "46", "45" in descending order — and
maps a short name to a list exactly when at least 2 distinct identifiers
share that name across those groups; the listed value is the deduplicated
merge of those groups' identifier lists (as a duplicate-free list), and a
name with at most one distinct identifier produces no entry. -/
theorem collisions_report_spec (reg : Registry)
    (hinner : ∀ kv ∈ reg, (keysA kv.2).Nodup) (name : String) :
    lastThreeVersions = ["47", "46", "45"] ∧
    (∀ l, lookupA (collisionsReport reg) name = some l →
      l = setUpdate [] (idsAcrossLastThree reg name) ∧ l.Nodup ∧ 2 ≤ l.length ∧
      (∀ u, u ∈ l ↔ u ∈ idsAcrossLastThree reg name)) ∧
    (lookupA (collisionsReport reg) name = none ↔
      (setUpdate [] (idsAcrossLastThree reg name)).length ≤ 1) := by
  have hinner' : ∀ pkgs ∈ (reg.filter
      (fun kv => decide (kv.1 ∈ lastThreeVersions))).map (fun kv => kv.2),
      (keysA pkgs).Nodup := by
    intro pkgs hp
    rcases List.mem_map.mp hp with ⟨kv, hkv, rfl⟩
    exact hinner kv (List.mem_of_mem_filter hkv)
  have hmerge := collisions_merge_lookup name
    ((reg.filter (fun kv => decide (kv.1 ∈ lastThreeVersions))).map (fun kv => kv.2))
    [] hinner'
  have hmnd := collisions_foldl_keys_nodup
    ((reg.filter (fun kv => decide (kv.1 ∈ lastThreeVersions))).map (fun kv => kv.2))
    [] (by simp [keysA])
  have hflt := lookupA_filter (fun kv => decide (1 < kv.2.length))
    (((reg.filter (fun kv => decide (kv.1 ∈ lastThreeVersions))).map
      (fun kv => kv.2)).foldl collisionsStep []) name hmnd
  have hrep : lookupA (collisionsReport reg) name =
      (lookupA (((reg.filter (fun kv => decide (kv.1 ∈ lastThreeVersions))).map
        (fun kv => kv.2)).foldl collisionsStep []) name).bind
        (fun v => if decide (1 < v.length) then some v else none) := hflt
  have hids : idsAcrossLastThree reg name =
      ((reg.filter (fun kv => decide (kv.1 ∈ lastThreeVersions))).map
        (fun kv => kv.2)).flatMap (fun pkgs => (lookupA pkgs name).getD []) := rfl
  refine ⟨by decide, ?_, ?_⟩
  · intro l hl
    rw [hrep, hmerge] at hl
    by_cases hC : name ∈ keysA ([] : AList String (List String)) ∨
        ∃ pkgs ∈ (reg.filter (fun kv => decide (kv.1 ∈ lastThreeVersions))).map
          (fun kv => kv.2), name ∈ keysA pkgs
    · rw [if_pos hC] at hl
      simp only [lookupA_nil, Option.getD_none, Option.some_bind] at hl
      by_cases hlen : 1 < (setUpdate []
          (((reg.filter (fun kv => decide (kv.1 ∈ lastThreeVersions))).map
            (fun kv => kv.2)).flatMap (fun pkgs => (lookupA pkgs name).getD []))).length
      · rw [if_pos (decide_eq_true hlen)] at hl
        have hlv := Option.some_inj.mp hl
        subst hlv
        refine ⟨by rw [hids], setUpdate_nodup _ _ (List.nodup_nil), by omega, ?_⟩
        intro u
        rw [hids, mem_setUpdate]
        simp
      · rw [if_neg (by simpa using hlen)] at hl
        exact absurd hl (by simp)
    · rw [if_neg hC] at hl
      exact absurd hl (by simp)
  · rw [hrep, hmerge]
    by_cases hC : name ∈ keysA ([] : AList String (List String)) ∨
        ∃ pkgs ∈ (reg.filter (fun kv => decide (kv.1 ∈ lastThreeVersions))).map
          (fun kv => kv.2), name ∈ keysA pkgs
    · rw [if_pos hC]
      simp only [lookupA_nil, Option.getD_none, Option.some_bind]
      rw [hids]
      by_cases hlen : 1 < (setUpdate [] (((reg.filter
          (fun kv => decide (kv.1 ∈ lastThreeVersions))).map
            (fun kv => kv.2)).flatMap (fun pkgs => (lookupA pkgs name).getD []))).length
      · rw [if_pos (decide_eq_true hlen)]
        constructor
        · intro h
          exact absurd h (by simp)
        · intro h
          omega
      · rw [if_neg (by simpa using hlen)]
        constructor
        · intro _
          omega
        · intro _
          rfl
    · rw [if_neg hC]
      push_neg at hC
      have hflat : ((reg.filter (fun kv => decide (kv.1 ∈ lastThreeVersions))).map
          (fun kv => kv.2)).flatMap (fun pkgs => (lookupA pkgs name).getD []) = [] := by
        rw [List.flatMap_eq_nil_iff]
        intro pkgs hp
        rw [lookupA_eq_none_of_notMem _ _ (hC.2 pkgs hp)]
        rfl
      rw [hids, hflat]
      simp [setUpdate]

/-- Witness for C4: in the sample registry the short name `"foo"` is used by
two extensions across the last three shell versions, so the report maps it to
the two identifiers; the entry is duplicate-free with at least two items. -/
theorem collisions_report_spec_witness :
    lookupA (collisionsReport sampleRegistry) "foo" = some ["id1", "id2"] ∧
    (["id1", "id2"] : List String).Nodup ∧ 2 ≤ (["id1", "id2"] : List String).length := by
  have h := (collisions_report_spec sampleRegistry (by decide) "foo").2.1
    ["id1", "id2"] (by decide)
  exact ⟨by decide, h.2.1, h.2.2.1⟩

/-! ## Facts about the serializer (claim C1) -/


/-- The writer on an empty record list emits `"]\n"`, which is not JSON: the
loop of lines 302-320 never writes the opening bracket. -/
theorem serializer_empty_list_not_json :
    writeExtensionsJson [] = [']', Char.ofNat 10] ∧
    jsonParse (writeExtensionsJson []) = none :=
  ⟨rfl, rfl⟩

set_option maxRecDepth 40000 in
/-- Counterexample for C1 as stated: for a record whose description contains
three consecutive closing braces, the replacement of line 317 fires inside
the string literal and injects a raw line break into it, so the written file
fails to parse as JSON (the script's own `json.load` check on line 329 would
raise). -/
theorem serializer_corrupts_triple_brace :
    (jsonParse (writeExtensionsJson [badDescRecord])).isNone = true ∧
    badDescRecord.shell_version_map ≠ [] ∧
    badDescRecord.description.data = tripleBrace :=
  ⟨by decide, by decide, rfl⟩

/-! ## String-replacement machinery for the serializer proof -/

theorem replaceAllF_cons (pat new : List Char) (fuel : Nat) (c : Char) (rest : List Char) :
    replaceAllF pat new (fuel + 1) (c :: rest) =
      if pat ≠ [] ∧ pat.isPrefixOf (c :: rest) = true then
        new ++ replaceAllF pat new fuel ((c :: rest).drop pat.length)
      else c :: replaceAllF pat new fuel rest := rfl

theorem replaceAllF_fuel (pat new : List Char) :
    ∀ (fuel fuel' : Nat) (s : List Char), s.length ≤ fuel → s.length ≤ fuel' →
      replaceAllF pat new fuel s = replaceAllF pat new fuel' s := by
  intro fuel
  induction fuel with
  | zero =>
      intro fuel' s hs _
      have hnil : s = [] := List.length_eq_zero.mp (Nat.le_zero.mp hs)
      subst hnil
      cases fuel' <;> rfl
  | succ fuel ih =>
      intro fuel' s hs hs'
      cases s with
      | nil => cases fuel' <;> rfl
      | cons c rest =>
          obtain ⟨f', rfl⟩ : ∃ f', fuel' = f' + 1 := by
            rcases fuel' with _ | f'
            · simp at hs'
            · exact ⟨f', rfl⟩
          by_cases h : pat ≠ [] ∧ pat.isPrefixOf (c :: rest) = true
          · have hp : 1 ≤ pat.length := by
              rcases pat with _ | ⟨p, ps⟩
              · exact absurd rfl h.1
              · simp
            rw [replaceAllF_cons, replaceAllF_cons, if_pos h, if_pos h]
            congr 1
            apply ih
            · simp only [List.length_drop, List.length_cons]
              simp at hs
              omega
            · simp only [List.length_drop, List.length_cons]
              simp at hs'
              omega
          · rw [replaceAllF_cons, replaceAllF_cons, if_neg h, if_neg h]
            congr 1
            apply ih
            · simp at hs
              omega
            · simp at hs'
              omega

theorem replaceAll_cons_match (pat new : List Char) (c : Char) (rest : List Char)
    (h1 : pat ≠ []) (h2 : pat.isPrefixOf (c :: rest) = true) :
    replaceAll pat new (c :: rest) =
      new ++ replaceAll pat new ((c :: rest).drop pat.length) := by
  have hp : 1 ≤ pat.length := by
    rcases pat with _ | ⟨p, ps⟩
    · exact absurd rfl h1
    · simp
  show replaceAllF pat new (rest.length + 1) (c :: rest) = _
  rw [replaceAllF_cons, if_pos ⟨h1, h2⟩]
  congr 1
  apply replaceAllF_fuel
  · simp only [List.length_drop, List.length_cons]
    omega
  · exact le_refl _

theorem replaceAll_cons_nomatch (pat new : List Char) (c : Char) (rest : List Char)
    (h : ¬ (pat ≠ [] ∧ pat.isPrefixOf (c :: rest) = true)) :
    replaceAll pat new (c :: rest) = c :: replaceAll pat new rest := by
  show replaceAllF pat new (rest.length + 1) (c :: rest) = _
  rw [replaceAllF_cons, if_neg h]
  rfl

theorem suffix_append_split {α : Type} {b A B : List α} (h : b <:+ A ++ B) :
    (∃ a', a' <:+ A ∧ a' ≠ [] ∧ b = a' ++ B) ∨ b <:+ B := by
  induction A with
  | nil => right; simpa using h
  | cons c A' ih =>
      rw [List.cons_append] at h
      rcases List.suffix_cons_iff.mp h with rfl | h'
      · left
        exact ⟨c :: A', List.suffix_refl _, by simp, by rw [List.cons_append]⟩
      · rcases ih h' with ⟨a', h1, h2, h3⟩ | h''
        · left
          exact ⟨a', h1.trans (List.suffix_cons c A'), h2, h3⟩
        · right
          exact h''

theorem noStart_nil (pat R : List Char) : noStart pat [] R := by
  intro b hb hne
  exact absurd (List.suffix_nil.mp hb) hne

theorem noStart_append {pat A B R : List Char} (hA : noStart pat A (B ++ R))
    (hB : noStart pat B R) : noStart pat (A ++ B) R := by
  intro b hb hne
  rcases suffix_append_split hb with ⟨a', h1, h2, rfl⟩ | hbB
  · have := hA a' h1 h2
    rwa [List.append_assoc]
  · exact hB b hbB hne

theorem noStart_single {pat : List Char} (c : Char) {R : List Char}
    (h : pat.isPrefixOf (c :: R) = false) : noStart pat [c] R := by
  intro b hb hne
  rcases List.suffix_cons_iff.mp hb with rfl | hb'
  · simpa using h
  · exact absurd (List.suffix_nil.mp hb') hne

theorem replaceAll_peel (pat new : List Char) :
    ∀ (A R : List Char), noStart pat A R →
      replaceAll pat new (A ++ R) = A ++ replaceAll pat new R := by
  intro A
  induction A with
  | nil => intro R _; rfl
  | cons c A' ih =>
      intro R h
      rw [List.cons_append]
      rw [replaceAll_cons_nomatch _ _ _ _ (by
        rintro ⟨_, hpre⟩
        have hfalse := h (c :: A') (List.suffix_refl _) (by simp)
        rw [List.cons_append] at hfalse
        rw [hpre] at hfalse
        exact Bool.noConfusion hfalse)]
      rw [ih R (fun b hb hne => h b (hb.trans (List.suffix_cons c A')) hne)]
      rw [List.cons_append]

theorem replaceAll_fire (pat new R : List Char) (hpat : pat ≠ []) :
    replaceAll pat new (pat ++ R) = new ++ replaceAll pat new R := by
  rcases pat with _ | ⟨p, ps⟩
  · exact absurd rfl hpat
  · rw [List.cons_append]
    rw [replaceAll_cons_match _ _ _ _ (by simp) (by
      rw [show p :: (ps ++ R) = (p :: ps) ++ R from by rw [List.cons_append]]
      exact List.isPrefixOf_iff_prefix.mpr (List.prefix_append _ _))]
    congr 1
    rw [show p :: (ps ++ R) = (p :: ps) ++ R from by rw [List.cons_append]]
    rw [List.drop_left]

theorem hasSub_cons (pat : List Char) (c : Char) (rest : List Char) :
    hasSub pat (c :: rest) = (pat.isPrefixOf (c :: rest) || hasSub pat rest) := rfl

theorem hasSub_split {pat A B : List Char} (h : hasSub pat (A ++ B) = true) :
    (∃ b, b <:+ A ∧ b ≠ [] ∧ pat.isPrefixOf (b ++ B) = true) ∨ hasSub pat B = true := by
  induction A with
  | nil => right; simpa using h
  | cons c A' ih =>
      rw [List.cons_append, hasSub_cons] at h
      rcases (by simpa using h :
        pat.isPrefixOf (c :: (A' ++ B)) = true ∨ hasSub pat (A' ++ B) = true) with h1 | h2
      · left
        exact ⟨c :: A', List.suffix_refl _, by simp, by rwa [List.cons_append]⟩
      · rcases ih h2 with ⟨b, hb1, hb2, hb3⟩ | h''
        · left
          exact ⟨b, hb1.trans (List.suffix_cons c A'), hb2, hb3⟩
        · right
          exact h''

theorem hasSub_append_false {pat A B : List Char} (hA : noStart pat A B)
    (hB : hasSub pat B = false) : hasSub pat (A ++ B) = false := by
  by_contra hcon
  rw [Bool.not_eq_false] at hcon
  rcases hasSub_split hcon with ⟨b, h1, h2, h3⟩ | h'
  · rw [hA b h1 h2] at h3
    exact Bool.noConfusion h3
  · rw [hB] at h'
    exact Bool.noConfusion h'

theorem hasSub_of_suffix {pat b s : List Char} (hb : b <:+ s)
    (h : pat.isPrefixOf b = true) : hasSub pat s = true := by
  induction s with
  | nil =>
      rw [List.suffix_nil.mp hb] at h
      cases pat with
      | nil => rfl
      | cons p ps => simp [List.isPrefixOf] at h
  | cons c rest ih =>
      rw [hasSub_cons]
      rcases List.suffix_cons_iff.mp hb with rfl | hb'
      · rw [h]
        rfl
      · rw [ih hb']
        simp

theorem replaceAll_noSub (pat new : List Char) :
    ∀ s, hasSub pat s = false → replaceAll pat new s = s := by
  intro s
  induction s with
  | nil => intro _; rfl
  | cons c rest ih =>
      intro h
      rw [hasSub_cons] at h
      rcases Bool.or_eq_false_iff.mp h with ⟨h1, h2⟩
      rw [replaceAll_cons_nomatch _ _ _ _ (by
        rintro ⟨_, hpre⟩
        rw [hpre] at h1
        exact Bool.noConfusion h1)]
      rw [ih h2]

/-- The single-occurrence rewriting step: if no occurrence of `pat` starts
inside `X` and none occurs in `Y`, the one occurrence between them is
replaced. -/
theorem replaceAll_single (pat new X Y : List Char) (hpat : pat ≠ [])
    (hX : noStart pat X (pat ++ Y)) (hY : hasSub pat Y = false) :
    replaceAll pat new (X ++ pat ++ Y) = X ++ new ++ Y := by
  rw [List.append_assoc, replaceAll_peel pat new X (pat ++ Y) hX,
    replaceAll_fire pat new Y hpat, replaceAll_noSub pat new Y hY,
    List.append_assoc]

/-! ## The escape layer: where quotes and closing braces can sit inside a
dumped string literal -/

theorem char_ne_of_toNat_ne {a b : Char} (h : a.toNat ≠ b.toNat) : a ≠ b :=
  fun he => h (by rw [he])

theorem isPrefixOf_false_of_head_ne {a b : Char} (h : a ≠ b) (l1 l2 : List Char) :
    (a :: l1).isPrefixOf (b :: l2) = false := by
  simp [List.isPrefixOf, h]

theorem isPrefixOf_append_same (pre A B : List Char) :
    (pre ++ A).isPrefixOf (pre ++ B) = A.isPrefixOf B := by
  induction pre with
  | nil => rfl
  | cons c p ih => simpa [List.isPrefixOf] using ih

theorem isPrefixOf_cons_same (a : Char) (l1 l2 : List Char) :
    (a :: l1).isPrefixOf (a :: l2) = l1.isPrefixOf l2 := by
  simp [List.isPrefixOf]

theorem isPrefixOf_false_at_two (c a b : Char) (h : a ≠ b) (l1 l2 : List Char) :
    (c :: a :: l1).isPrefixOf (c :: b :: l2) = false := by
  simp [List.isPrefixOf, h]

theorem mem_of_getLast?_eq : ∀ {l : List Char} {d : Char}, l.getLast? = some d → d ∈ l := by
  intro l
  induction l with
  | nil => intro d h; simp at h
  | cons c t ih =>
      intro d h
      cases t with
      | nil =>
          simp [List.getLast?] at h
          simp [h]
      | cons e t' =>
          rw [List.getLast?_cons_cons] at h
          exact List.mem_cons_of_mem _ (ih h)

theorem qstr_append (s X : List Char) :
    qstr s ++ X = quoteChar :: (escapeStr s ++ (quoteChar :: X)) := by
  simp [qstr]

theorem eq_append_cons_mem {t x y : List Char} {q : Char} (h : t = x ++ q :: y) : q ∈ t := by
  subst h
  simp

theorem toHexDigit_facts (n : Nat) (h : n < 16) :
    toHexDigit n ≠ quoteChar ∧ toHexDigit n ≠ braceClose ∧ hexVal (toHexDigit n) = some n := by
  interval_cases n <;> exact ⟨by decide, by decide, by decide⟩

/-- `escapeChar` produces either the raw printable character, or a backslash
followed by a tail that contains no closing brace and contains a quote only
as its head. -/
theorem escapeChar_cases (c : Char) :
    (escapeChar c = [c] ∧ 32 ≤ c.toNat ∧ c ≠ quoteChar ∧ c ≠ backslashChar) ∨
    (∃ t, escapeChar c = backslashChar :: t ∧ t ≠ [] ∧ braceClose ∉ t ∧
      ∀ x y, t = x ++ quoteChar :: y → x = []) := by
  rw [escapeChar]
  by_cases h1 : c = quoteChar
  · rw [if_pos h1]
    right
    refine ⟨[quoteChar], rfl, by simp, by decide, ?_⟩
    intro x y hxy
    rcases x with _ | ⟨a, x'⟩
    · rfl
    · exfalso
      rw [List.cons_append] at hxy
      injection hxy with h1 h2
      exact absurd h2.symm (by simp)
  rw [if_neg h1]
  by_cases h2 : c = backslashChar
  · rw [if_pos h2]
    right
    exact ⟨[backslashChar], rfl, by simp, by decide,
      fun x y hxy => absurd (eq_append_cons_mem hxy) (by decide)⟩
  rw [if_neg h2]
  by_cases h3 : c.toNat = 8
  · rw [if_pos h3]
    right
    exact ⟨['b'], rfl, by simp, by decide,
      fun x y hxy => absurd (eq_append_cons_mem hxy) (by decide)⟩
  rw [if_neg h3]
  by_cases h4 : c.toNat = 9
  · rw [if_pos h4]
    right
    exact ⟨['t'], rfl, by simp, by decide,
      fun x y hxy => absurd (eq_append_cons_mem hxy) (by decide)⟩
  rw [if_neg h4]
  by_cases h5 : c.toNat = 10
  · rw [if_pos h5]
    right
    exact ⟨['n'], rfl, by simp, by decide,
      fun x y hxy => absurd (eq_append_cons_mem hxy) (by decide)⟩
  rw [if_neg h5]
  by_cases h6 : c.toNat = 12
  · rw [if_pos h6]
    right
    exact ⟨['f'], rfl, by simp, by decide,
      fun x y hxy => absurd (eq_append_cons_mem hxy) (by decide)⟩
  rw [if_neg h6]
  by_cases h7 : c.toNat = 13
  · rw [if_pos h7]
    right
    exact ⟨['r'], rfl, by simp, by decide,
      fun x y hxy => absurd (eq_append_cons_mem hxy) (by decide)⟩
  rw [if_neg h7]
  by_cases h8 : c.toNat < 32
  · rw [if_pos h8]
    right
    refine ⟨'u' :: '0' :: '0' :: [toHexDigit (c.toNat / 16), toHexDigit (c.toNat % 16)],
      rfl, by simp, ?_, ?_⟩
    · intro hmem
      have hx1 := (toHexDigit_facts (c.toNat / 16) (by omega)).2.1
      have hx2 := (toHexDigit_facts (c.toNat % 16) (by omega)).2.1
      rcases (by simpa using hmem :
          braceClose = 'u' ∨ braceClose = '0' ∨ braceClose = '0' ∨
            braceClose = toHexDigit (c.toNat / 16) ∨
            braceClose = toHexDigit (c.toNat % 16)) with h | h | h | h | h
      · exact absurd h (by decide)
      · exact absurd h (by decide)
      · exact absurd h (by decide)
      · exact hx1 h.symm
      · exact hx2 h.symm
    · intro x y hxy
      have hq := eq_append_cons_mem hxy
      have hx1 := (toHexDigit_facts (c.toNat / 16) (by omega)).1
      have hx2 := (toHexDigit_facts (c.toNat % 16) (by omega)).1
      rcases (by simpa using hq :
          quoteChar = 'u' ∨ quoteChar = '0' ∨ quoteChar = '0' ∨
            quoteChar = toHexDigit (c.toNat / 16) ∨
            quoteChar = toHexDigit (c.toNat % 16)) with h | h | h | h | h
      · exact absurd h (by decide)
      · exact absurd h (by decide)
      · exact absurd h (by decide)
      · exact absurd h.symm hx1
      · exact absurd h.symm hx2
  · rw [if_neg h8]
    left
    exact ⟨rfl, by omega, h1, h2⟩

theorem escapeChar_ne_nil (c : Char) : escapeChar c ≠ [] := by
  rcases escapeChar_cases c with ⟨h, _⟩ | ⟨t, h, _⟩ <;> simp [h]

theorem escapeChar_quote_split {c : Char} {x y : List Char}
    (h : escapeChar c = x ++ quoteChar :: y) : x = [backslashChar] := by
  rcases escapeChar_cases c with ⟨hA, _, hq, _⟩ | ⟨t, hB, _, _, hqt⟩
  · rw [hA] at h
    rcases x with _ | ⟨a, x'⟩
    · exfalso
      rw [List.nil_append] at h
      injection h with h1 _
      exact hq h1
    · exfalso
      rw [List.cons_append] at h
      injection h with _ h2
      exact absurd h2.symm (by simp)
  · rw [hB] at h
    rcases x with _ | ⟨a, x'⟩
    · exfalso
      rw [List.nil_append] at h
      injection h with h1 _
      exact absurd h1 (by decide)
    · rw [List.cons_append] at h
      injection h with h1 h2
      rw [← h1, hqt x' y h2]

theorem escapeChar_mem_braceClose {c : Char} (h : braceClose ∈ escapeChar c) :
    c = braceClose ∧ escapeChar c = [braceClose] := by
  rcases escapeChar_cases c with ⟨hA, _, _, _⟩ | ⟨t, hB, _, hbc, _⟩
  · rw [hA] at h
    have : braceClose = c := by simpa using h
    exact ⟨this.symm, by rw [hA, ← this]⟩
  · exfalso
    rw [hB] at h
    rcases List.mem_cons.mp h with h' | h'
    · exact absurd h' (by decide)
    · exact hbc h'

theorem escapeStr_cons (c : Char) (s : List Char) :
    escapeStr (c :: s) = escapeChar c ++ escapeStr s := rfl

/-- Every raw quote inside a dumped string-literal body is immediately
preceded by a backslash. -/
theorem escapeStr_quote_split : ∀ (s x y : List Char),
    escapeStr s = x ++ quoteChar :: y → ∃ x', x = x' ++ [backslashChar] := by
  intro s
  induction s with
  | nil =>
      intro x y h
      exfalso
      have : quoteChar ∈ escapeStr ([] : List Char) := by rw [h]; simp
      simp [escapeStr] at this
  | cons c s' ih =>
      intro x y h
      rw [escapeStr_cons] at h
      rcases List.append_eq_append_iff.mp h with ⟨a', hx, hs⟩ | ⟨c', hec, hd⟩
      · obtain ⟨x', hx'⟩ := ih a' y hs
        exact ⟨escapeChar c ++ x', by rw [hx, hx', List.append_assoc]⟩
      · rcases c' with _ | ⟨e, c''⟩
        · exfalso
          rw [List.nil_append] at hd
          rcases s' with _ | ⟨d, s''⟩
          · simp [escapeStr] at hd
          · rw [escapeStr_cons] at hd
            rcases escapeChar_cases d with ⟨hA, _, hqd, _⟩ | ⟨t, hB, _, _, _⟩
            · rw [hA, List.singleton_append] at hd
              injection hd with h1 _
              exact hqd h1.symm
            · rw [hB, List.cons_append] at hd
              injection hd with h1 _
              exact absurd h1 (by decide)
        · rw [List.cons_append] at hd
          injection hd with h1 _
          rw [← h1] at hec
          rw [escapeChar_quote_split hec]
          exact ⟨[], rfl⟩

/-- A dumped string-literal body that starts with a closing brace comes from
a source string that starts with a closing brace. -/
theorem escapeStr_bc_head : ∀ (u w : List Char), escapeStr u = braceClose :: w →
    ∃ u', u = braceClose :: u' ∧ escapeStr u' = w := by
  intro u w h
  cases u with
  | nil => exact absurd h (by simp [escapeStr])
  | cons d u' =>
      rw [escapeStr_cons] at h
      have hmem : braceClose ∈ escapeChar d := by
        have hne := escapeChar_ne_nil d
        rcases he : escapeChar d with _ | ⟨a, t⟩
        · exact absurd he hne
        · rw [he, List.cons_append] at h
          injection h with h1 _
          rw [h1]
          exact List.mem_cons_self _ _
      obtain ⟨hd, hchar⟩ := escapeChar_mem_braceClose hmem
      rw [hchar, List.singleton_append] at h
      injection h with _ h2
      exact ⟨u', by rw [hd], h2⟩

/-- Escaping is the identity on printable text without quotes and
backslashes. -/
theorem escapeStr_plain : ∀ (s : List Char),
    (∀ c ∈ s, 32 ≤ c.toNat ∧ c ≠ quoteChar ∧ c ≠ backslashChar) → escapeStr s = s := by
  intro s
  induction s with
  | nil => intro _; rfl
  | cons c s' ih =>
      intro h
      obtain ⟨h32, hq, hb⟩ := h c (List.mem_cons_self c s')
      have he : escapeChar c = [c] := by
        rw [escapeChar, if_neg hq, if_neg hb, if_neg (by omega), if_neg (by omega),
          if_neg (by omega), if_neg (by omega), if_neg (by omega), if_neg (by omega)]
      rw [escapeStr_cons, he, ih (fun d hd => h d (List.mem_cons_of_mem _ hd))]
      rfl

/-- Escaping preserves the absence of three consecutive closing braces. -/
theorem escapeStr_tri : ∀ (s : List Char), hasSub tripleBrace s = false →
    hasSub tripleBrace (escapeStr s) = false := by
  intro s
  induction s with
  | nil => intro _; rfl
  | cons c s' ih =>
      intro h
      rw [hasSub_cons] at h
      rcases Bool.or_eq_false_iff.mp h with ⟨h1, h2⟩
      rw [escapeStr_cons]
      apply hasSub_append_false _ (ih h2)
      intro b hb hbne
      rcases escapeChar_cases c with ⟨hA, _, _, _⟩ | ⟨t, hB, _, hbc, _⟩
      · rw [hA] at hb
        have hbeq : b = [c] := by
          rcases List.suffix_cons_iff.mp hb with h' | h'
          · exact h'
          · exact absurd (List.suffix_nil.mp h') hbne
        subst hbeq
        rw [List.singleton_append]
        by_cases hc : c = braceClose
        · subst hc
          by_contra hcon
          rw [Bool.not_eq_false] at hcon
          have hpre2 : List.isPrefixOf [braceClose, braceClose] (escapeStr s') = true := by
            simpa [tripleBrace, List.isPrefixOf] using hcon
          obtain ⟨w2, hw2⟩ := List.isPrefixOf_iff_prefix.mp hpre2
          obtain ⟨u1, hu1, hesc1⟩ := escapeStr_bc_head s' (braceClose :: w2) (by
            rw [← hw2]; rfl)
          obtain ⟨u2, hu2, _⟩ := escapeStr_bc_head u1 w2 hesc1
          rw [hu1, hu2] at h1
          simp [tripleBrace, List.isPrefixOf] at h1
        · show List.isPrefixOf (braceClose :: [braceClose, braceClose]) _ = false
          exact isPrefixOf_false_of_head_ne (fun hh => hc hh.symm) _ _
      · rw [hB] at hb
        rcases List.suffix_cons_iff.mp hb with hbeq | hb'
        · rw [hbeq, List.cons_append]
          show List.isPrefixOf (braceClose :: [braceClose, braceClose]) _ = false
          exact isPrefixOf_false_of_head_ne (by decide) _ _
        · rcases b with _ | ⟨b1, b'⟩
          · exact absurd rfl hbne
          · have hb1 : b1 ∈ t := hb'.subset (List.mem_cons_self b1 b')
            rw [List.cons_append]
            show List.isPrefixOf (braceClose :: [braceClose, braceClose]) _ = false
            exact isPrefixOf_false_of_head_ne (fun hh => hbc (by rw [hh]; exact hb1)) _ _

/-! ## Where the replacement patterns can match -/

theorem noStart_cons {pat A R : List Char} (c : Char)
    (h1 : pat.isPrefixOf (c :: (A ++ R)) = false) (h2 : noStart pat A R) :
    noStart pat (c :: A) R := by
  intro b hb hbne
  rcases List.suffix_cons_iff.mp hb with rfl | hb'
  · rw [List.cons_append]
    exact h1
  · exact h2 b hb' hbne

theorem patQ_head_false {pre : List Char} {p0 : Char} {pre' : List Char}
    (hpre : pre = p0 :: pre') (v : String) {c : Char} (hc : p0 ≠ c) (X : List Char) :
    (patQ pre v).isPrefixOf (c :: X) = false := by
  rw [patQ, hpre, List.cons_append]
  exact isPrefixOf_false_of_head_ne hc _ _

theorem patQ_two_false_first (v : String) {c2 : Char} (hc2 : quoteChar ≠ c2) (X : List Char) :
    (patQ [braceOpen] v).isPrefixOf (braceOpen :: c2 :: X) = false := by
  rw [patQ, List.singleton_append]
  exact isPrefixOf_false_at_two _ _ _ hc2 _ _

theorem patQ_two_false_rest (v : String) {c2 : Char} (hc2 : (' ' : Char) ≠ c2) (X : List Char) :
    (patQ [',', ' '] v).isPrefixOf (',' :: c2 :: X) = false := by
  rw [patQ, List.cons_append, List.singleton_append]
  exact isPrefixOf_false_at_two _ _ _ hc2 _ _

theorem wq_notPrefix_digits (v k : String) (hvk : v ≠ k)
    (hlen : v.data.length = k.data.length) (t X : List Char) :
    (v.data ++ quoteChar :: t).isPrefixOf (k.data ++ (quoteChar :: X)) = false := by
  by_contra hcon
  rw [Bool.not_eq_false] at hcon
  obtain ⟨z, hz⟩ := List.isPrefixOf_iff_prefix.mp hcon
  rw [List.append_assoc, List.cons_append] at hz
  exact hvk (String.ext (List.append_inj hz hlen).1)

/-- A version pattern does not match at a site whose key is a different
supported version. -/
theorem patQ_qstr_site_digits (pre : List Char) (v k : String) (hvk : v ≠ k)
    (hlen : v.data.length = k.data.length) (hkplain : escapeStr k.data = k.data)
    (X : List Char) :
    (patQ pre v).isPrefixOf (pre ++ (qstr k.data ++ X)) = false := by
  rw [patQ, qstr_append, isPrefixOf_append_same, isPrefixOf_cons_same, hkplain]
  exact wq_notPrefix_digits v k hvk hlen [':', ' ', braceOpen] X

/-- A version pattern does not match at a site whose key starts with a
non-digit. -/
theorem patQ_qstr_site_letter (pre : List Char) (v : String) {wh : Char} {wt : List Char}
    (hv : v.data = wh :: wt) (kdata : List Char) {k1 : Char} {krest : List Char}
    (hk : escapeStr kdata = k1 :: krest) (hne : wh ≠ k1) (X : List Char) :
    (patQ pre v).isPrefixOf (pre ++ (qstr kdata ++ X)) = false := by
  rw [patQ, qstr_append, isPrefixOf_append_same, isPrefixOf_cons_same, hk, hv,
    List.cons_append, List.cons_append]
  exact isPrefixOf_false_of_head_ne hne _ _

/-- No occurrence of a version pattern starts inside a dumped string literal,
provided what follows the literal does not begin with the version's first
character. -/
theorem noStart_patQ_qstr (pre : List Char) {p0 : Char} {pre' : List Char}
    (hpre : pre = p0 :: pre') (hpreq : quoteChar ∉ pre) (hpreb : backslashChar ∉ pre)
    (wh : Char) (wrest : List Char) (s R : List Char) (hR : ∀ z, R ≠ wh :: z) :
    noStart (pre ++ quoteChar :: (wh :: wrest)) (qstr s) R := by
  have hprene : pre ≠ [] := by rw [hpre]; simp
  intro b hb hbne
  rcases List.suffix_cons_iff.mp hb with rfl | hb'
  · rw [List.cons_append, hpre, List.cons_append]
    refine isPrefixOf_false_of_head_ne (fun he => hpreq ?_) _ _
    rw [hpre, ← he]
    exact List.mem_cons_self _ _
  rcases suffix_append_split hb' with ⟨e, he, hene, rfl⟩ | hq
  · rw [List.append_assoc, List.singleton_append]
    by_contra hcon
    rw [Bool.not_eq_false] at hcon
    obtain ⟨z, hz⟩ := List.isPrefixOf_iff_prefix.mp hcon
    rw [List.append_assoc, List.cons_append, List.cons_append] at hz
    rcases List.append_eq_append_iff.mp hz with ⟨a', h_e, h_b⟩ | ⟨c', h_pre, h_d⟩
    · rcases a' with _ | ⟨a1, a''⟩
      · rw [List.nil_append] at h_b
        injection h_b with _ hbtail
        exact hR (wrest ++ z) hbtail.symm
      · rw [List.cons_append] at h_b
        injection h_b with h1 _
        obtain ⟨E0, hE0⟩ := he
        have hsplit : escapeStr s = (E0 ++ pre) ++ quoteChar :: a'' := by
          rw [← hE0, h_e, h1]
          simp [List.append_assoc]
        obtain ⟨x', hx'⟩ := escapeStr_quote_split s (E0 ++ pre) a'' hsplit
        refine hpreb (mem_of_getLast?_eq ?_)
        rw [← List.getLast?_append_of_ne_nil E0 hprene, hx', List.getLast?_concat]
    · rcases c' with _ | ⟨c1, c''⟩
      · rw [List.nil_append] at h_d
        injection h_d with _ hdt
        exact hR (wrest ++ z) hdt
      · rw [List.cons_append] at h_d
        injection h_d with h1 _
        refine hpreq ?_
        rw [h1, h_pre]
        exact List.mem_append_right e (List.mem_cons_self c1 c'')
  · rcases List.suffix_cons_iff.mp hq with rfl | hnil
    · rw [List.singleton_append, hpre, List.cons_append]
      refine isPrefixOf_false_of_head_ne (fun he => hpreq ?_) _ _
      rw [hpre, ← he]
      exact List.mem_cons_self _ _
    · exact absurd (List.suffix_nil.mp hnil) hbne

/-- No occurrence of the closing-brace triple starts inside a dumped string
literal whose escaped body is free of the triple. -/
theorem noStart_tri_qstr (s R : List Char)
    (hclean : hasSub tripleBrace (escapeStr s) = false) :
    noStart tripleBrace (qstr s) R := by
  intro b hb hbne
  rcases List.suffix_cons_iff.mp hb with rfl | hb'
  · rw [List.cons_append]
    show List.isPrefixOf (braceClose :: [braceClose, braceClose]) _ = false
    exact isPrefixOf_false_of_head_ne (by decide) _ _
  rcases suffix_append_split hb' with ⟨e, he, hene, rfl⟩ | hq
  · rw [List.append_assoc, List.singleton_append]
    rcases e with _ | ⟨e1, e'⟩
    · exact absurd rfl hene
    rcases e' with _ | ⟨e2, e''⟩
    · rw [List.singleton_append]
      by_cases he1 : e1 = braceClose
      · subst he1
        show List.isPrefixOf (braceClose :: braceClose :: [braceClose]) _ = false
        exact isPrefixOf_false_at_two _ _ _ (by decide) _ _
      · show List.isPrefixOf (braceClose :: [braceClose, braceClose]) _ = false
        exact isPrefixOf_false_of_head_ne (fun hh => he1 hh.symm) _ _
    rcases e'' with _ | ⟨e3, e'''⟩
    · rw [List.cons_append, List.singleton_append]
      by_cases he1 : e1 = braceClose
      · subst he1
        by_cases he2 : e2 = braceClose
        · subst he2
          show List.isPrefixOf (braceClose :: (braceClose :: [braceClose])) _ = false
          rw [isPrefixOf_cons_same]
          exact isPrefixOf_false_at_two _ _ _ (by decide) _ _
        · show List.isPrefixOf (braceClose :: braceClose :: [braceClose]) _ = false
          exact isPrefixOf_false_at_two _ _ _ (fun hh => he2 hh.symm) _ _
      · show List.isPrefixOf (braceClose :: [braceClose, braceClose]) _ = false
        exact isPrefixOf_false_of_head_ne (fun hh => he1 hh.symm) _ _
    · by_contra hcon
      rw [Bool.not_eq_false] at hcon
      rw [List.cons_append, List.cons_append, List.cons_append] at hcon
      have h123 : braceClose = e1 ∧ braceClose = e2 ∧ braceClose = e3 := by
        simpa [tripleBrace, List.isPrefixOf] using hcon
      have htri : List.isPrefixOf tripleBrace (e1 :: e2 :: e3 :: e''') = true := by
        rw [← h123.1, ← h123.2.1, ← h123.2.2]
        simp [tripleBrace, List.isPrefixOf]
      have hsub := hasSub_of_suffix he htri
      rw [hclean] at hsub
      exact Bool.noConfusion hsub
  · rcases List.suffix_cons_iff.mp hq with rfl | hnil
    · rw [List.singleton_append]
      show List.isPrefixOf (braceClose :: [braceClose, braceClose]) _ = false
      exact isPrefixOf_false_of_head_ne (by decide) _ _
    · exact absurd (List.suffix_nil.mp hnil) hbne

/-! ## Atom-level facts for the replacement analysis -/

theorem hR_head {c wh : Char} (h : c ≠ wh) (X : List Char) : ∀ z, (c :: X) ≠ wh :: z := by
  intro z hcon
  injection hcon with h1 _
  exact h h1

theorem digit_head_ne {wh : Char} (h48 : 48 ≤ wh.toNat) (h57 : wh.toNat ≤ 57) :
    (':' : Char) ≠ wh ∧ (',' : Char) ≠ wh ∧ braceClose ≠ wh ∧ newlineChar ≠ wh ∧
      quoteChar ≠ wh := by
  have e1 : (':' : Char).toNat = 58 := by decide
  have e2 : (',' : Char).toNat = 44 := by decide
  have e3 : braceClose.toNat = 125 := by decide
  have e4 : newlineChar.toNat = 10 := by decide
  have e5 : quoteChar.toNat = 34 := by decide
  exact ⟨char_ne_of_toNat_ne (by omega), char_ne_of_toNat_ne (by omega),
    char_ne_of_toNat_ne (by omega), char_ne_of_toNat_ne (by omega),
    char_ne_of_toNat_ne (by omega)⟩

theorem digit_ne_letters {wh : Char} (h57 : wh.toNat ≤ 57) :
    wh ≠ 'u' ∧ wh ≠ 'n' ∧ wh ≠ 'p' ∧ wh ≠ 'd' ∧ wh ≠ 'l' ∧ wh ≠ 's' ∧
      wh ≠ 'v' ∧ wh ≠ 'm' := by
  have e1 : ('u' : Char).toNat = 117 := by decide
  have e2 : ('n' : Char).toNat = 110 := by decide
  have e3 : ('p' : Char).toNat = 112 := by decide
  have e4 : ('d' : Char).toNat = 100 := by decide
  have e5 : ('l' : Char).toNat = 108 := by decide
  have e6 : ('s' : Char).toNat = 115 := by decide
  have e7 : ('v' : Char).toNat = 118 := by decide
  have e8 : ('m' : Char).toNat = 109 := by decide
  exact ⟨char_ne_of_toNat_ne (by omega), char_ne_of_toNat_ne (by omega),
    char_ne_of_toNat_ne (by omega), char_ne_of_toNat_ne (by omega),
    char_ne_of_toNat_ne (by omega), char_ne_of_toNat_ne (by omega),
    char_ne_of_toNat_ne (by omega), char_ne_of_toNat_ne (by omega)⟩

theorem tri_head_false {c : Char} (hc : braceClose ≠ c) (X : List Char) :
    tripleBrace.isPrefixOf (c :: X) = false :=
  show List.isPrefixOf (braceClose :: [braceClose, braceClose]) _ = false from
    isPrefixOf_false_of_head_ne hc _ _

theorem tri_two_false {c2 : Char} (hc2 : braceClose ≠ c2) (X : List Char) :
    tripleBrace.isPrefixOf (braceClose :: c2 :: X) = false :=
  show List.isPrefixOf (braceClose :: braceClose :: [braceClose]) _ = false from
    isPrefixOf_false_at_two _ _ _ hc2 _ _

theorem hasSub_false_of_noStart {pat A : List Char} (hpat : pat.isEmpty = false)
    (h : noStart pat A []) : hasSub pat A = false := by
  have hh := hasSub_append_false h (show hasSub pat [] = false from hpat)
  rwa [List.append_nil] at hh

theorem patQ_at_char (pre : List Char) (hpre : pre = [braceOpen] ∨ pre = [',', ' '])
    (v : String) {c : Char} (hc1 : braceOpen ≠ c) (hc2 : (',' : Char) ≠ c) (X : List Char) :
    (patQ pre v).isPrefixOf (c :: X) = false := by
  rcases hpre with rfl | rfl
  · exact patQ_head_false rfl v hc1 X
  · exact patQ_head_false rfl v hc2 X

theorem patQ_at_open (pre : List Char) (hpre : pre = [braceOpen] ∨ pre = [',', ' '])
    (v : String) {c2 : Char} (hc2 : quoteChar ≠ c2) (X : List Char) :
    (patQ pre v).isPrefixOf (braceOpen :: c2 :: X) = false := by
  rcases hpre with rfl | rfl
  · exact patQ_two_false_first v hc2 X
  · exact patQ_head_false rfl v (by decide) _

theorem patQ_at_comma (pre : List Char) (hpre : pre = [braceOpen] ∨ pre = [',', ' '])
    (v : String) {c2 : Char} (hc2 : (' ' : Char) ≠ c2) (X : List Char) :
    (patQ pre v).isPrefixOf (',' :: c2 :: X) = false := by
  rcases hpre with rfl | rfl
  · exact patQ_head_false rfl v (by decide) _
  · exact patQ_two_false_rest v hc2 X

theorem noStart_patQ_ind4 (pre : List Char) (hpre : pre = [braceOpen] ∨ pre = [',', ' '])
    (v : String) (R : List Char) : noStart (patQ pre v) ind4 R :=
  noStart_cons newlineChar (patQ_at_char pre hpre v (by decide) (by decide) _)
    (noStart_cons ' ' (patQ_at_char pre hpre v (by decide) (by decide) _)
      (noStart_cons ' ' (patQ_at_char pre hpre v (by decide) (by decide) _)
        (noStart_cons ' ' (patQ_at_char pre hpre v (by decide) (by decide) _)
          (noStart_single ' ' (patQ_at_char pre hpre v (by decide) (by decide) _)))))

theorem noStart_tri_ind4 (R : List Char) : noStart tripleBrace ind4 R :=
  noStart_cons newlineChar (tri_head_false (by decide) _)
    (noStart_cons ' ' (tri_head_false (by decide) _)
      (noStart_cons ' ' (tri_head_false (by decide) _)
        (noStart_cons ' ' (tri_head_false (by decide) _)
          (noStart_single ' ' (tri_head_false (by decide) _)))))

theorem patFirst_eq (v : String) : patFirst v = patQ [braceOpen] v := rfl

theorem patRest_eq (v : String) : patRest v = patQ [',', ' '] v := rfl

theorem patQ_isEmpty (pre : List Char) (hpre : pre = [braceOpen] ∨ pre = [',', ' '])
    (v : String) : (patQ pre v).isEmpty = false := by
  rcases hpre with rfl | rfl <;> rfl

/-- The supported shell versions are two-digit strings unchanged by JSON
escaping and free of closing-brace triples. -/
theorem supportedKey_facts : ∀ k ∈ supportedKeys,
    escapeStr k.data = k.data ∧ k.data.length = 2 ∧
      (∀ c ∈ k.data, 48 ≤ c.toNat ∧ c.toNat ≤ 57) ∧
      hasSub tripleBrace k.data = false := by decide

theorem supportedKey_shape (v : String) (hv : v ∈ supportedKeys) :
    ∃ wh wt, v.data = wh :: wt ∧ 48 ≤ wh.toNat ∧ wh.toNat ≤ 57 ∧
      escapeStr v.data = v.data ∧ v.data.length = 2 := by
  obtain ⟨hplain, hlen, hdig, _⟩ := supportedKey_facts v hv
  rcases hd : v.data with _ | ⟨wh, wt⟩
  · rw [hd] at hlen
    simp at hlen
  · obtain ⟨h1, h2⟩ := hdig wh (by rw [hd]; exact List.mem_cons_self _ _)
    rw [hd] at hplain hlen
    exact ⟨wh, wt, rfl, h1, h2, hplain, hlen⟩

/-! ## Shape and congruence lemmas for the partial record forms -/

theorem inner_dumps (vi : SelectedVersion) :
    dumps (innerToJson vi) = braceOpen :: (innerMems vi ++ [braceClose]) := rfl

theorem innerMems_shape (vi : SelectedVersion) :
    innerMems vi = qstr "version".data ++ (':' :: ' ' :: (qstr vi.version.data ++
      (',' :: ' ' :: (qstr "sha256".data ++ (':' :: ' ' :: (qstr vi.sha256.data ++
      (',' :: ' ' :: (qstr "metadata".data ++ (':' :: ' ' :: qstr vi.metadata.data))))))))) := by
  rw [innerMems]
  simp [dumpsMembers, dumps, List.append_assoc]

theorem svmEntry_shape (k : String) (vi : SelectedVersion) :
    svmEntry k vi = qstr k.data ++ (':' :: ' ' :: dumps (innerToJson vi)) := by
  rw [svmEntry]
  simp [colsp]

theorem recordPartial_shape (r : ProcessedExtension) (done : List String) :
    recordPartial r done = braceOpen :: (qstr "uuid".data ++ (':' :: ' ' ::
      (qstr r.uuid.data ++ (',' :: ' ' :: (qstr "name".data ++ (':' :: ' ' ::
      (qstr r.name.data ++ (',' :: ' ' :: (qstr "pname".data ++ (':' :: ' ' ::
      (qstr r.pname.data ++ (',' :: ' ' :: (qstr "description".data ++ (':' :: ' ' ::
      (qstr r.description.data ++ (',' :: ' ' :: (qstr "link".data ++ (':' :: ' ' ::
      (qstr r.link.data ++ (',' :: ' ' :: (qstr "shell_version_map".data ++ (':' :: ' ' ::
      (svmPart done r.shell_version_map ++ [braceClose]))))))))))))))))))))))) := by
  rw [recordPartial, fixedPart]
  simp [colsp, csp, List.append_assoc]

theorem svmEntriesTail_append (done : List String) (A B : List (String × SelectedVersion)) :
    svmEntriesTail done (A ++ B) = svmEntriesTail done A ++ svmEntriesTail done B := by
  induction A with
  | nil => rfl
  | cons kv rest ih =>
      rcases kv with ⟨k, vi⟩
      rw [List.cons_append]
      show sepRest done k ++ (svmEntry k vi ++ svmEntriesTail done (rest ++ B)) = _
      rw [ih]
      simp [svmEntriesTail, List.append_assoc]

theorem sepRest_congr {done done' : List String} {k : String}
    (h : k ∈ done ↔ k ∈ done') : sepRest done k = sepRest done' k := by
  rw [sepRest, sepRest]
  exact if_congr h rfl rfl

theorem sepFirst_congr {done done' : List String} {k : String}
    (h : k ∈ done ↔ k ∈ done') : sepFirst done k = sepFirst done' k := by
  rw [sepFirst, sepFirst]
  exact if_congr h rfl rfl

theorem svmEntriesTail_congr (done done' : List String) :
    ∀ tail : List (String × SelectedVersion),
      (∀ kv ∈ tail, kv.1 ∈ done ↔ kv.1 ∈ done') →
      svmEntriesTail done tail = svmEntriesTail done' tail := by
  intro tail
  induction tail with
  | nil => intro _; rfl
  | cons kv rest ih =>
      intro h
      rcases kv with ⟨k, vi⟩
      show sepRest done k ++ _ = sepRest done' k ++ _
      rw [sepRest_congr (h (k, vi) (List.mem_cons_self _ _)),
        ih (fun kv hkv => h kv (List.mem_cons_of_mem _ hkv))]

theorem svmPart_congr (done done' : List String) (entries : List (String × SelectedVersion))
    (h : ∀ kv ∈ entries, kv.1 ∈ done ↔ kv.1 ∈ done') :
    svmPart done entries = svmPart done' entries := by
  cases entries with
  | nil => rfl
  | cons kv rest =>
      rcases kv with ⟨k, vi⟩
      show sepFirst done k ++ _ = sepFirst done' k ++ _
      rw [sepFirst_congr (h (k, vi) (List.mem_cons_self _ _)),
        svmEntriesTail_congr done done' rest (fun kv hkv => h kv (List.mem_cons_of_mem _ hkv))]

theorem recordPartial_congr (r : ProcessedExtension) (done done' : List String)
    (h : ∀ kv ∈ r.shell_version_map, kv.1 ∈ done ↔ kv.1 ∈ done') :
    recordPartial r done = recordPartial r done' := by
  rw [recordPartial, recordPartial, svmPart_congr done done' _ h]

theorem ind4_eq : ind4 = newlineChar :: (' ' :: (' ' :: (' ' :: [' ']))) := rfl

theorem inner_shape (vi : SelectedVersion) :
    dumps (innerToJson vi) = braceOpen :: (qstr "version".data ++ (':' :: ' ' ::
      (qstr vi.version.data ++ (',' :: ' ' :: (qstr "sha256".data ++ (':' :: ' ' ::
      (qstr vi.sha256.data ++ (',' :: ' ' :: (qstr "metadata".data ++ (':' :: ' ' ::
      (qstr vi.metadata.data ++ [braceClose]))))))))))) := by
  rw [inner_dumps, innerMems_shape]
  simp [List.append_assoc]

theorem noStart_patQ_lit (pre : List Char) (hpre : pre = [braceOpen] ∨ pre = [',', ' '])
    (v : String) {wh : Char} {wt : List Char} (hv : v.data = wh :: wt)
    (s R : List Char) (hR : ∀ z, R ≠ wh :: z) :
    noStart (patQ pre v) (qstr s) R := by
  have h1 : patQ pre v =
      pre ++ quoteChar :: (wh :: (wt ++ [quoteChar, ':', ' ', braceOpen])) := by
    rw [patQ, hv, List.cons_append]
  rw [h1]
  rcases hpre with rfl | rfl
  · exact noStart_patQ_qstr [braceOpen] rfl (by decide) (by decide) wh _ s R hR
  · exact noStart_patQ_qstr [',', ' '] rfl (by decide) (by decide) wh _ s R hR

theorem noStart_patQ_inner (pre : List Char) (hpre : pre = [braceOpen] ∨ pre = [',', ' '])
    (v : String) {wh : Char} {wt : List Char} (hv : v.data = wh :: wt)
    (h48 : 48 ≤ wh.toNat) (h57 : wh.toNat ≤ 57) (vi : SelectedVersion) (R : List Char) :
    noStart (patQ pre v) (dumps (innerToJson vi)) R := by
  obtain ⟨hcol, hcom, hbcw, hnlw, hqw⟩ := digit_head_ne h48 h57
  obtain ⟨hu, hn, hp, hdw, hl, hs, hvw, hmw⟩ := digit_ne_letters h57
  rw [inner_shape]
  refine noStart_cons braceOpen ?_ ?_
  · rw [List.append_assoc]
    rcases hpre with rfl | rfl
    · exact patQ_qstr_site_letter [braceOpen] v hv "version".data
        (by decide : escapeStr "version".data = 'v' :: ['e', 'r', 's', 'i', 'o', 'n']) hvw _
    · exact patQ_head_false rfl v (by decide) _
  refine noStart_append (noStart_patQ_lit pre hpre v hv _ _ ?_) ?_
  · intro z
    simp only [List.cons_append]
    exact hR_head hcol _ z
  refine noStart_cons ':' (patQ_at_char pre hpre v (by decide) (by decide) _) ?_
  refine noStart_cons ' ' (patQ_at_char pre hpre v (by decide) (by decide) _) ?_
  refine noStart_append (noStart_patQ_lit pre hpre v hv _ _ ?_) ?_
  · intro z
    simp only [List.cons_append]
    exact hR_head hcom _ z
  refine noStart_cons ',' ?_ ?_
  · simp only [List.cons_append, List.append_assoc]
    rcases hpre with rfl | rfl
    · exact patQ_head_false rfl v (by decide) _
    · exact patQ_qstr_site_letter [',', ' '] v hv "sha256".data
        (by decide : escapeStr "sha256".data = 's' :: ['h', 'a', '2', '5', '6']) hs _
  refine noStart_cons ' ' (patQ_at_char pre hpre v (by decide) (by decide) _) ?_
  refine noStart_append (noStart_patQ_lit pre hpre v hv _ _ ?_) ?_
  · intro z
    simp only [List.cons_append]
    exact hR_head hcol _ z
  refine noStart_cons ':' (patQ_at_char pre hpre v (by decide) (by decide) _) ?_
  refine noStart_cons ' ' (patQ_at_char pre hpre v (by decide) (by decide) _) ?_
  refine noStart_append (noStart_patQ_lit pre hpre v hv _ _ ?_) ?_
  · intro z
    simp only [List.cons_append]
    exact hR_head hcom _ z
  refine noStart_cons ',' ?_ ?_
  · simp only [List.cons_append, List.append_assoc]
    rcases hpre with rfl | rfl
    · exact patQ_head_false rfl v (by decide) _
    · exact patQ_qstr_site_letter [',', ' '] v hv "metadata".data
        (by decide : escapeStr "metadata".data = 'm' :: ['e', 't', 'a', 'd', 'a', 't', 'a']) hmw _
  refine noStart_cons ' ' (patQ_at_char pre hpre v (by decide) (by decide) _) ?_
  refine noStart_append (noStart_patQ_lit pre hpre v hv _ _ ?_) ?_
  · intro z
    simp only [List.cons_append]
    exact hR_head hcol _ z
  refine noStart_cons ':' (patQ_at_char pre hpre v (by decide) (by decide) _) ?_
  refine noStart_cons ' ' (patQ_at_char pre hpre v (by decide) (by decide) _) ?_
  refine noStart_append (noStart_patQ_lit pre hpre v hv _ _ ?_) ?_
  · intro z
    exact hR_head hbcw _ z
  exact noStart_single braceClose (patQ_at_char pre hpre v (by decide) (by decide) _)

theorem noStart_patQ_entry (pre : List Char) (hpre : pre = [braceOpen] ∨ pre = [',', ' '])
    (v : String) {wh : Char} {wt : List Char} (hv : v.data = wh :: wt)
    (h48 : 48 ≤ wh.toNat) (h57 : wh.toNat ≤ 57) (k : String) (vi : SelectedVersion)
    (R : List Char) : noStart (patQ pre v) (svmEntry k vi) R := by
  obtain ⟨hcol, _, _, _, _⟩ := digit_head_ne h48 h57
  rw [svmEntry_shape]
  refine noStart_append (noStart_patQ_lit pre hpre v hv _ _ ?_) ?_
  · intro z
    simp only [List.cons_append]
    exact hR_head hcol _ z
  refine noStart_cons ':' (patQ_at_char pre hpre v (by decide) (by decide) _) ?_
  exact noStart_cons ' ' (patQ_at_char pre hpre v (by decide) (by decide) _)
    (noStart_patQ_inner pre hpre v hv h48 h57 vi _)

theorem noStart_patQ_tail (pre : List Char) (hpre : pre = [braceOpen] ∨ pre = [',', ' '])
    (v : String) {wh : Char} {wt : List Char} (hv : v.data = wh :: wt)
    (h48 : 48 ≤ wh.toNat) (h57 : wh.toNat ≤ 57) (hvlen : v.data.length = 2)
    (done : List String) :
    ∀ (tail : List (String × SelectedVersion)) (R : List Char),
      (∀ kv ∈ tail, kv.1 ∈ supportedKeys ∧
        (pre = [braceOpen] ∨ kv.1 ≠ v ∨ kv.1 ∈ done)) →
      noStart (patQ pre v) (svmEntriesTail done tail) R := by
  intro tail
  induction tail with
  | nil => intro R _; exact noStart_nil _ _
  | cons kv rest ih =>
      intro R hcond
      rcases kv with ⟨k, vi⟩
      obtain ⟨hk, hcase⟩ := hcond (k, vi) (List.mem_cons_self _ _)
      show noStart _ (sepRest done k ++ (svmEntry k vi ++ svmEntriesTail done rest)) R
      refine noStart_append ?_ (noStart_append
        (noStart_patQ_entry pre hpre v hv h48 h57 k vi _)
        (ih _ (fun kv hkv => hcond kv (List.mem_cons_of_mem _ hkv))))
      rw [sepRest]
      by_cases hkd : k ∈ done
      · rw [if_pos hkd]
        refine noStart_cons ',' ?_ (noStart_patQ_ind4 pre hpre v _)
        simp only [ind4_eq, List.cons_append]
        exact patQ_at_comma pre hpre v (by decide) _
      · rw [if_neg hkd]
        refine noStart_cons ',' ?_ (noStart_single ' '
          (patQ_at_char pre hpre v (by decide) (by decide) _))
        rcases hcase with hpre1 | hkv | hkd'
        · rw [hpre1]
          exact patQ_head_false rfl v (by decide) _
        · rcases hpre with rfl | rfl
          · exact patQ_head_false rfl v (by decide) _
          · obtain ⟨hkplain, hklen, _, _⟩ := supportedKey_facts k hk
            simp only [svmEntry_shape, List.cons_append, List.append_assoc, List.nil_append]
            exact patQ_qstr_site_digits [',', ' '] v k (fun he => hkv he.symm)
              (by rw [hvlen, hklen]) hkplain _
        · exact absurd hkd' hkd

theorem noStart_patQ_svmPart (pre : List Char) (hpre : pre = [braceOpen] ∨ pre = [',', ' '])
    (v : String) {wh : Char} {wt : List Char} (hv : v.data = wh :: wt)
    (h48 : 48 ≤ wh.toNat) (h57 : wh.toNat ≤ 57) (hvlen : v.data.length = 2)
    (done : List String) (entries : List (String × SelectedVersion)) (R : List Char)
    (hkeys : ∀ kv ∈ entries, kv.1 ∈ supportedKeys)
    (hfirstc : ∀ kv ∈ entries.take 1, pre = [',', ' '] ∨ kv.1 ≠ v ∨ kv.1 ∈ done)
    (htailc : ∀ kv ∈ entries.drop 1, pre = [braceOpen] ∨ kv.1 ≠ v ∨ kv.1 ∈ done) :
    noStart (patQ pre v) (svmPart done entries) R := by
  cases entries with
  | nil =>
      show noStart _ (braceOpen :: [braceClose]) R
      exact noStart_cons braceOpen (patQ_at_open pre hpre v (by decide) _)
        (noStart_single braceClose (patQ_at_char pre hpre v (by decide) (by decide) _))
  | cons kv rest =>
      rcases kv with ⟨k1, vi1⟩
      have hk1 : k1 ∈ supportedKeys := hkeys (k1, vi1) (List.mem_cons_self _ _)
      show noStart _
        (sepFirst done k1 ++ (svmEntry k1 vi1 ++ (svmEntriesTail done rest ++ [braceClose]))) R
      refine noStart_append ?_ (noStart_append
        (noStart_patQ_entry pre hpre v hv h48 h57 k1 vi1 _)
        (noStart_append
          (noStart_patQ_tail pre hpre v hv h48 h57 hvlen done rest _
            (fun kv hkv => ⟨hkeys kv (List.mem_cons_of_mem _ hkv), htailc kv (by simpa using hkv)⟩))
          (noStart_single braceClose (patQ_at_char pre hpre v (by decide) (by decide) _))))
      rw [sepFirst]
      by_cases hkd : k1 ∈ done
      · rw [if_pos hkd]
        refine noStart_cons braceOpen ?_ (noStart_patQ_ind4 pre hpre v _)
        simp only [ind4_eq, List.cons_append]
        exact patQ_at_open pre hpre v (by decide) _
      · rw [if_neg hkd]
        refine noStart_single braceOpen ?_
        rcases hfirstc (k1, vi1) (by simp) with hpre1 | hkv | hkd'
        · rw [hpre1]
          exact patQ_head_false rfl v (by decide) _
        · rcases hpre with rfl | rfl
          · obtain ⟨hkplain, hklen, _, _⟩ := supportedKey_facts k1 hk1
            simp only [svmEntry_shape, List.cons_append, List.append_assoc, List.nil_append]
            exact patQ_qstr_site_digits [braceOpen] v k1 (fun he => hkv he.symm)
              (by rw [hvlen, hklen]) hkplain _
          · exact patQ_head_false rfl v (by decide) _
        · exact absurd hkd' hkd

theorem noStart_patQ_record (pre : List Char) (hpre : pre = [braceOpen] ∨ pre = [',', ' '])
    (v : String) {wh : Char} {wt : List Char} (hv : v.data = wh :: wt)
    (h48 : 48 ≤ wh.toNat) (h57 : wh.toNat ≤ 57) (hvlen : v.data.length = 2)
    (r : ProcessedExtension) (done : List String) (R : List Char)
    (hkeys : ∀ kv ∈ r.shell_version_map, kv.1 ∈ supportedKeys)
    (hfirstc : ∀ kv ∈ r.shell_version_map.take 1, pre = [',', ' '] ∨ kv.1 ≠ v ∨ kv.1 ∈ done)
    (htailc : ∀ kv ∈ r.shell_version_map.drop 1, pre = [braceOpen] ∨ kv.1 ≠ v ∨ kv.1 ∈ done) :
    noStart (patQ pre v) (recordPartial r done) R := by
  obtain ⟨hcol, hcom, hbcw, hnlw, hqw⟩ := digit_head_ne h48 h57
  obtain ⟨hu, hn, hp, hdw, hl, hs, hvw, hmw⟩ := digit_ne_letters h57
  rw [recordPartial_shape]
  refine noStart_cons braceOpen ?_ ?_
  · rw [List.append_assoc]
    rcases hpre with rfl | rfl
    · exact patQ_qstr_site_letter [braceOpen] v hv "uuid".data
        (by decide : escapeStr "uuid".data = 'u' :: ['u', 'i', 'd']) hu _
    · exact patQ_head_false rfl v (by decide) _
  refine noStart_append (noStart_patQ_lit pre hpre v hv _ _ ?_) ?_
  · intro z
    simp only [List.cons_append]
    exact hR_head hcol _ z
  refine noStart_cons ':' (patQ_at_char pre hpre v (by decide) (by decide) _) ?_
  refine noStart_cons ' ' (patQ_at_char pre hpre v (by decide) (by decide) _) ?_
  refine noStart_append (noStart_patQ_lit pre hpre v hv _ _ ?_) ?_
  · intro z
    simp only [List.cons_append]
    exact hR_head hcom _ z
  refine noStart_cons ',' ?_ ?_
  · simp only [List.cons_append, List.append_assoc]
    rcases hpre with rfl | rfl
    · exact patQ_head_false rfl v (by decide) _
    · exact patQ_qstr_site_letter [',', ' '] v hv "name".data
        (by decide : escapeStr "name".data = 'n' :: ['a', 'm', 'e']) hn _
  refine noStart_cons ' ' (patQ_at_char pre hpre v (by decide) (by decide) _) ?_
  refine noStart_append (noStart_patQ_lit pre hpre v hv _ _ ?_) ?_
  · intro z
    simp only [List.cons_append]
    exact hR_head hcol _ z
  refine noStart_cons ':' (patQ_at_char pre hpre v (by decide) (by decide) _) ?_
  refine noStart_cons ' ' (patQ_at_char pre hpre v (by decide) (by decide) _) ?_
  refine noStart_append (noStart_patQ_lit pre hpre v hv _ _ ?_) ?_
  · intro z
    simp only [List.cons_append]
    exact hR_head hcom _ z
  refine noStart_cons ',' ?_ ?_
  · simp only [List.cons_append, List.append_assoc]
    rcases hpre with rfl | rfl
    · exact patQ_head_false rfl v (by decide) _
    · exact patQ_qstr_site_letter [',', ' '] v hv "pname".data
        (by decide : escapeStr "pname".data = 'p' :: ['n', 'a', 'm', 'e']) hp _
  refine noStart_cons ' ' (patQ_at_char pre hpre v (by decide) (by decide) _) ?_
  refine noStart_append (noStart_patQ_lit pre hpre v hv _ _ ?_) ?_
  · intro z
    simp only [List.cons_append]
    exact hR_head hcol _ z
  refine noStart_cons ':' (patQ_at_char pre hpre v (by decide) (by decide) _) ?_
  refine noStart_cons ' ' (patQ_at_char pre hpre v (by decide) (by decide) _) ?_
  refine noStart_append (noStart_patQ_lit pre hpre v hv _ _ ?_) ?_
  · intro z
    simp only [List.cons_append]
    exact hR_head hcom _ z
  refine noStart_cons ',' ?_ ?_
  · simp only [List.cons_append, List.append_assoc]
    rcases hpre with rfl | rfl
    · exact patQ_head_false rfl v (by decide) _
    · exact patQ_qstr_site_letter [',', ' '] v hv "description".data
        (by decide : escapeStr "description".data =
          'd' :: ['e', 's', 'c', 'r', 'i', 'p', 't', 'i', 'o', 'n']) hdw _
  refine noStart_cons ' ' (patQ_at_char pre hpre v (by decide) (by decide) _) ?_
  refine noStart_append (noStart_patQ_lit pre hpre v hv _ _ ?_) ?_
  · intro z
    simp only [List.cons_append]
    exact hR_head hcol _ z
  refine noStart_cons ':' (patQ_at_char pre hpre v (by decide) (by decide) _) ?_
  refine noStart_cons ' ' (patQ_at_char pre hpre v (by decide) (by decide) _) ?_
  refine noStart_append (noStart_patQ_lit pre hpre v hv _ _ ?_) ?_
  · intro z
    simp only [List.cons_append]
    exact hR_head hcom _ z
  refine noStart_cons ',' ?_ ?_
  · simp only [List.cons_append, List.append_assoc]
    rcases hpre with rfl | rfl
    · exact patQ_head_false rfl v (by decide) _
    · exact patQ_qstr_site_letter [',', ' '] v hv "link".data
        (by decide : escapeStr "link".data = 'l' :: ['i', 'n', 'k']) hl _
  refine noStart_cons ' ' (patQ_at_char pre hpre v (by decide) (by decide) _) ?_
  refine noStart_append (noStart_patQ_lit pre hpre v hv _ _ ?_) ?_
  · intro z
    simp only [List.cons_append]
    exact hR_head hcol _ z
  refine noStart_cons ':' (patQ_at_char pre hpre v (by decide) (by decide) _) ?_
  refine noStart_cons ' ' (patQ_at_char pre hpre v (by decide) (by decide) _) ?_
  refine noStart_append (noStart_patQ_lit pre hpre v hv _ _ ?_) ?_
  · intro z
    simp only [List.cons_append]
    exact hR_head hcom _ z
  refine noStart_cons ',' ?_ ?_
  · simp only [List.cons_append, List.append_assoc]
    rcases hpre with rfl | rfl
    · exact patQ_head_false rfl v (by decide) _
    · exact patQ_qstr_site_letter [',', ' '] v hv "shell_version_map".data
        (by decide : escapeStr "shell_version_map".data =
          's' :: ['h', 'e', 'l', 'l', '_', 'v', 'e', 'r', 's', 'i', 'o', 'n', '_',
            'm', 'a', 'p']) hs _
  refine noStart_cons ' ' (patQ_at_char pre hpre v (by decide) (by decide) _) ?_
  refine noStart_append (noStart_patQ_lit pre hpre v hv _ _ ?_) ?_
  · intro z
    simp only [List.cons_append]
    exact hR_head hcol _ z
  refine noStart_cons ':' (patQ_at_char pre hpre v (by decide) (by decide) _) ?_
  refine noStart_cons ' ' (patQ_at_char pre hpre v (by decide) (by decide) _) ?_
  exact noStart_append
    (noStart_patQ_svmPart pre hpre v hv h48 h57 hvlen done _ _ hkeys hfirstc htailc)
    (noStart_single braceClose (patQ_at_char pre hpre v (by decide) (by decide) _))

theorem hasSub_patQ_record_false (pre : List Char)
    (hpre : pre = [braceOpen] ∨ pre = [',', ' '])
    (v : String) {wh : Char} {wt : List Char} (hv : v.data = wh :: wt)
    (h48 : 48 ≤ wh.toNat) (h57 : wh.toNat ≤ 57) (hvlen : v.data.length = 2)
    (r : ProcessedExtension) (done : List String)
    (hkeys : ∀ kv ∈ r.shell_version_map, kv.1 ∈ supportedKeys)
    (hfirstc : ∀ kv ∈ r.shell_version_map.take 1, pre = [',', ' '] ∨ kv.1 ≠ v ∨ kv.1 ∈ done)
    (htailc : ∀ kv ∈ r.shell_version_map.drop 1, pre = [braceOpen] ∨ kv.1 ≠ v ∨ kv.1 ∈ done) :
    hasSub (patQ pre v) (recordPartial r done) = false :=
  hasSub_false_of_noStart (patQ_isEmpty pre hpre v)
    (noStart_patQ_record pre hpre v hv h48 h57 hvlen r done [] hkeys hfirstc htailc)

theorem noStart_of_append_left {pat A B R : List Char} (h : noStart pat (A ++ B) R) :
    noStart pat A (B ++ R) := by
  intro b hb hbne
  have hb' : b ++ B <:+ A ++ B := by
    obtain ⟨t, ht⟩ := hb
    exact ⟨t, by rw [← List.append_assoc, ht]⟩
  have hbne' : b ++ B ≠ [] := by
    intro hcon
    exact hbne (List.append_eq_nil.mp hcon).1
  have hh := h (b ++ B) hb' hbne'
  rwa [List.append_assoc] at hh

theorem noStart_of_cons {pat : List Char} {c : Char} {A R : List Char}
    (h : noStart pat (c :: A) R) : noStart pat A R :=
  fun b hb hbne => h b (hb.trans (List.suffix_cons c A)) hbne

theorem boFixed_shape (r : ProcessedExtension) :
    braceOpen :: fixedPart r = braceOpen :: (qstr "uuid".data ++ (':' :: ' ' ::
      (qstr r.uuid.data ++ (',' :: ' ' :: (qstr "name".data ++ (':' :: ' ' ::
      (qstr r.name.data ++ (',' :: ' ' :: (qstr "pname".data ++ (':' :: ' ' ::
      (qstr r.pname.data ++ (',' :: ' ' :: (qstr "description".data ++ (':' :: ' ' ::
      (qstr r.description.data ++ (',' :: ' ' :: (qstr "link".data ++ (':' :: ' ' ::
      (qstr r.link.data ++ (',' :: ' ' :: (qstr "shell_version_map".data ++
      (':' :: [' '])))))))))))))))))))))) := by
  rw [fixedPart]
  simp [colsp, csp, List.append_assoc]

theorem noStart_patQ_boFixed (pre : List Char) (hpre : pre = [braceOpen] ∨ pre = [',', ' '])
    (v : String) {wh : Char} {wt : List Char} (hv : v.data = wh :: wt)
    (h48 : 48 ≤ wh.toNat) (h57 : wh.toNat ≤ 57)
    (r : ProcessedExtension) (R : List Char) :
    noStart (patQ pre v) (braceOpen :: fixedPart r) R := by
  obtain ⟨hcol, hcom, hbcw, hnlw, hqw⟩ := digit_head_ne h48 h57
  obtain ⟨hu, hn, hp, hdw, hl, hs, hvw, hmw⟩ := digit_ne_letters h57
  rw [boFixed_shape]
  refine noStart_cons braceOpen ?_ ?_
  · rw [List.append_assoc]
    rcases hpre with rfl | rfl
    · exact patQ_qstr_site_letter [braceOpen] v hv "uuid".data
        (by decide : escapeStr "uuid".data = 'u' :: ['u', 'i', 'd']) hu _
    · exact patQ_head_false rfl v (by decide) _
  refine noStart_append (noStart_patQ_lit pre hpre v hv _ _ ?_) ?_
  · intro z
    simp only [List.cons_append]
    exact hR_head hcol _ z
  refine noStart_cons ':' (patQ_at_char pre hpre v (by decide) (by decide) _) ?_
  refine noStart_cons ' ' (patQ_at_char pre hpre v (by decide) (by decide) _) ?_
  refine noStart_append (noStart_patQ_lit pre hpre v hv _ _ ?_) ?_
  · intro z
    simp only [List.cons_append]
    exact hR_head hcom _ z
  refine noStart_cons ',' ?_ ?_
  · simp only [List.cons_append, List.append_assoc]
    rcases hpre with rfl | rfl
    · exact patQ_head_false rfl v (by decide) _
    · exact patQ_qstr_site_letter [',', ' '] v hv "name".data
        (by decide : escapeStr "name".data = 'n' :: ['a', 'm', 'e']) hn _
  refine noStart_cons ' ' (patQ_at_char pre hpre v (by decide) (by decide) _) ?_
  refine noStart_append (noStart_patQ_lit pre hpre v hv _ _ ?_) ?_
  · intro z
    simp only [List.cons_append]
    exact hR_head hcol _ z
  refine noStart_cons ':' (patQ_at_char pre hpre v (by decide) (by decide) _) ?_
  refine noStart_cons ' ' (patQ_at_char pre hpre v (by decide) (by decide) _) ?_
  refine noStart_append (noStart_patQ_lit pre hpre v hv _ _ ?_) ?_
  · intro z
    simp only [List.cons_append]
    exact hR_head hcom _ z
  refine noStart_cons ',' ?_ ?_
  · simp only [List.cons_append, List.append_assoc]
    rcases hpre with rfl | rfl
    · exact patQ_head_false rfl v (by decide) _
    · exact patQ_qstr_site_letter [',', ' '] v hv "pname".data
        (by decide : escapeStr "pname".data = 'p' :: ['n', 'a', 'm', 'e']) hp _
  refine noStart_cons ' ' (patQ_at_char pre hpre v (by decide) (by decide) _) ?_
  refine noStart_append (noStart_patQ_lit pre hpre v hv _ _ ?_) ?_
  · intro z
    simp only [List.cons_append]
    exact hR_head hcol _ z
  refine noStart_cons ':' (patQ_at_char pre hpre v (by decide) (by decide) _) ?_
  refine noStart_cons ' ' (patQ_at_char pre hpre v (by decide) (by decide) _) ?_
  refine noStart_append (noStart_patQ_lit pre hpre v hv _ _ ?_) ?_
  · intro z
    simp only [List.cons_append]
    exact hR_head hcom _ z
  refine noStart_cons ',' ?_ ?_
  · simp only [List.cons_append, List.append_assoc]
    rcases hpre with rfl | rfl
    · exact patQ_head_false rfl v (by decide) _
    · exact patQ_qstr_site_letter [',', ' '] v hv "description".data
        (by decide : escapeStr "description".data =
          'd' :: ['e', 's', 'c', 'r', 'i', 'p', 't', 'i', 'o', 'n']) hdw _
  refine noStart_cons ' ' (patQ_at_char pre hpre v (by decide) (by decide) _) ?_
  refine noStart_append (noStart_patQ_lit pre hpre v hv _ _ ?_) ?_
  · intro z
    simp only [List.cons_append]
    exact hR_head hcol _ z
  refine noStart_cons ':' (patQ_at_char pre hpre v (by decide) (by decide) _) ?_
  refine noStart_cons ' ' (patQ_at_char pre hpre v (by decide) (by decide) _) ?_
  refine noStart_append (noStart_patQ_lit pre hpre v hv _ _ ?_) ?_
  · intro z
    simp only [List.cons_append]
    exact hR_head hcom _ z
  refine noStart_cons ',' ?_ ?_
  · simp only [List.cons_append, List.append_assoc]
    rcases hpre with rfl | rfl
    · exact patQ_head_false rfl v (by decide) _
    · exact patQ_qstr_site_letter [',', ' '] v hv "link".data
        (by decide : escapeStr "link".data = 'l' :: ['i', 'n', 'k']) hl _
  refine noStart_cons ' ' (patQ_at_char pre hpre v (by decide) (by decide) _) ?_
  refine noStart_append (noStart_patQ_lit pre hpre v hv _ _ ?_) ?_
  · intro z
    simp only [List.cons_append]
    exact hR_head hcol _ z
  refine noStart_cons ':' (patQ_at_char pre hpre v (by decide) (by decide) _) ?_
  refine noStart_cons ' ' (patQ_at_char pre hpre v (by decide) (by decide) _) ?_
  refine noStart_append (noStart_patQ_lit pre hpre v hv _ _ ?_) ?_
  · intro z
    simp only [List.cons_append]
    exact hR_head hcom _ z
  refine noStart_cons ',' ?_ ?_
  · simp only [List.cons_append, List.append_assoc]
    rcases hpre with rfl | rfl
    · exact patQ_head_false rfl v (by decide) _
    · exact patQ_qstr_site_letter [',', ' '] v hv "shell_version_map".data
        (by decide : escapeStr "shell_version_map".data =
          's' :: ['h', 'e', 'l', 'l', '_', 'v', 'e', 'r', 's', 'i', 'o', 'n', '_',
            'm', 'a', 'p']) hs _
  refine noStart_cons ' ' (patQ_at_char pre hpre v (by decide) (by decide) _) ?_
  refine noStart_append (noStart_patQ_lit pre hpre v hv _ _ ?_) ?_
  · intro z
    simp only [List.cons_append]
    exact hR_head hcol _ z
  refine noStart_cons ':' (patQ_at_char pre hpre v (by decide) (by decide) _) ?_
  exact noStart_single ' ' (patQ_at_char pre hpre v (by decide) (by decide) _)

/-! ## The two replacement passes for one version rewrite exactly that
version's separator -/

theorem patQ_ne_nil (pre : List Char) (hpre : pre = [braceOpen] ∨ pre = [',', ' '])
    (v : String) : patQ pre v ≠ [] := by
  rcases hpre with rfl | rfl <;> simp [patQ]

theorem sepFirst_done (done : List String) (v : String) (hv : v ∈ done) :
    sepFirst done v = braceOpen :: ind4 := by
  rw [sepFirst, if_pos hv]

theorem sepFirst_not (done : List String) (v : String) (hv : v ∉ done) :
    sepFirst done v = [braceOpen] := by
  rw [sepFirst, if_neg hv]

theorem sepRest_done (done : List String) (v : String) (hv : v ∈ done) :
    sepRest done v = ',' :: ind4 := by
  rw [sepRest, if_pos hv]

theorem sepRest_not (done : List String) (v : String) (hv : v ∉ done) :
    sepRest done v = csp := by
  rw [sepRest, if_neg hv]

theorem noStart_patQ_fireY (pre : List Char) (hpre : pre = [braceOpen] ∨ pre = [',', ' '])
    (v : String) {wh : Char} {wt : List Char} (hv : v.data = wh :: wt)
    (h48 : 48 ≤ wh.toNat) (h57 : wh.toNat ≤ 57) (hvlen : v.data.length = 2)
    (done : List String) (vi : SelectedVersion) (suff : List (String × SelectedVersion))
    (hkeyssuff : ∀ kv ∈ suff, kv.1 ∈ supportedKeys)
    (hsuffv : ∀ kv ∈ suff, kv.1 ≠ v) (R : List Char) :
    noStart (patQ pre v) ((innerMems vi ++ [braceClose]) ++
      (svmEntriesTail done suff ++ [braceClose, braceClose])) R := by
  refine noStart_append ?_ (noStart_append
    (noStart_patQ_tail pre hpre v hv h48 h57 hvlen done suff _
      (fun kv hkv => ⟨hkeyssuff kv hkv, Or.inr (Or.inl (hsuffv kv hkv))⟩))
    (noStart_cons braceClose (patQ_at_char pre hpre v (by decide) (by decide) _)
      (noStart_single braceClose (patQ_at_char pre hpre v (by decide) (by decide) _))))
  have hi := noStart_patQ_inner pre hpre v hv h48 h57 vi
    ((svmEntriesTail done suff ++ [braceClose, braceClose]) ++ R)
  rw [inner_dumps] at hi
  exact noStart_of_cons hi

theorem hasSub_patQ_fireY (pre : List Char) (hpre : pre = [braceOpen] ∨ pre = [',', ' '])
    (v : String) {wh : Char} {wt : List Char} (hv : v.data = wh :: wt)
    (h48 : 48 ≤ wh.toNat) (h57 : wh.toNat ≤ 57) (hvlen : v.data.length = 2)
    (done : List String) (vi : SelectedVersion) (suff : List (String × SelectedVersion))
    (hkeyssuff : ∀ kv ∈ suff, kv.1 ∈ supportedKeys)
    (hsuffv : ∀ kv ∈ suff, kv.1 ≠ v) :
    hasSub (patQ pre v) ((innerMems vi ++ [braceClose]) ++
      (svmEntriesTail done suff ++ [braceClose, braceClose])) = false :=
  hasSub_false_of_noStart (patQ_isEmpty pre hpre v)
    (noStart_patQ_fireY pre hpre v hv h48 h57 hvlen done vi suff hkeyssuff hsuffv [])

theorem recordPartial_fire_first (r : ProcessedExtension) (done : List String) (v : String)
    (hvplain : escapeStr v.data = v.data) (vi : SelectedVersion)
    (rest : List (String × SelectedVersion))
    (hsvm : r.shell_version_map = (v, vi) :: rest) (hvd : v ∉ done) :
    recordPartial r done =
      ((braceOpen :: fixedPart r) ++ patQ [braceOpen] v) ++
        ((innerMems vi ++ [braceClose]) ++
          (svmEntriesTail done rest ++ [braceClose, braceClose])) := by
  rw [recordPartial, hsvm]
  rw [show svmPart done ((v, vi) :: rest) =
      sepFirst done v ++ (svmEntry v vi ++ (svmEntriesTail done rest ++ [braceClose]))
    from rfl]
  rw [sepFirst_not done v hvd]
  simp only [svmEntry, qstr, colsp, inner_dumps, patQ]
  rw [hvplain]
  simp [List.append_assoc]

theorem recordPartial_after_first (r : ProcessedExtension) (done : List String) (v : String)
    (hvplain : escapeStr v.data = v.data) (vi : SelectedVersion)
    (rest : List (String × SelectedVersion))
    (hsvm : r.shell_version_map = (v, vi) :: rest)
    (hrest : ∀ kv ∈ rest, kv.1 ≠ v) :
    ((braceOpen :: fixedPart r) ++ patFirstNew v) ++
        ((innerMems vi ++ [braceClose]) ++
          (svmEntriesTail done rest ++ [braceClose, braceClose])) =
      recordPartial r (done ++ [v]) := by
  rw [recordPartial, hsvm]
  rw [show svmPart (done ++ [v]) ((v, vi) :: rest) =
      sepFirst (done ++ [v]) v ++
        (svmEntry v vi ++ (svmEntriesTail (done ++ [v]) rest ++ [braceClose]))
    from rfl]
  rw [sepFirst_done _ _ (by simp)]
  rw [svmEntriesTail_congr (done ++ [v]) done rest
    (fun kv hkv => by simp [List.mem_append, hrest kv hkv])]
  simp only [svmEntry, qstr, colsp, inner_dumps, patFirstNew, ind4_eq]
  rw [hvplain]
  simp [List.append_assoc]

theorem recordPartial_fire_rest (r : ProcessedExtension) (done : List String) (v : String)
    (hvplain : escapeStr v.data = v.data) (vi : SelectedVersion) (k1 : String)
    (vi1 : SelectedVersion) (pref suff : List (String × SelectedVersion))
    (hsvm : r.shell_version_map = (k1, vi1) :: (pref ++ (v, vi) :: suff))
    (hvd : v ∉ done) :
    recordPartial r done =
      ((braceOpen :: fixedPart r) ++
          (sepFirst done k1 ++ (svmEntry k1 vi1 ++ svmEntriesTail done pref))
        ++ patQ [',', ' '] v) ++
        ((innerMems vi ++ [braceClose]) ++
          (svmEntriesTail done suff ++ [braceClose, braceClose])) := by
  rw [recordPartial, hsvm]
  rw [show svmPart done ((k1, vi1) :: (pref ++ (v, vi) :: suff)) =
      sepFirst done k1 ++ (svmEntry k1 vi1 ++
        (svmEntriesTail done (pref ++ (v, vi) :: suff) ++ [braceClose]))
    from rfl]
  rw [svmEntriesTail_append]
  rw [show svmEntriesTail done ((v, vi) :: suff) =
      sepRest done v ++ (svmEntry v vi ++ svmEntriesTail done suff) from rfl]
  rw [sepRest_not done v hvd]
  simp only [svmEntry, qstr, colsp, csp, inner_dumps, patQ]
  rw [hvplain]
  simp [List.append_assoc]

theorem recordPartial_after_rest (r : ProcessedExtension) (done : List String) (v : String)
    (hvplain : escapeStr v.data = v.data) (vi : SelectedVersion) (k1 : String)
    (vi1 : SelectedVersion) (pref suff : List (String × SelectedVersion))
    (hsvm : r.shell_version_map = (k1, vi1) :: (pref ++ (v, vi) :: suff))
    (hk1 : k1 ≠ v) (hpref : ∀ kv ∈ pref, kv.1 ≠ v) (hsuff : ∀ kv ∈ suff, kv.1 ≠ v) :
    ((braceOpen :: fixedPart r) ++
        (sepFirst done k1 ++ (svmEntry k1 vi1 ++ svmEntriesTail done pref))
      ++ patRestNew v) ++
      ((innerMems vi ++ [braceClose]) ++
        (svmEntriesTail done suff ++ [braceClose, braceClose])) =
    recordPartial r (done ++ [v]) := by
  rw [recordPartial, hsvm]
  rw [show svmPart (done ++ [v]) ((k1, vi1) :: (pref ++ (v, vi) :: suff)) =
      sepFirst (done ++ [v]) k1 ++ (svmEntry k1 vi1 ++
        (svmEntriesTail (done ++ [v]) (pref ++ (v, vi) :: suff) ++ [braceClose]))
    from rfl]
  rw [svmEntriesTail_append]
  rw [show svmEntriesTail (done ++ [v]) ((v, vi) :: suff) =
      sepRest (done ++ [v]) v ++ (svmEntry v vi ++ svmEntriesTail (done ++ [v]) suff)
    from rfl]
  rw [sepRest_done _ _ (by simp)]
  rw [sepFirst_congr (show k1 ∈ done ++ [v] ↔ k1 ∈ done by simp [List.mem_append, hk1])]
  rw [svmEntriesTail_congr (done ++ [v]) done pref
    (fun kv hkv => by simp [List.mem_append, hpref kv hkv])]
  rw [svmEntriesTail_congr (done ++ [v]) done suff
    (fun kv hkv => by simp [List.mem_append, hsuff kv hkv])]
  simp only [svmEntry, qstr, colsp, inner_dumps, patRestNew, ind4_eq]
  rw [hvplain]
  simp [List.append_assoc]

/-- One iteration of the foldl on lines 311-315: the two replacements for
version `v` rewrite exactly `v`'s separator (when `v` has an entry) and
nothing else. -/
theorem injectStep (r : ProcessedExtension) (done : List String) (v : String)
    (hv : v ∈ supportedKeys) (hvdone : v ∉ done)
    (hkeys : ∀ kv ∈ r.shell_version_map, kv.1 ∈ supportedKeys)
    (hnodup : (keysA r.shell_version_map).Nodup) :
    replaceAll (patRest v) (patRestNew v)
      (replaceAll (patFirst v) (patFirstNew v) (recordPartial r done)) =
      recordPartial r (done ++ [v]) := by
  obtain ⟨wh, wt, hvdat, h48, h57, hvplain, hvlen⟩ := supportedKey_shape v hv
  rw [patFirst_eq, patRest_eq]
  by_cases hvk : v ∈ keysA r.shell_version_map
  · obtain ⟨kv0, hkv0mem, hkv0fst⟩ := List.mem_map.mp hvk
    obtain ⟨k0, vi⟩ := kv0
    simp only at hkv0fst
    subst hkv0fst
    obtain ⟨l1, l2, hsplit⟩ := List.append_of_mem hkv0mem
    have hkeysplit : keysA r.shell_version_map =
        l1.map (fun kv => kv.1) ++ k0 :: l2.map (fun kv => kv.1) := by
      rw [hsplit]
      simp [keysA]
    have hnd := hnodup
    rw [hkeysplit, List.nodup_append] at hnd
    obtain ⟨hnd1, hnd2, hnd3⟩ := hnd
    have hv_l1 : ∀ kv ∈ l1, kv.1 ≠ k0 := by
      intro kv hkv hcon
      exact hnd3 (List.mem_map_of_mem _ hkv) (by rw [hcon]; exact List.mem_cons_self _ _)
    have hv_l2 : ∀ kv ∈ l2, kv.1 ≠ k0 := by
      intro kv hkv hcon
      exact (List.nodup_cons.mp hnd2).1 (by rw [← hcon]; exact List.mem_map_of_mem _ hkv)
    have hkeys_l2 : ∀ kv ∈ l2, kv.1 ∈ supportedKeys := by
      intro kv hkv
      refine hkeys kv ?_
      rw [hsplit]
      simp [hkv]
    rcases l1 with _ | ⟨⟨k1, vi1⟩, pref⟩
    · rw [List.nil_append] at hsplit
      have hfire := recordPartial_fire_first r done k0 hvplain vi l2 hsplit hvdone
      rw [hfire]
      rw [replaceAll_single (patQ [braceOpen] k0) (patFirstNew k0) _ _
        (patQ_ne_nil _ (Or.inl rfl) k0)
        (noStart_patQ_boFixed [braceOpen] (Or.inl rfl) k0 hvdat h48 h57 r _)
        (hasSub_patQ_fireY [braceOpen] (Or.inl rfl) k0 hvdat h48 h57 hvlen done vi l2
          hkeys_l2 hv_l2)]
      rw [recordPartial_after_first r done k0 hvplain vi l2 hsplit hv_l2]
      refine replaceAll_noSub _ _ _ ?_
      refine hasSub_patQ_record_false [',', ' '] (Or.inr rfl) k0 hvdat h48 h57 hvlen
        r (done ++ [k0]) hkeys ?_ ?_
      · intro kv _
        exact Or.inl rfl
      · intro kv hkv
        rw [hsplit] at hkv
        exact Or.inr (Or.inl (hv_l2 kv (by simpa using hkv)))
    · rw [List.cons_append] at hsplit
      have hk1v : k1 ≠ k0 := hv_l1 (k1, vi1) (List.mem_cons_self _ _)
      have hprefv : ∀ kv ∈ pref, kv.1 ≠ k0 :=
        fun kv hkv => hv_l1 kv (List.mem_cons_of_mem _ hkv)
      have hkeys_pref : ∀ kv ∈ pref, kv.1 ∈ supportedKeys := by
        intro kv hkv
        refine hkeys kv ?_
        rw [hsplit]
        simp [hkv]
      rw [replaceAll_noSub _ _ _
        (hasSub_patQ_record_false [braceOpen] (Or.inl rfl) k0 hvdat h48 h57 hvlen
          r done hkeys
          (by
            intro kv hkv
            rw [hsplit] at hkv
            simp at hkv
            rw [hkv]
            exact Or.inr (Or.inl hk1v))
          (fun kv _ => Or.inl rfl))]
      have hfire := recordPartial_fire_rest r done k0 hvplain vi k1 vi1 pref l2
        hsplit hvdone
      have hXns : noStart (patQ [',', ' '] k0)
          ((braceOpen :: fixedPart r) ++
            (sepFirst done k1 ++ (svmEntry k1 vi1 ++ svmEntriesTail done pref)))
          (patQ [',', ' '] k0 ++ ((innerMems vi ++ [braceClose]) ++
            (svmEntriesTail done l2 ++ [braceClose, braceClose]))) := by
        refine noStart_append
          (noStart_patQ_boFixed [',', ' '] (Or.inr rfl) k0 hvdat h48 h57 r _) ?_
        refine noStart_append ?_ (noStart_append
          (noStart_patQ_entry [',', ' '] (Or.inr rfl) k0 hvdat h48 h57 k1 vi1 _)
          (noStart_patQ_tail [',', ' '] (Or.inr rfl) k0 hvdat h48 h57 hvlen done pref _
            (fun kv hkv => ⟨hkeys_pref kv hkv, Or.inr (Or.inl (hprefv kv hkv))⟩)))
        by_cases hkd : k1 ∈ done
        · rw [sepFirst_done _ _ hkd]
          refine noStart_cons braceOpen ?_ (noStart_patQ_ind4 [',', ' '] (Or.inr rfl) k0 _)
          simp only [ind4_eq, List.cons_append]
          exact patQ_at_open [',', ' '] (Or.inr rfl) k0 (by decide) _
        · rw [sepFirst_not _ _ hkd]
          exact noStart_single braceOpen (patQ_head_false rfl k0 (by decide) _)
      rw [hfire]
      rw [replaceAll_single (patQ [',', ' '] k0) (patRestNew k0) _ _
        (patQ_ne_nil _ (Or.inr rfl) k0) hXns
        (hasSub_patQ_fireY [',', ' '] (Or.inr rfl) k0 hvdat h48 h57 hvlen done vi l2
          hkeys_l2 hv_l2)]
      exact recordPartial_after_rest r done k0 hvplain vi k1 vi1 pref l2 hsplit
        hk1v hprefv hv_l2
  · have hiff : ∀ kv ∈ r.shell_version_map, kv.1 ∈ done ↔ kv.1 ∈ done ++ [v] := by
      intro kv hkv
      have : kv.1 ≠ v := by
        intro hcon
        exact hvk (by rw [← hcon]; exact List.mem_map_of_mem _ hkv)
      simp [List.mem_append, this]
    have hne : ∀ kv ∈ r.shell_version_map, kv.1 ≠ v := by
      intro kv hkv hcon
      exact hvk (by rw [← hcon]; exact List.mem_map_of_mem _ hkv)
    rw [replaceAll_noSub _ _ _
      (hasSub_patQ_record_false [braceOpen] (Or.inl rfl) v hvdat h48 h57 hvlen r done hkeys
        (fun kv hkv => Or.inr (Or.inl (hne kv (List.mem_of_mem_take hkv))))
        (fun kv _ => Or.inl rfl))]
    rw [replaceAll_noSub _ _ _
      (hasSub_patQ_record_false [',', ' '] (Or.inr rfl) v hvdat h48 h57 hvlen r done hkeys
        (fun kv _ => Or.inl rfl)
        (fun kv hkv => Or.inr (Or.inl (hne kv (List.mem_of_mem_drop hkv)))))]
    exact recordPartial_congr r done (done ++ [v]) hiff

/-! ## From the dumped record to the fully rewritten record -/

theorem dumpsMembers_svm : ∀ (rest : List (String × SelectedVersion)) (k : String)
    (vi : SelectedVersion),
    dumpsMembers (((k, vi) :: rest).map (fun kv => (kv.1, innerToJson kv.2))) =
      svmEntry k vi ++ svmEntriesTail [] rest := by
  intro rest
  induction rest with
  | nil =>
      intro k vi
      show dumpsMembers [(k, innerToJson vi)] = _
      rw [svmEntry_shape]
      simp [dumpsMembers, svmEntriesTail]
  | cons kv2 rest' ih =>
      intro k vi
      rcases kv2 with ⟨k2, vi2⟩
      show dumpsMembers ((k, innerToJson vi) :: (k2, innerToJson vi2) ::
        rest'.map (fun kv => (kv.1, innerToJson kv.2))) = _
      rw [show dumpsMembers ((k, innerToJson vi) :: (k2, innerToJson vi2) ::
          rest'.map (fun kv => (kv.1, innerToJson kv.2))) =
        qstr k.data ++ ':' :: ' ' :: dumps (innerToJson vi) ++ ',' :: ' ' ::
          dumpsMembers ((k2, innerToJson vi2) :: rest'.map (fun kv => (kv.1, innerToJson kv.2)))
        from rfl]
      have ih' := ih k2 vi2
      rw [show List.map (fun kv => (kv.1, innerToJson kv.2)) ((k2, vi2) :: rest') =
        (k2, innerToJson vi2) :: rest'.map (fun kv => (kv.1, innerToJson kv.2)) from rfl] at ih'
      rw [ih']
      rw [show svmEntriesTail [] ((k2, vi2) :: rest') =
        sepRest [] k2 ++ (svmEntry k2 vi2 ++ svmEntriesTail [] rest') from rfl]
      rw [sepRest_not [] k2 (by simp), svmEntry_shape, svmEntry_shape, csp]
      simp [List.append_assoc]

theorem dumps_record_base (r : ProcessedExtension) :
    dumps (recordToJson r) = recordPartial r [] := by
  rcases hsvm : r.shell_version_map with _ | ⟨⟨k, vi⟩, rest⟩
  · rw [recordToJson, recordPartial, fixedPart, hsvm]
    show dumps (Json.obj _) = _
    rw [show svmPart ([] : List String) [] = braceOpen :: [braceClose] from rfl]
    simp [dumps, dumpsMembers, colsp, csp, List.append_assoc]
  · rw [recordToJson, recordPartial, fixedPart, hsvm]
    rw [show svmPart ([] : List String) ((k, vi) :: rest) =
      sepFirst [] k ++ (svmEntry k vi ++ (svmEntriesTail [] rest ++ [braceClose]))
      from rfl]
    rw [sepFirst_not [] k (by simp)]
    have hm := dumpsMembers_svm rest k vi
    simp only [List.map_cons] at hm
    simp [dumps, dumpsMembers, hm, colsp, csp, List.append_assoc]

/-- The foldl of lines 311-315 over any fresh version list rewrites exactly
the separators of the versions in the list. -/
theorem injectFold (r : ProcessedExtension)
    (hkeys : ∀ kv ∈ r.shell_version_map, kv.1 ∈ supportedKeys)
    (hnodup : (keysA r.shell_version_map).Nodup) :
    ∀ (vs : List (String × String)) (done : List String),
      (∀ kv ∈ vs, kv.1 ∈ supportedKeys) →
      (done ++ vs.map (fun kv => kv.1)).Nodup →
      vs.foldl (fun acc kv =>
        replaceAll (patRest kv.1) (patRestNew kv.1)
          (replaceAll (patFirst kv.1) (patFirstNew kv.1) acc)) (recordPartial r done) =
      recordPartial r (done ++ vs.map (fun kv => kv.1)) := by
  intro vs
  induction vs with
  | nil =>
      intro done _ _
      simp
  | cons kv vs' ih =>
      intro done hks hnd
      rcases kv with ⟨v, pfx⟩
      rw [List.foldl_cons]
      have hvdone : v ∉ done := by
        have hnd' : (done ++ v :: vs'.map (fun kv => kv.1)).Nodup := by simpa using hnd
        rw [List.nodup_append] at hnd'
        exact fun hmem => hnd'.2.2 hmem (List.mem_cons_self _ _)
      rw [injectStep r done v (hks (v, pfx) (List.mem_cons_self _ _)) hvdone hkeys hnodup]
      rw [ih (done ++ [v]) (fun kv hkv => hks kv (List.mem_cons_of_mem _ hkv))
        (by simpa using hnd)]
      have : (done ++ [v]) ++ vs'.map (fun kv => kv.1) =
          done ++ ((v, pfx) :: vs').map (fun kv => kv.1) := by
        simp
      rw [this]

/-! ## The closing-brace pass of line 317 -/

theorem svmEntryOpen_shape (k : String) (vi : SelectedVersion) :
    svmEntryOpen k vi = qstr k.data ++ (':' :: ' ' :: (braceOpen :: (qstr "version".data ++
      (':' :: ' ' :: (qstr vi.version.data ++ (',' :: ' ' :: (qstr "sha256".data ++
      (':' :: ' ' :: (qstr vi.sha256.data ++ (',' :: ' ' :: (qstr "metadata".data ++
      (':' :: ' ' :: qstr vi.metadata.data)))))))))))) := by
  rw [svmEntryOpen, innerMems_shape]
  simp [colsp, List.append_assoc]

theorem svmEntry_open_close (k : String) (vi : SelectedVersion) :
    svmEntry k vi = svmEntryOpen k vi ++ [braceClose] := by
  rw [svmEntry, svmEntryOpen, inner_dumps]
  simp [List.append_assoc]

theorem noStart_tri_entryOpen (k : String) (vi : SelectedVersion) (R : List Char)
    (h0 : hasSub tripleBrace (escapeStr k.data) = false)
    (h1 : hasSub tripleBrace (escapeStr vi.version.data) = false)
    (h2 : hasSub tripleBrace (escapeStr vi.sha256.data) = false)
    (h3 : hasSub tripleBrace (escapeStr vi.metadata.data) = false) :
    noStart tripleBrace (svmEntryOpen k vi) R := by
  rw [svmEntryOpen_shape]
  refine noStart_append (noStart_tri_qstr _ _ h0) ?_
  refine noStart_cons ':' (tri_head_false (by decide) _) ?_
  refine noStart_cons ' ' (tri_head_false (by decide) _) ?_
  refine noStart_cons braceOpen (tri_head_false (by decide) _) ?_
  refine noStart_append (noStart_tri_qstr _ _ (by decide)) ?_
  refine noStart_cons ':' (tri_head_false (by decide) _) ?_
  refine noStart_cons ' ' (tri_head_false (by decide) _) ?_
  refine noStart_append (noStart_tri_qstr _ _ h1) ?_
  refine noStart_cons ',' (tri_head_false (by decide) _) ?_
  refine noStart_cons ' ' (tri_head_false (by decide) _) ?_
  refine noStart_append (noStart_tri_qstr _ _ (by decide)) ?_
  refine noStart_cons ':' (tri_head_false (by decide) _) ?_
  refine noStart_cons ' ' (tri_head_false (by decide) _) ?_
  refine noStart_append (noStart_tri_qstr _ _ h2) ?_
  refine noStart_cons ',' (tri_head_false (by decide) _) ?_
  refine noStart_cons ' ' (tri_head_false (by decide) _) ?_
  refine noStart_append (noStart_tri_qstr _ _ (by decide)) ?_
  refine noStart_cons ':' (tri_head_false (by decide) _) ?_
  refine noStart_cons ' ' (tri_head_false (by decide) _) ?_
  exact noStart_tri_qstr _ _ h3

theorem noStart_tri_entry (k : String) (vi : SelectedVersion) (R : List Char)
    (h0 : hasSub tripleBrace (escapeStr k.data) = false)
    (h1 : hasSub tripleBrace (escapeStr vi.version.data) = false)
    (h2 : hasSub tripleBrace (escapeStr vi.sha256.data) = false)
    (h3 : hasSub tripleBrace (escapeStr vi.metadata.data) = false)
    (hR3 : tripleBrace.isPrefixOf (braceClose :: R) = false) :
    noStart tripleBrace (svmEntry k vi) R := by
  rw [svmEntry_open_close]
  exact noStart_append (noStart_tri_entryOpen k vi _ h0 h1 h2 h3)
    (noStart_single braceClose hR3)

theorem noStart_tri_chainOpen (done : List String) :
    ∀ (rest : List (String × SelectedVersion)) (kv : String × SelectedVersion) (R : List Char),
      (∀ e ∈ kv :: rest,
        hasSub tripleBrace (escapeStr e.1.data) = false ∧
        hasSub tripleBrace (escapeStr e.2.version.data) = false ∧
        hasSub tripleBrace (escapeStr e.2.sha256.data) = false ∧
        hasSub tripleBrace (escapeStr e.2.metadata.data) = false) →
      noStart tripleBrace (svmChainOpen done kv rest) R := by
  intro rest
  induction rest with
  | nil =>
      intro kv R hcl
      obtain ⟨h0, h1, h2, h3⟩ := hcl kv (List.mem_cons_self _ _)
      exact noStart_tri_entryOpen kv.1 kv.2 R h0 h1 h2 h3
  | cons e rest' ih =>
      intro kv R hcl
      obtain ⟨h0, h1, h2, h3⟩ := hcl kv (List.mem_cons_self _ _)
      show noStart _ (svmEntry kv.1 kv.2 ++ (sepRest done e.1 ++ svmChainOpen done e rest')) R
      refine noStart_append (noStart_tri_entry kv.1 kv.2 _ h0 h1 h2 h3 ?_) ?_
      · by_cases hkd : e.1 ∈ done
        · rw [sepRest_done _ _ hkd]
          simp only [List.cons_append, List.append_assoc]
          exact tri_two_false (by decide) _
        · rw [sepRest_not _ _ hkd, csp]
          simp only [List.cons_append, List.append_assoc]
          exact tri_two_false (by decide) _
      · refine noStart_append ?_ (ih e R (fun x hx => hcl x (List.mem_cons_of_mem _ hx)))
        by_cases hkd : e.1 ∈ done
        · rw [sepRest_done _ _ hkd]
          exact noStart_cons ',' (tri_head_false (by decide) _) (noStart_tri_ind4 _)
        · rw [sepRest_not _ _ hkd, csp]
          exact noStart_cons ',' (tri_head_false (by decide) _)
            (noStart_single ' ' (tri_head_false (by decide) _))

theorem noStart_tri_boFixed (r : ProcessedExtension) (hclean : cleanRecord r)
    (R : List Char) : noStart tripleBrace (braceOpen :: fixedPart r) R := by
  obtain ⟨hu, hn, hp, hd, hl, _⟩ := hclean
  rw [boFixed_shape]
  refine noStart_cons braceOpen (tri_head_false (by decide) _) ?_
  refine noStart_append (noStart_tri_qstr _ _ (by decide)) ?_
  refine noStart_cons ':' (tri_head_false (by decide) _) ?_
  refine noStart_cons ' ' (tri_head_false (by decide) _) ?_
  refine noStart_append (noStart_tri_qstr _ _ (escapeStr_tri _ hu)) ?_
  refine noStart_cons ',' (tri_head_false (by decide) _) ?_
  refine noStart_cons ' ' (tri_head_false (by decide) _) ?_
  refine noStart_append (noStart_tri_qstr _ _ (by decide)) ?_
  refine noStart_cons ':' (tri_head_false (by decide) _) ?_
  refine noStart_cons ' ' (tri_head_false (by decide) _) ?_
  refine noStart_append (noStart_tri_qstr _ _ (escapeStr_tri _ hn)) ?_
  refine noStart_cons ',' (tri_head_false (by decide) _) ?_
  refine noStart_cons ' ' (tri_head_false (by decide) _) ?_
  refine noStart_append (noStart_tri_qstr _ _ (by decide)) ?_
  refine noStart_cons ':' (tri_head_false (by decide) _) ?_
  refine noStart_cons ' ' (tri_head_false (by decide) _) ?_
  refine noStart_append (noStart_tri_qstr _ _ (escapeStr_tri _ hp)) ?_
  refine noStart_cons ',' (tri_head_false (by decide) _) ?_
  refine noStart_cons ' ' (tri_head_false (by decide) _) ?_
  refine noStart_append (noStart_tri_qstr _ _ (by decide)) ?_
  refine noStart_cons ':' (tri_head_false (by decide) _) ?_
  refine noStart_cons ' ' (tri_head_false (by decide) _) ?_
  refine noStart_append (noStart_tri_qstr _ _ (escapeStr_tri _ hd)) ?_
  refine noStart_cons ',' (tri_head_false (by decide) _) ?_
  refine noStart_cons ' ' (tri_head_false (by decide) _) ?_
  refine noStart_append (noStart_tri_qstr _ _ (by decide)) ?_
  refine noStart_cons ':' (tri_head_false (by decide) _) ?_
  refine noStart_cons ' ' (tri_head_false (by decide) _) ?_
  refine noStart_append (noStart_tri_qstr _ _ (escapeStr_tri _ hl)) ?_
  refine noStart_cons ',' (tri_head_false (by decide) _) ?_
  refine noStart_cons ' ' (tri_head_false (by decide) _) ?_
  refine noStart_append (noStart_tri_qstr _ _ (by decide)) ?_
  refine noStart_cons ':' (tri_head_false (by decide) _) ?_
  exact noStart_single ' ' (tri_head_false (by decide) _)

theorem chainOpen_spec (done : List String) :
    ∀ (rest : List (String × SelectedVersion)) (kv : String × SelectedVersion),
      svmEntry kv.1 kv.2 ++ (svmEntriesTail done rest ++ [braceClose, braceClose]) =
      svmChainOpen done kv rest ++ tripleBrace := by
  intro rest
  induction rest with
  | nil =>
      intro kv
      rw [svmEntry_open_close]
      show _ = svmEntryOpen kv.1 kv.2 ++ tripleBrace
      rw [show svmEntriesTail done ([] : List (String × SelectedVersion)) = [] from rfl]
      simp [tripleBrace, List.append_assoc]
  | cons e rest' ih =>
      intro kv
      rcases e with ⟨k2, vi2⟩
      rw [show svmEntriesTail done ((k2, vi2) :: rest') =
        sepRest done k2 ++ (svmEntry k2 vi2 ++ svmEntriesTail done rest') from rfl]
      rw [show svmChainOpen done kv ((k2, vi2) :: rest') =
        svmEntry kv.1 kv.2 ++ (sepRest done k2 ++ svmChainOpen done (k2, vi2) rest')
        from rfl]
      have h2 : svmEntry k2 vi2 ++ (svmEntriesTail done rest' ++ [braceClose, braceClose]) =
          svmChainOpen done (k2, vi2) rest' ++ tripleBrace := ih (k2, vi2)
      simp only [List.append_assoc]
      rw [h2]

theorem recordPartial_tri_decomp (r : ProcessedExtension) (done : List String)
    (k : String) (vi : SelectedVersion) (rest : List (String × SelectedVersion))
    (hsvm : r.shell_version_map = (k, vi) :: rest) :
    recordPartial r done =
      ((braceOpen :: fixedPart r) ++ (sepFirst done k ++ svmChainOpen done (k, vi) rest))
        ++ tripleBrace := by
  rw [recordPartial, hsvm]
  rw [show svmPart done ((k, vi) :: rest) =
    sepFirst done k ++ (svmEntry k vi ++ (svmEntriesTail done rest ++ [braceClose]))
    from rfl]
  have h2 : svmEntry k vi ++ (svmEntriesTail done rest ++ [braceClose, braceClose]) =
      svmChainOpen done (k, vi) rest ++ tripleBrace := chainOpen_spec done rest (k, vi)
  simp only [List.append_assoc]
  rw [← h2]
  simp [List.append_assoc]

theorem chainOpen_pretty (done : List String) :
    ∀ (rest : List (String × SelectedVersion)) (kv : String × SelectedVersion),
      (∀ e ∈ kv :: rest, e.1 ∈ done) →
      svmChainOpen done kv rest = prettyChain kv rest := by
  intro rest
  induction rest with
  | nil => intro kv _; rfl
  | cons e rest' ih =>
      intro kv hmem
      show svmEntry kv.1 kv.2 ++ (sepRest done e.1 ++ svmChainOpen done e rest') =
        svmEntry kv.1 kv.2 ++ ((',' :: ind4) ++ prettyChain e rest')
      rw [sepRest_done _ _ (hmem e (List.mem_cons_of_mem _ (List.mem_cons_self _ _))),
        ih e (fun x hx => hmem x (List.mem_cons_of_mem kv hx))]

/-- The final replacement pass of line 317 rewrites exactly the record's
three closing braces. -/
theorem triStep (r : ProcessedExtension) (hgood : goodRecord r) :
    replaceAll tripleBrace tripleBraceNew (recordPartial r supportedKeys) =
      recordPretty r := by
  obtain ⟨hclean, hne, hnodup, hsub⟩ := hgood
  rcases hsvm : r.shell_version_map with _ | ⟨⟨k, vi⟩, rest⟩
  · exact absurd hsvm hne
  · have hmemk : ∀ e ∈ ((k, vi) :: rest : List (String × SelectedVersion)),
        e.1 ∈ supportedKeys := by
      intro e he
      refine hsub e.1 ?_
      rw [show keysA r.shell_version_map = r.shell_version_map.map (fun kv => kv.1)
        from rfl, hsvm]
      exact List.mem_map_of_mem _ he
    have hent : ∀ e ∈ ((k, vi) :: rest : List (String × SelectedVersion)),
        hasSub tripleBrace (escapeStr e.1.data) = false ∧
        hasSub tripleBrace (escapeStr e.2.version.data) = false ∧
        hasSub tripleBrace (escapeStr e.2.sha256.data) = false ∧
        hasSub tripleBrace (escapeStr e.2.metadata.data) = false := by
      intro e he
      obtain ⟨hkplain, _, _, hktri⟩ := supportedKey_facts e.1 (hmemk e he)
      obtain ⟨hv1, hv2, hv3⟩ := hclean.2.2.2.2.2 e (by rw [hsvm]; exact he)
      exact ⟨by rw [hkplain]; exact hktri, escapeStr_tri _ hv1, escapeStr_tri _ hv2,
        escapeStr_tri _ hv3⟩
    have hksup : k ∈ supportedKeys := hmemk (k, vi) (List.mem_cons_self _ _)
    have hdecomp := recordPartial_tri_decomp r supportedKeys k vi rest hsvm
    rw [hdecomp]
    have hX : noStart tripleBrace
        ((braceOpen :: fixedPart r) ++ (sepFirst supportedKeys k ++
          svmChainOpen supportedKeys (k, vi) rest)) (tripleBrace ++ []) := by
      refine noStart_append (noStart_tri_boFixed r hclean _) (noStart_append ?_
        (noStart_tri_chainOpen supportedKeys rest (k, vi) _ hent))
      rw [sepFirst_done _ _ hksup]
      exact noStart_cons braceOpen (tri_head_false (by decide) _) (noStart_tri_ind4 _)
    have h := replaceAll_single tripleBrace tripleBraceNew _ [] (by decide) hX
      (by decide)
    rw [List.append_nil, List.append_nil] at h
    rw [h]
    rw [sepFirst_done _ _ hksup, chainOpen_pretty supportedKeys rest (k, vi) hmemk]
    simp only [recordPretty, hsvm]
    simp [List.append_assoc]

/-- Pillar A: lines 311-317 turn the dumped record into its pretty-printed
form. -/
theorem injectBreaks_pretty (r : ProcessedExtension) (hgood : goodRecord r) :
    injectBreaks (dumps (recordToJson r)) = recordPretty r := by
  have hkeys : ∀ kv ∈ r.shell_version_map, kv.1 ∈ supportedKeys := by
    intro kv hkv
    exact hgood.2.2.2 kv.1 (List.mem_map_of_mem _ hkv)
  rw [injectBreaks, dumps_record_base]
  rw [injectFold r hkeys hgood.2.2.1 supportedVersions []
    (fun kv hkv => List.mem_map_of_mem _ hkv) (by decide)]
  rw [show ([] : List String) ++ supportedVersions.map (fun kv => kv.1) = supportedKeys
    from rfl]
  exact triStep r hgood

/-! ## Pillar B: the JSON reader accepts the pretty-printed output -/

theorem skipJsonWs_cons_ws {c : Char} (h : jsonWs c = true) (X : List Char) :
    skipJsonWs (c :: X) = skipJsonWs X := by
  simp [skipJsonWs, h]

theorem skipJsonWs_cons_nows {c : Char} (h : jsonWs c = false) (X : List Char) :
    skipJsonWs (c :: X) = c :: X := by
  simp [skipJsonWs, h]

theorem parseValue_ws {c : Char} (h : jsonWs c = true) (f : Nat) (X : List Char) :
    parseValue (f + 1) (c :: X) = parseValue (f + 1) X := by
  simp only [parseValue]
  rw [skipJsonWs_cons_ws h]

theorem parseObjBody_ws {c : Char} (h : jsonWs c = true) (f : Nat) (b : Bool)
    (X : List Char) : parseObjBody (f + 1) b (c :: X) = parseObjBody (f + 1) b X := by
  simp only [parseObjBody]
  rw [skipJsonWs_cons_ws h]

theorem parseArrBody_ws {c : Char} (h : jsonWs c = true) (f : Nat) (b : Bool)
    (X : List Char) : parseArrBody (f + 1) b (c :: X) = parseArrBody (f + 1) b X := by
  simp only [parseArrBody]
  rw [skipJsonWs_cons_ws h]

theorem psb_quote (T : List Char) :
    parseStringBody (backslashChar :: quoteChar :: T) =
      (parseStringBody T).map (fun p => (quoteChar :: p.1, p.2)) := by
  rw [parseStringBody.eq_def]
  simp [(by decide : ¬ (backslashChar = quoteChar))]

theorem psb_backslash (T : List Char) :
    parseStringBody (backslashChar :: backslashChar :: T) =
      (parseStringBody T).map (fun p => (backslashChar :: p.1, p.2)) := by
  rw [parseStringBody.eq_def]
  simp [(by decide : ¬ (backslashChar = quoteChar))]

theorem psb_bs (T : List Char) :
    parseStringBody (backslashChar :: 'b' :: T) =
      (parseStringBody T).map (fun p => (Char.ofNat 8 :: p.1, p.2)) := by
  rw [parseStringBody.eq_def]
  simp [(by decide : ¬ (backslashChar = quoteChar)),
    (by decide : ¬ (('b' : Char) = quoteChar)),
    (by decide : ¬ (('b' : Char) = backslashChar)),
    (by decide : ¬ (('b' : Char) = '/'))]

theorem psb_tab (T : List Char) :
    parseStringBody (backslashChar :: 't' :: T) =
      (parseStringBody T).map (fun p => (Char.ofNat 9 :: p.1, p.2)) := by
  rw [parseStringBody.eq_def]
  simp [(by decide : ¬ (backslashChar = quoteChar)),
    (by decide : ¬ (('t' : Char) = quoteChar)),
    (by decide : ¬ (('t' : Char) = backslashChar)),
    (by decide : ¬ (('t' : Char) = '/')),
    (by decide : ¬ (('t' : Char) = 'b')),
    (by decide : ¬ (('t' : Char) = 'f')),
    (by decide : ¬ (('t' : Char) = 'n')),
    (by decide : ¬ (('t' : Char) = 'r'))]

theorem psb_nl (T : List Char) :
    parseStringBody (backslashChar :: 'n' :: T) =
      (parseStringBody T).map (fun p => (Char.ofNat 10 :: p.1, p.2)) := by
  rw [parseStringBody.eq_def]
  simp [(by decide : ¬ (backslashChar = quoteChar)),
    (by decide : ¬ (('n' : Char) = quoteChar)),
    (by decide : ¬ (('n' : Char) = backslashChar)),
    (by decide : ¬ (('n' : Char) = '/')),
    (by decide : ¬ (('n' : Char) = 'b')),
    (by decide : ¬ (('n' : Char) = 'f'))]

theorem psb_ff (T : List Char) :
    parseStringBody (backslashChar :: 'f' :: T) =
      (parseStringBody T).map (fun p => (Char.ofNat 12 :: p.1, p.2)) := by
  rw [parseStringBody.eq_def]
  simp [(by decide : ¬ (backslashChar = quoteChar)),
    (by decide : ¬ (('f' : Char) = quoteChar)),
    (by decide : ¬ (('f' : Char) = backslashChar)),
    (by decide : ¬ (('f' : Char) = '/')),
    (by decide : ¬ (('f' : Char) = 'b'))]

theorem psb_cr (T : List Char) :
    parseStringBody (backslashChar :: 'r' :: T) =
      (parseStringBody T).map (fun p => (Char.ofNat 13 :: p.1, p.2)) := by
  rw [parseStringBody.eq_def]
  simp [(by decide : ¬ (backslashChar = quoteChar)),
    (by decide : ¬ (('r' : Char) = quoteChar)),
    (by decide : ¬ (('r' : Char) = backslashChar)),
    (by decide : ¬ (('r' : Char) = '/')),
    (by decide : ¬ (('r' : Char) = 'b')),
    (by decide : ¬ (('r' : Char) = 'f')),
    (by decide : ¬ (('r' : Char) = 'n'))]

theorem psb_raw (c : Char) (h1 : ¬ c = quoteChar) (h2 : ¬ c = backslashChar)
    (h3 : ¬ c.toNat < 32) (T : List Char) :
    parseStringBody (c :: T) = (parseStringBody T).map (fun p => (c :: p.1, p.2)) := by
  rw [parseStringBody.eq_def]
  simp only
  rw [if_neg h1, if_neg h2, if_neg h3]

theorem psb_u (d1 d2 : Char) (a b : Nat) (hd1 : hexVal d1 = some a)
    (hd2 : hexVal d2 = some b) (T : List Char) :
    parseStringBody (backslashChar :: 'u' :: '0' :: '0' :: d1 :: d2 :: T) =
      (parseStringBody T).map (fun p => (Char.ofNat (a * 16 + b) :: p.1, p.2)) := by
  rw [parseStringBody.eq_def]
  simp [(by decide : ¬ (backslashChar = quoteChar)),
    (by decide : ¬ (('u' : Char) = quoteChar)),
    (by decide : ¬ (('u' : Char) = backslashChar)),
    (by decide : ¬ (('u' : Char) = '/')),
    (by decide : ¬ (('u' : Char) = 'b')),
    (by decide : ¬ (('u' : Char) = 'f')),
    (by decide : ¬ (('u' : Char) = 'n')),
    (by decide : ¬ (('u' : Char) = 'r')),
    (by decide : ¬ (('u' : Char) = 't')),
    (show hexVal '0' = some 0 from by decide), hd1, hd2]

/-- The reader decodes an escaped string-literal body back to the source
text. -/
theorem parseStringBody_escape : ∀ (s R : List Char),
    parseStringBody (escapeStr s ++ (quoteChar :: R)) = some (s, R) := by
  intro s
  induction s with
  | nil =>
      intro R
      show parseStringBody (quoteChar :: R) = _
      rw [parseStringBody.eq_def]
      simp
  | cons c s' ih =>
      intro R
      rw [escapeStr_cons, List.append_assoc, escapeChar]
      by_cases h1 : c = quoteChar
      · rw [if_pos h1]
        show parseStringBody (backslashChar :: quoteChar ::
          (escapeStr s' ++ (quoteChar :: R))) = _
        rw [psb_quote, ih R, h1]
        rfl
      rw [if_neg h1]
      by_cases h2 : c = backslashChar
      · rw [if_pos h2]
        show parseStringBody (backslashChar :: backslashChar ::
          (escapeStr s' ++ (quoteChar :: R))) = _
        rw [psb_backslash, ih R, h2]
        rfl
      rw [if_neg h2]
      by_cases h3 : c.toNat = 8
      · rw [if_pos h3]
        show parseStringBody (backslashChar :: 'b' ::
          (escapeStr s' ++ (quoteChar :: R))) = _
        rw [psb_bs, ih R, show Char.ofNat 8 = c from by rw [← h3, Char.ofNat_toNat]]
        rfl
      rw [if_neg h3]
      by_cases h4 : c.toNat = 9
      · rw [if_pos h4]
        show parseStringBody (backslashChar :: 't' ::
          (escapeStr s' ++ (quoteChar :: R))) = _
        rw [psb_tab, ih R, show Char.ofNat 9 = c from by rw [← h4, Char.ofNat_toNat]]
        rfl
      rw [if_neg h4]
      by_cases h5 : c.toNat = 10
      · rw [if_pos h5]
        show parseStringBody (backslashChar :: 'n' ::
          (escapeStr s' ++ (quoteChar :: R))) = _
        rw [psb_nl, ih R, show Char.ofNat 10 = c from by rw [← h5, Char.ofNat_toNat]]
        rfl
      rw [if_neg h5]
      by_cases h6 : c.toNat = 12
      · rw [if_pos h6]
        show parseStringBody (backslashChar :: 'f' ::
          (escapeStr s' ++ (quoteChar :: R))) = _
        rw [psb_ff, ih R, show Char.ofNat 12 = c from by rw [← h6, Char.ofNat_toNat]]
        rfl
      rw [if_neg h6]
      by_cases h7 : c.toNat = 13
      · rw [if_pos h7]
        show parseStringBody (backslashChar :: 'r' ::
          (escapeStr s' ++ (quoteChar :: R))) = _
        rw [psb_cr, ih R, show Char.ofNat 13 = c from by rw [← h7, Char.ofNat_toNat]]
        rfl
      rw [if_neg h7]
      by_cases h8 : c.toNat < 32
      · rw [if_pos h8]
        show parseStringBody (backslashChar :: 'u' :: '0' :: '0' ::
          toHexDigit (c.toNat / 16) :: toHexDigit (c.toNat % 16) ::
          (escapeStr s' ++ (quoteChar :: R))) = _
        rw [psb_u _ _ _ _ (toHexDigit_facts (c.toNat / 16) (by omega)).2.2
          (toHexDigit_facts (c.toNat % 16) (by omega)).2.2, ih R,
          show Char.ofNat (c.toNat / 16 * 16 + c.toNat % 16) = c from by
            rw [show c.toNat / 16 * 16 + c.toNat % 16 = c.toNat from by omega,
              Char.ofNat_toNat]]
        rfl
      · rw [if_neg h8]
        show parseStringBody (c :: (escapeStr s' ++ (quoteChar :: R))) = _
        rw [psb_raw c h1 h2 h8, ih R]
        rfl

/-- The reader accepts a dumped string literal as a JSON string value. -/
theorem parseValue_qstr (f : Nat) (s R : List Char) :
    parseValue (f + 1) (qstr s ++ R) = some (Json.str (String.mk s), R) := by
  rw [qstr_append]
  simp only [parseValue,
    skipJsonWs_cons_nows (show jsonWs quoteChar = false from by decide)]
  simp [parseStringBody_escape s R]

theorem string_mk_data (s : String) : String.mk s.data = s := by
  cases s
  rfl

/-- One `"key": value` member followed by a comma. -/
theorem parseObjBody_valMember_comma (f : Nat) (b : Bool) (key : List Char)
    (vrest : List Char) (j : Json) (rest4 rest5 : List Char)
    (ms : List (String × Json)) (R : List Char)
    (hval : parseValue (f + 1) vrest = some (j, rest4))
    (hrest4 : skipJsonWs rest4 = ',' :: rest5)
    (hrest5 : parseObjBody (f + 1) false rest5 = some (ms, R)) :
    parseObjBody (f + 2) b (qstr key ++ (':' :: ' ' :: vrest)) =
      some ((String.mk key, j) :: ms, R) := by
  rw [qstr_append, parseObjBody.eq_def]
  simp only [skipJsonWs_cons_nows (show jsonWs quoteChar = false from by decide),
    parseStringBody_escape key,
    skipJsonWs_cons_nows (show jsonWs ':' = false from by decide),
    parseValue_ws (show jsonWs ' ' = true from by decide),
    hval, hrest4, hrest5]
  simp [(by decide : ¬ (quoteChar = braceClose))]

/-- The last `"key": value` member, followed by the closing brace. -/
theorem parseObjBody_valMember_close (f : Nat) (b : Bool) (key : List Char)
    (vrest : List Char) (j : Json) (rest4 : List Char) (R : List Char)
    (hval : parseValue (f + 1) vrest = some (j, rest4))
    (hrest4 : skipJsonWs rest4 = braceClose :: R) :
    parseObjBody (f + 2) b (qstr key ++ (':' :: ' ' :: vrest)) =
      some ([(String.mk key, j)], R) := by
  rw [qstr_append, parseObjBody.eq_def]
  simp only [skipJsonWs_cons_nows (show jsonWs quoteChar = false from by decide),
    parseStringBody_escape key,
    skipJsonWs_cons_nows (show jsonWs ':' = false from by decide),
    parseValue_ws (show jsonWs ' ' = true from by decide),
    hval, hrest4]
  simp [(by decide : ¬ (quoteChar = braceClose)),
    (by decide : ¬ (braceClose = ','))]

/-- The reader accepts one dumped inner version object. -/
theorem parseValue_inner (f : Nat) (vi : SelectedVersion) (R : List Char) :
    parseValue (f + 5) (dumps (innerToJson vi) ++ R) = some (innerToJson vi, R) := by
  have h3 := parseObjBody_valMember_close f false "metadata".data
    (qstr vi.metadata.data ++ (braceClose :: R)) (Json.str (String.mk vi.metadata.data))
    (braceClose :: R) R (parseValue_qstr f _ _)
    (skipJsonWs_cons_nows (by decide) _)
  have h2 := parseObjBody_valMember_comma (f + 1) false "sha256".data
    (qstr vi.sha256.data ++ (',' :: ' ' :: (qstr "metadata".data ++
      (':' :: ' ' :: (qstr vi.metadata.data ++ (braceClose :: R))))))
    (Json.str (String.mk vi.sha256.data))
    (',' :: ' ' :: (qstr "metadata".data ++
      (':' :: ' ' :: (qstr vi.metadata.data ++ (braceClose :: R)))))
    (' ' :: (qstr "metadata".data ++
      (':' :: ' ' :: (qstr vi.metadata.data ++ (braceClose :: R)))))
    _ R (parseValue_qstr (f + 1) _ _)
    (skipJsonWs_cons_nows (by decide) _)
    (by rw [parseObjBody_ws (by decide)]; exact h3)
  have h1 := parseObjBody_valMember_comma (f + 2) true "version".data
    (qstr vi.version.data ++ (',' :: ' ' :: (qstr "sha256".data ++
      (':' :: ' ' :: (qstr vi.sha256.data ++ (',' :: ' ' :: (qstr "metadata".data ++
        (':' :: ' ' :: (qstr vi.metadata.data ++ (braceClose :: R))))))))))
    (Json.str (String.mk vi.version.data))
    (',' :: ' ' :: (qstr "sha256".data ++
      (':' :: ' ' :: (qstr vi.sha256.data ++ (',' :: ' ' :: (qstr "metadata".data ++
        (':' :: ' ' :: (qstr vi.metadata.data ++ (braceClose :: R)))))))))
    (' ' :: (qstr "sha256".data ++
      (':' :: ' ' :: (qstr vi.sha256.data ++ (',' :: ' ' :: (qstr "metadata".data ++
        (':' :: ' ' :: (qstr vi.metadata.data ++ (braceClose :: R)))))))))
    _ R (parseValue_qstr (f + 2) _ _)
    (skipJsonWs_cons_nows (by decide) _)
    (by rw [parseObjBody_ws (by decide)]; exact h2)
  rw [inner_shape, List.cons_append, parseValue.eq_def]
  simp only [skipJsonWs_cons_nows (show jsonWs braceOpen = false from by decide),
    List.append_assoc, List.cons_append, List.nil_append, if_true]
  have h1' : parseObjBody (f + 4) true
      (qstr ['v', 'e', 'r', 's', 'i', 'o', 'n'] ++ ':' :: ' ' :: (qstr vi.version.data ++
        ',' :: ' ' :: (qstr ['s', 'h', 'a', '2', '5', '6'] ++ ':' :: ' ' ::
        (qstr vi.sha256.data ++ ',' :: ' ' :: (qstr ['m', 'e', 't', 'a', 'd', 'a', 't', 'a'] ++
        ':' :: ' ' :: (qstr vi.metadata.data ++ braceClose :: R)))))) =
      some ([(String.mk "version".data, Json.str (String.mk vi.version.data)),
        (String.mk "sha256".data, Json.str (String.mk vi.sha256.data)),
        (String.mk "metadata".data, Json.str (String.mk vi.metadata.data))], R) := h1
  rw [h1']
  rfl

theorem entryOpen_regroup (k : String) (vi : SelectedVersion) (X : List Char) :
    svmEntryOpen k vi ++ (braceClose :: X) =
      qstr k.data ++ (':' :: ' ' :: (dumps (innerToJson vi) ++ X)) := by
  rw [svmEntryOpen, inner_dumps, colsp]
  simp [List.append_assoc]

theorem svmEntry_regroup (k : String) (vi : SelectedVersion) (X : List Char) :
    svmEntry k vi ++ X = qstr k.data ++ (':' :: ' ' :: (dumps (innerToJson vi) ++ X)) := by
  rw [svmEntry, colsp]
  simp [List.append_assoc]

/-- The reader accepts the rewritten version-entry chain as the members of
the version-map object. -/
theorem prettyChain_parse : ∀ (rest : List (String × SelectedVersion))
    (kv : String × SelectedVersion) (f : Nat) (b : Bool) (R : List Char),
    parseObjBody (f + 2 * rest.length + 7) b
      (prettyChain kv rest ++
        (braceClose :: newlineChar :: ' ' :: ' ' :: braceClose :: R)) =
      some ((kv :: rest).map (fun p => (p.1, innerToJson p.2)), R) := by
  intro rest
  induction rest with
  | nil =>
      intro kv f b R
      rcases kv with ⟨k, vi⟩
      rw [show f + 2 * ([] : List (String × SelectedVersion)).length + 7 = (f + 5) + 2
        from by simp]
      rw [show prettyChain (k, vi) [] = svmEntryOpen k vi from rfl, entryOpen_regroup]
      rw [parseObjBody_valMember_close (f + 5) b k.data
        (dumps (innerToJson vi) ++ (newlineChar :: ' ' :: ' ' :: braceClose :: R))
        (innerToJson vi) (newlineChar :: ' ' :: ' ' :: braceClose :: R) R
        (parseValue_inner (f + 1) vi _)
        (by rw [skipJsonWs_cons_ws (by decide), skipJsonWs_cons_ws (by decide),
          skipJsonWs_cons_ws (by decide), skipJsonWs_cons_nows (by decide)])]
      rw [string_mk_data]
      rfl
  | cons e rest' ih =>
      intro kv f b R
      rcases kv with ⟨k, vi⟩
      rcases e with ⟨k2, vi2⟩
      rw [show f + 2 * (((k2, vi2) : String × SelectedVersion) :: rest').length + 7 =
        (f + 2 * rest'.length + 7) + 2 from by simp [List.length_cons]; omega]
      rw [show prettyChain (k, vi) ((k2, vi2) :: rest') =
        svmEntry k vi ++ ((',' :: ind4) ++ prettyChain (k2, vi2) rest') from rfl]
      rw [List.append_assoc, svmEntry_regroup]
      rw [parseObjBody_valMember_comma (f + 2 * rest'.length + 7) b k.data
        (dumps (innerToJson vi) ++ (((',' :: ind4) ++ prettyChain (k2, vi2) rest') ++
          (braceClose :: newlineChar :: ' ' :: ' ' :: braceClose :: R)))
        (innerToJson vi)
        (((',' :: ind4) ++ prettyChain (k2, vi2) rest') ++
          (braceClose :: newlineChar :: ' ' :: ' ' :: braceClose :: R))
        (ind4 ++ (prettyChain (k2, vi2) rest' ++
          (braceClose :: newlineChar :: ' ' :: ' ' :: braceClose :: R)))
        (((k2, vi2) :: rest').map (fun p => (p.1, innerToJson p.2))) R
        (parseValue_inner (f + 2 * rest'.length + 3) vi _)
        (by
          simp only [List.cons_append, List.append_assoc]
          rw [skipJsonWs_cons_nows (by decide)])
        (by
          rw [ind4_eq]
          simp only [List.cons_append]
          rw [parseObjBody_ws (by decide), parseObjBody_ws (by decide),
            parseObjBody_ws (by decide), parseObjBody_ws (by decide),
            parseObjBody_ws (by decide)]
          rw [show (f + 2 * rest'.length + 7) + 1 = (f + 1) + 2 * rest'.length + 7
            from by omega]
          exact ih (k2, vi2) (f + 1) false R)]
      rw [string_mk_data]
      rfl

/-- The reader accepts one pretty-printed record and returns its JSON
value. -/
theorem recordPretty_parse (r : ProcessedExtension) (k : String) (vi : SelectedVersion)
    (rest : List (String × SelectedVersion)) (hsvm : r.shell_version_map = (k, vi) :: rest)
    (f : Nat) (R : List Char) :
    parseValue (f + 2 * rest.length + 21) (recordPretty r ++ R) =
      some (recordToJson r, R) := by
  have hV : parseValue ((f + 2 * rest.length + 13) + 1)
      (braceOpen :: (ind4 ++ (prettyChain (k, vi) rest ++
        (braceClose :: newlineChar :: ' ' :: ' ' :: braceClose :: (braceClose :: R))))) =
      some (Json.obj (((k, vi) :: rest).map (fun p => (p.1, innerToJson p.2))),
        braceClose :: R) := by
    rw [parseValue.eq_def]
    simp only [skipJsonWs_cons_nows (show jsonWs braceOpen = false from by decide), if_true]
    rw [ind4_eq]
    simp only [List.cons_append, List.nil_append]
    rw [show f + 2 * rest.length + 13 = (f + 2 * rest.length + 12) + 1 from by omega]
    rw [parseObjBody_ws (by decide), parseObjBody_ws (by decide),
      parseObjBody_ws (by decide), parseObjBody_ws (by decide),
      parseObjBody_ws (by decide)]
    rw [show (f + 2 * rest.length + 12) + 1 = (f + 6) + 2 * rest.length + 7 from by omega]
    rw [prettyChain_parse rest (k, vi) (f + 6) true (braceClose :: R)]
    rfl
  have h6 := parseObjBody_valMember_close (f + 2 * rest.length + 13) false
    "shell_version_map".data
    (braceOpen :: (ind4 ++ (prettyChain (k, vi) rest ++
      (braceClose :: newlineChar :: ' ' :: ' ' :: braceClose :: (braceClose :: R)))))
    (Json.obj (((k, vi) :: rest).map (fun p => (p.1, innerToJson p.2))))
    (braceClose :: R) R hV (skipJsonWs_cons_nows (by decide) _)
  have h5 := parseObjBody_valMember_comma (f + 2 * rest.length + 14) false "link".data
    (qstr r.link.data ++ (',' :: ' ' :: (qstr "shell_version_map".data ++ (':' :: ' ' ::
      (braceOpen :: (ind4 ++ (prettyChain (k, vi) rest ++
        (braceClose :: newlineChar :: ' ' :: ' ' :: braceClose :: (braceClose :: R)))))))))
    (Json.str (String.mk r.link.data))
    (',' :: ' ' :: (qstr "shell_version_map".data ++ (':' :: ' ' ::
      (braceOpen :: (ind4 ++ (prettyChain (k, vi) rest ++
        (braceClose :: newlineChar :: ' ' :: ' ' :: braceClose :: (braceClose :: R))))))))
    (' ' :: (qstr "shell_version_map".data ++ (':' :: ' ' ::
      (braceOpen :: (ind4 ++ (prettyChain (k, vi) rest ++
        (braceClose :: newlineChar :: ' ' :: ' ' :: braceClose :: (braceClose :: R))))))))
    [(String.mk "shell_version_map".data,
      Json.obj (((k, vi) :: rest).map (fun p => (p.1, innerToJson p.2))))] R
    (parseValue_qstr (f + 2 * rest.length + 14) _ _)
    (skipJsonWs_cons_nows (by decide) _)
    (by
      rw [parseObjBody_ws (by decide)]
      exact h6)
  have h4 := parseObjBody_valMember_comma (f + 2 * rest.length + 15) false
    "description".data
    (qstr r.description.data ++ (',' :: ' ' :: (qstr "link".data ++ (':' :: ' ' ::
      (qstr r.link.data ++ (',' :: ' ' :: (qstr "shell_version_map".data ++ (':' :: ' ' ::
      (braceOpen :: (ind4 ++ (prettyChain (k, vi) rest ++
        (braceClose :: newlineChar :: ' ' :: ' ' :: braceClose :: (braceClose :: R)))))))))))))
    (Json.str (String.mk r.description.data))
    (',' :: ' ' :: (qstr "link".data ++ (':' :: ' ' ::
      (qstr r.link.data ++ (',' :: ' ' :: (qstr "shell_version_map".data ++ (':' :: ' ' ::
      (braceOpen :: (ind4 ++ (prettyChain (k, vi) rest ++
        (braceClose :: newlineChar :: ' ' :: ' ' :: braceClose :: (braceClose :: R))))))))))))
    (' ' :: (qstr "link".data ++ (':' :: ' ' ::
      (qstr r.link.data ++ (',' :: ' ' :: (qstr "shell_version_map".data ++ (':' :: ' ' ::
      (braceOpen :: (ind4 ++ (prettyChain (k, vi) rest ++
        (braceClose :: newlineChar :: ' ' :: ' ' :: braceClose :: (braceClose :: R))))))))))))
    ((String.mk "link".data, Json.str (String.mk r.link.data)) ::
      [(String.mk "shell_version_map".data,
        Json.obj (((k, vi) :: rest).map (fun p => (p.1, innerToJson p.2))))]) R
    (parseValue_qstr (f + 2 * rest.length + 15) _ _)
    (skipJsonWs_cons_nows (by decide) _)
    (by
      rw [parseObjBody_ws (by decide)]
      exact h5)
  have h3 := parseObjBody_valMember_comma (f + 2 * rest.length + 16) false "pname".data
    (qstr r.pname.data ++ (',' :: ' ' :: (qstr "description".data ++ (':' :: ' ' ::
      (qstr r.description.data ++ (',' :: ' ' :: (qstr "link".data ++ (':' :: ' ' ::
      (qstr r.link.data ++ (',' :: ' ' :: (qstr "shell_version_map".data ++ (':' :: ' ' ::
      (braceOpen :: (ind4 ++ (prettyChain (k, vi) rest ++
        (braceClose :: newlineChar :: ' ' :: ' ' :: braceClose ::
          (braceClose :: R)))))))))))))))))
    (Json.str (String.mk r.pname.data))
    (',' :: ' ' :: (qstr "description".data ++ (':' :: ' ' ::
      (qstr r.description.data ++ (',' :: ' ' :: (qstr "link".data ++ (':' :: ' ' ::
      (qstr r.link.data ++ (',' :: ' ' :: (qstr "shell_version_map".data ++ (':' :: ' ' ::
      (braceOpen :: (ind4 ++ (prettyChain (k, vi) rest ++
        (braceClose :: newlineChar :: ' ' :: ' ' :: braceClose ::
          (braceClose :: R))))))))))))))))
    (' ' :: (qstr "description".data ++ (':' :: ' ' ::
      (qstr r.description.data ++ (',' :: ' ' :: (qstr "link".data ++ (':' :: ' ' ::
      (qstr r.link.data ++ (',' :: ' ' :: (qstr "shell_version_map".data ++ (':' :: ' ' ::
      (braceOpen :: (ind4 ++ (prettyChain (k, vi) rest ++
        (braceClose :: newlineChar :: ' ' :: ' ' :: braceClose ::
          (braceClose :: R))))))))))))))))
    ((String.mk "description".data, Json.str (String.mk r.description.data)) ::
      (String.mk "link".data, Json.str (String.mk r.link.data)) ::
      [(String.mk "shell_version_map".data,
        Json.obj (((k, vi) :: rest).map (fun p => (p.1, innerToJson p.2))))]) R
    (parseValue_qstr (f + 2 * rest.length + 16) _ _)
    (skipJsonWs_cons_nows (by decide) _)
    (by
      rw [parseObjBody_ws (by decide)]
      exact h4)
  have h2 := parseObjBody_valMember_comma (f + 2 * rest.length + 17) false "name".data
    (qstr r.name.data ++ (',' :: ' ' :: (qstr "pname".data ++ (':' :: ' ' ::
      (qstr r.pname.data ++ (',' :: ' ' :: (qstr "description".data ++ (':' :: ' ' ::
      (qstr r.description.data ++ (',' :: ' ' :: (qstr "link".data ++ (':' :: ' ' ::
      (qstr r.link.data ++ (',' :: ' ' :: (qstr "shell_version_map".data ++ (':' :: ' ' ::
      (braceOpen :: (ind4 ++ (prettyChain (k, vi) rest ++
        (braceClose :: newlineChar :: ' ' :: ' ' :: braceClose ::
          (braceClose :: R)))))))))))))))))))))
    (Json.str (String.mk r.name.data))
    (',' :: ' ' :: (qstr "pname".data ++ (':' :: ' ' ::
      (qstr r.pname.data ++ (',' :: ' ' :: (qstr "description".data ++ (':' :: ' ' ::
      (qstr r.description.data ++ (',' :: ' ' :: (qstr "link".data ++ (':' :: ' ' ::
      (qstr r.link.data ++ (',' :: ' ' :: (qstr "shell_version_map".data ++ (':' :: ' ' ::
      (braceOpen :: (ind4 ++ (prettyChain (k, vi) rest ++
        (braceClose :: newlineChar :: ' ' :: ' ' :: braceClose ::
          (braceClose :: R))))))))))))))))))))
    (' ' :: (qstr "pname".data ++ (':' :: ' ' ::
      (qstr r.pname.data ++ (',' :: ' ' :: (qstr "description".data ++ (':' :: ' ' ::
      (qstr r.description.data ++ (',' :: ' ' :: (qstr "link".data ++ (':' :: ' ' ::
      (qstr r.link.data ++ (',' :: ' ' :: (qstr "shell_version_map".data ++ (':' :: ' ' ::
      (braceOpen :: (ind4 ++ (prettyChain (k, vi) rest ++
        (braceClose :: newlineChar :: ' ' :: ' ' :: braceClose ::
          (braceClose :: R))))))))))))))))))))
    ((String.mk "pname".data, Json.str (String.mk r.pname.data)) ::
      (String.mk "description".data, Json.str (String.mk r.description.data)) ::
      (String.mk "link".data, Json.str (String.mk r.link.data)) ::
      [(String.mk "shell_version_map".data,
        Json.obj (((k, vi) :: rest).map (fun p => (p.1, innerToJson p.2))))]) R
    (parseValue_qstr (f + 2 * rest.length + 17) _ _)
    (skipJsonWs_cons_nows (by decide) _)
    (by
      rw [parseObjBody_ws (by decide)]
      exact h3)
  have h1 := parseObjBody_valMember_comma (f + 2 * rest.length + 18) true "uuid".data
    (qstr r.uuid.data ++ (',' :: ' ' :: (qstr "name".data ++ (':' :: ' ' ::
      (qstr r.name.data ++ (',' :: ' ' :: (qstr "pname".data ++ (':' :: ' ' ::
      (qstr r.pname.data ++ (',' :: ' ' :: (qstr "description".data ++ (':' :: ' ' ::
      (qstr r.description.data ++ (',' :: ' ' :: (qstr "link".data ++ (':' :: ' ' ::
      (qstr r.link.data ++ (',' :: ' ' :: (qstr "shell_version_map".data ++ (':' :: ' ' ::
      (braceOpen :: (ind4 ++ (prettyChain (k, vi) rest ++
        (braceClose :: newlineChar :: ' ' :: ' ' :: braceClose ::
          (braceClose :: R)))))))))))))))))))))))))
    (Json.str (String.mk r.uuid.data))
    (',' :: ' ' :: (qstr "name".data ++ (':' :: ' ' ::
      (qstr r.name.data ++ (',' :: ' ' :: (qstr "pname".data ++ (':' :: ' ' ::
      (qstr r.pname.data ++ (',' :: ' ' :: (qstr "description".data ++ (':' :: ' ' ::
      (qstr r.description.data ++ (',' :: ' ' :: (qstr "link".data ++ (':' :: ' ' ::
      (qstr r.link.data ++ (',' :: ' ' :: (qstr "shell_version_map".data ++ (':' :: ' ' ::
      (braceOpen :: (ind4 ++ (prettyChain (k, vi) rest ++
        (braceClose :: newlineChar :: ' ' :: ' ' :: braceClose ::
          (braceClose :: R))))))))))))))))))))))))
    (' ' :: (qstr "name".data ++ (':' :: ' ' ::
      (qstr r.name.data ++ (',' :: ' ' :: (qstr "pname".data ++ (':' :: ' ' ::
      (qstr r.pname.data ++ (',' :: ' ' :: (qstr "description".data ++ (':' :: ' ' ::
      (qstr r.description.data ++ (',' :: ' ' :: (qstr "link".data ++ (':' :: ' ' ::
      (qstr r.link.data ++ (',' :: ' ' :: (qstr "shell_version_map".data ++ (':' :: ' ' ::
      (braceOpen :: (ind4 ++ (prettyChain (k, vi) rest ++
        (braceClose :: newlineChar :: ' ' :: ' ' :: braceClose ::
          (braceClose :: R))))))))))))))))))))))))
    ((String.mk "name".data, Json.str (String.mk r.name.data)) ::
      (String.mk "pname".data, Json.str (String.mk r.pname.data)) ::
      (String.mk "description".data, Json.str (String.mk r.description.data)) ::
      (String.mk "link".data, Json.str (String.mk r.link.data)) ::
      [(String.mk "shell_version_map".data,
        Json.obj (((k, vi) :: rest).map (fun p => (p.1, innerToJson p.2))))]) R
    (parseValue_qstr (f + 2 * rest.length + 18) _ _)
    (skipJsonWs_cons_nows (by decide) _)
    (by
      rw [parseObjBody_ws (by decide)]
      exact h2)
  have hshape : recordPretty r ++ R = braceOpen :: (qstr "uuid".data ++ (':' :: ' ' ::
      (qstr r.uuid.data ++ (',' :: ' ' :: (qstr "name".data ++ (':' :: ' ' ::
      (qstr r.name.data ++ (',' :: ' ' :: (qstr "pname".data ++ (':' :: ' ' ::
      (qstr r.pname.data ++ (',' :: ' ' :: (qstr "description".data ++ (':' :: ' ' ::
      (qstr r.description.data ++ (',' :: ' ' :: (qstr "link".data ++ (':' :: ' ' ::
      (qstr r.link.data ++ (',' :: ' ' :: (qstr "shell_version_map".data ++ (':' :: ' ' ::
      (braceOpen :: (ind4 ++ (prettyChain (k, vi) rest ++
        (braceClose :: newlineChar :: ' ' :: ' ' :: braceClose ::
          (braceClose :: R))))))))))))))))))))))))))) := by
    simp only [recordPretty, hsvm, fixedPart, tripleBraceNew, colsp, csp]
    simp [List.append_assoc]
  rw [hshape, parseValue.eq_def]
  simp only [skipJsonWs_cons_nows (show jsonWs braceOpen = false from by decide), if_true]
  have h1' : parseObjBody (f + 2 * rest.length + 20) true
      (qstr ['u', 'u', 'i', 'd'] ++ ':' :: ' ' ::
      (qstr r.uuid.data ++ ',' :: ' ' :: (qstr ['n', 'a', 'm', 'e'] ++ ':' :: ' ' ::
      (qstr r.name.data ++ ',' :: ' ' :: (qstr ['p', 'n', 'a', 'm', 'e'] ++ ':' :: ' ' ::
      (qstr r.pname.data ++ ',' :: ' ' ::
      (qstr ['d', 'e', 's', 'c', 'r', 'i', 'p', 't', 'i', 'o', 'n'] ++ ':' :: ' ' ::
      (qstr r.description.data ++ ',' :: ' ' :: (qstr ['l', 'i', 'n', 'k'] ++ ':' :: ' ' ::
      (qstr r.link.data ++ ',' :: ' ' ::
      (qstr ['s', 'h', 'e', 'l', 'l', '_', 'v', 'e', 'r', 's', 'i', 'o', 'n', '_', 'm', 'a',
        'p'] ++ ':' :: ' ' ::
      braceOpen :: (ind4 ++ (prettyChain (k, vi) rest ++
        braceClose :: newlineChar :: ' ' :: ' ' :: braceClose ::
          braceClose :: R))))))))))))) =
      some ((String.mk "uuid".data, Json.str (String.mk r.uuid.data)) ::
        (String.mk "name".data, Json.str (String.mk r.name.data)) ::
        (String.mk "pname".data, Json.str (String.mk r.pname.data)) ::
        (String.mk "description".data, Json.str (String.mk r.description.data)) ::
        (String.mk "link".data, Json.str (String.mk r.link.data)) ::
        [(String.mk "shell_version_map".data,
          Json.obj (((k, vi) :: rest).map (fun p => (p.1, innerToJson p.2))))], R) := h1
  rw [h1']
  rw [show recordToJson r = Json.obj [("uuid", Json.str r.uuid), ("name", Json.str r.name),
    ("pname", Json.str r.pname), ("description", Json.str r.description),
    ("link", Json.str r.link),
    ("shell_version_map",
      Json.obj (((k, vi) :: rest).map (fun kv => (kv.1, innerToJson kv.2))))]
    from by rw [recordToJson, hsvm]]
  rfl

theorem qstr_len (s : List Char) : 2 ≤ (qstr s).length := by
  simp [qstr]

theorem prettyChain_len : ∀ (rest : List (String × SelectedVersion))
    (kv : String × SelectedVersion), 2 * rest.length + 5 ≤ (prettyChain kv rest).length := by
  intro rest
  induction rest with
  | nil =>
      intro kv
      simp [prettyChain, svmEntryOpen, colsp, qstr]
      omega
  | cons e t ih =>
      intro kv
      have h := ih e
      simp only [prettyChain, List.length_append, List.length_cons, ind4, List.length_nil]
      omega

theorem recordPretty_len (r : ProcessedExtension) (h : r.shell_version_map ≠ []) :
    recFuel r ≤ (recordPretty r).length := by
  obtain ⟨kv, srest, hsvm⟩ := List.exists_cons_of_ne_nil h
  have h1 := prettyChain_len srest kv
  have h2 : 6 ≤ (fixedPart r).length := by
    rw [fixedPart]
    simp [qstr]
    omega
  simp only [recFuel, recordPretty, hsvm, List.length_cons, List.length_append,
    tripleBraceNew, ind4, List.length_nil]
  omega

theorem prettyTail_len : ∀ (rs : List ProcessedExtension),
    (∀ x ∈ rs, x.shell_version_map ≠ []) →
    arrFuel rs ≤ (prettyTailRecords rs).length := by
  intro rs
  induction rs with
  | nil =>
      intro _
      simp [arrFuel, prettyTailRecords]
  | cons x t ih =>
      intro h
      have hx := recordPretty_len x (h x (List.mem_cons_self x t))
      have ht := ih (fun y hy => h y (List.mem_cons_of_mem x hy))
      simp only [arrFuel, prettyTailRecords, List.length_cons, List.length_append]
      omega

/-- One array element followed by a comma and further elements. -/
theorem parseArrBody_elem_comma (f : Nat) (b : Bool) (T rest2 rest3 : List Char)
    (v : Json) (vs : List Json) (R : List Char)
    (hval : parseValue (f + 1) (braceOpen :: T) = some (v, rest2))
    (hrest2 : skipJsonWs rest2 = ',' :: rest3)
    (hrest3 : parseArrBody (f + 1) false rest3 = some (vs, R)) :
    parseArrBody (f + 2) b (braceOpen :: T) = some (v :: vs, R) := by
  rw [parseArrBody.eq_def]
  simp only [skipJsonWs_cons_nows (show jsonWs braceOpen = false from by decide),
    hval, hrest2, hrest3]
  simp [(by decide : ¬ (braceOpen = ']'))]

/-- The last array element, followed by the closing bracket. -/
theorem parseArrBody_elem_close (f : Nat) (b : Bool) (T rest2 : List Char)
    (v : Json) (R : List Char)
    (hval : parseValue (f + 1) (braceOpen :: T) = some (v, rest2))
    (hrest2 : skipJsonWs rest2 = ']' :: R) :
    parseArrBody (f + 2) b (braceOpen :: T) = some ([v], R) := by
  rw [parseArrBody.eq_def]
  simp only [skipJsonWs_cons_nows (show jsonWs braceOpen = false from by decide),
    hval, hrest2]
  simp [(by decide : ¬ (braceOpen = ']')), (by decide : ¬ (']' = ','))]

/-- The reader accepts the whole chain of pretty-printed records up to the
closing bracket of the array. -/
theorem prettyRecords_parse : ∀ (rest : List ProcessedExtension)
    (r : ProcessedExtension) (f : Nat) (b : Bool), r.shell_version_map ≠ [] →
    (∀ x ∈ rest, x.shell_version_map ≠ []) →
    parseArrBody (f + arrFuel (r :: rest)) b
      (' ' :: (recordPretty r ++ (newlineChar :: (prettyTailRecords rest ++
        [']', newlineChar])))) =
      some ((r :: rest).map recordToJson, [newlineChar]) := by
  intro rest
  induction rest with
  | nil =>
      intro r f b hr _
      obtain ⟨⟨k, vi⟩, srest, hsvm⟩ := List.exists_cons_of_ne_nil hr
      have hsh : recordPretty r ++ (newlineChar :: (prettyTailRecords [] ++
          [']', newlineChar])) = braceOpen :: ((fixedPart r ++ ((braceOpen :: ind4) ++
          (prettyChain (k, vi) srest ++ tripleBraceNew))) ++
          (newlineChar :: [']', newlineChar])) := by
        simp [recordPretty, hsvm, prettyTailRecords, List.append_assoc]
      have hval : parseValue ((f + 2 * srest.length + 22) + 1)
          (braceOpen :: ((fixedPart r ++ ((braceOpen :: ind4) ++
            (prettyChain (k, vi) srest ++ tripleBraceNew))) ++
            (newlineChar :: [']', newlineChar]))) =
          some (recordToJson r, newlineChar :: [']', newlineChar]) := by
        rw [show (f + 2 * srest.length + 22) + 1 = (f + 2) + 2 * srest.length + 21
          from by omega, ← hsh]
        exact recordPretty_parse r k vi srest hsvm (f + 2)
          (newlineChar :: (prettyTailRecords [] ++ [']', newlineChar]))
      have hrest2 : skipJsonWs (newlineChar :: [']', newlineChar]) =
          ']' :: [newlineChar] := by decide
      rw [show f + arrFuel [r] = ((f + 2 * srest.length + 22) + 1) + 1 from by
        simp only [arrFuel, recFuel, hsvm, List.length_cons]
        omega]
      rw [parseArrBody_ws (by decide)]
      rw [hsh]
      rw [show ((f + 2 * srest.length + 22) + 1) + 1 = (f + 2 * srest.length + 22) + 2
        from by omega]
      rw [parseArrBody_elem_close _ b _ _ _ _ hval hrest2]
      rfl
  | cons r2 t ih =>
      intro r f b hr hall
      obtain ⟨⟨k, vi⟩, srest, hsvm⟩ := List.exists_cons_of_ne_nil hr
      have hsh : recordPretty r ++ (newlineChar :: (prettyTailRecords (r2 :: t) ++
          [']', newlineChar])) = braceOpen :: ((fixedPart r ++ ((braceOpen :: ind4) ++
          (prettyChain (k, vi) srest ++ tripleBraceNew))) ++
          (newlineChar :: (prettyTailRecords (r2 :: t) ++ [']', newlineChar]))) := by
        simp [recordPretty, hsvm, List.append_assoc]
      have hval : parseValue ((f + arrFuel (r2 :: t) + 2 * srest.length + 22) + 1)
          (braceOpen :: ((fixedPart r ++ ((braceOpen :: ind4) ++
            (prettyChain (k, vi) srest ++ tripleBraceNew))) ++
            (newlineChar :: (prettyTailRecords (r2 :: t) ++ [']', newlineChar])))) =
          some (recordToJson r,
            newlineChar :: (prettyTailRecords (r2 :: t) ++ [']', newlineChar])) := by
        rw [show (f + arrFuel (r2 :: t) + 2 * srest.length + 22) + 1 =
          (f + arrFuel (r2 :: t) + 2) + 2 * srest.length + 21 from by omega, ← hsh]
        exact recordPretty_parse r k vi srest hsvm (f + arrFuel (r2 :: t) + 2)
          (newlineChar :: (prettyTailRecords (r2 :: t) ++ [']', newlineChar]))
      have hrest2 : skipJsonWs (newlineChar :: (prettyTailRecords (r2 :: t) ++
          [']', newlineChar])) = ',' :: (' ' :: (recordPretty r2 ++
          (newlineChar :: (prettyTailRecords t ++ [']', newlineChar])))) := by
        simp only [prettyTailRecords, List.cons_append, List.append_assoc,
          skipJsonWs_cons_ws (show jsonWs newlineChar = true from by decide),
          skipJsonWs_cons_nows (show jsonWs ',' = false from by decide)]
      have hrest3 : parseArrBody ((f + arrFuel (r2 :: t) + 2 * srest.length + 22) + 1)
          false (' ' :: (recordPretty r2 ++ (newlineChar :: (prettyTailRecords t ++
            [']', newlineChar])))) = some ((r2 :: t).map recordToJson, [newlineChar]) := by
        rw [show (f + arrFuel (r2 :: t) + 2 * srest.length + 22) + 1 =
          (f + 2 * srest.length + 23) + arrFuel (r2 :: t) from by omega]
        exact ih r2 (f + 2 * srest.length + 23) false
          (hall r2 (List.mem_cons_self r2 t))
          (fun y hy => hall y (List.mem_cons_of_mem r2 hy))
      rw [show f + arrFuel (r :: r2 :: t) =
        ((f + arrFuel (r2 :: t) + 2 * srest.length + 22) + 1) + 1 from by
        simp only [arrFuel, recFuel, hsvm, List.length_cons]
        omega]
      rw [parseArrBody_ws (by decide)]
      rw [hsh]
      rw [show ((f + arrFuel (r2 :: t) + 2 * srest.length + 22) + 1) + 1 =
        (f + arrFuel (r2 :: t) + 2 * srest.length + 22) + 2 from by omega]
      rw [parseArrBody_elem_comma _ b _ _ _ _ _ _ hval hrest2 hrest3]
      rfl

/-- From the second record on, the writer emits the pretty-printed records,
each preceded by a comma separator. -/
theorem writeLoop_tail : ∀ (rs : List ProcessedExtension),
    (∀ x ∈ rs, goodRecord x) → ∀ i : Nat,
    writeLoop (i + 1) rs = prettyTailRecords rs := by
  intro rs
  induction rs with
  | nil =>
      intro _ i
      rfl
  | cons x t ih =>
      intro h i
      rw [writeLoop.eq_def]
      simp only [prettyTailRecords]
      rw [injectBreaks_pretty x (h x (List.mem_cons_self x t))]
      rw [ih (fun y hy => h y (List.mem_cons_of_mem x hy)) (i + 1)]
      have hne : ¬ (i + 1 = 0) := by omega
      rw [if_neg hne]
      rfl

/-- The full written file, on good records, is the pretty-printed form. -/
theorem writeExtensionsJson_pretty (r : ProcessedExtension)
    (rest : List ProcessedExtension) (h : ∀ x ∈ r :: rest, goodRecord x) :
    writeExtensionsJson (r :: rest) =
      '[' :: ' ' :: (recordPretty r ++ (newlineChar :: (prettyTailRecords rest ++
        [']', newlineChar]))) := by
  rw [writeExtensionsJson, writeLoop.eq_def]
  simp only
  rw [if_true]
  rw [injectBreaks_pretty r (h r (List.mem_cons_self r rest))]
  rw [writeLoop_tail rest (fun y hy => h y (List.mem_cons_of_mem r hy)) 0]
  simp [List.append_assoc]

/-- C1: for every nonempty list of transformed records whose string fields
contain no triple of closing braces and whose version maps are nonempty with
distinct supported keys, the written `extensions.json` is valid JSON and
deserializes to exactly the input records. -/
theorem extensions_json_roundtrip (rs : List ProcessedExtension) (hne : rs ≠ [])
    (hgood : ∀ r ∈ rs, goodRecord r) :
    jsonParse (writeExtensionsJson rs) = some (Json.arr (rs.map recordToJson)) := by
  obtain ⟨r, rest, rfl⟩ := List.exists_cons_of_ne_nil hne
  have hsvmne : ∀ x ∈ r :: rest, x.shell_version_map ≠ [] :=
    fun x hx => (hgood x hx).2.1
  have hlen1 := recordPretty_len r (hsvmne r (List.mem_cons_self r rest))
  have hlen2 := prettyTail_len rest (fun y hy => hsvmne y (List.mem_cons_of_mem r hy))
  rw [writeExtensionsJson_pretty r rest hgood]
  simp only [jsonParse, List.length_cons]
  rw [parseValue.eq_def]
  simp only [skipJsonWs_cons_nows (show jsonWs '[' = false from by decide)]
  rw [show (recordPretty r ++ (newlineChar :: (prettyTailRecords rest ++
      [']', newlineChar]))).length + 1 + 1 =
    ((recordPretty r ++ (newlineChar :: (prettyTailRecords rest ++
      [']', newlineChar]))).length + 1 + 1 - arrFuel (r :: rest)) + arrFuel (r :: rest)
    from by
      simp only [arrFuel, List.length_append, List.length_cons]
      omega]
  rw [prettyRecords_parse rest r _ true (hsvmne r (List.mem_cons_self r rest))
    (fun y hy => hsvmne y (List.mem_cons_of_mem r hy))]
  simp [(by decide : ¬ ('[' = quoteChar)), (by decide : ¬ ('[' = braceOpen)),
    (by decide : skipJsonWs [newlineChar] = ([] : List Char))]

theorem extensions_json_roundtrip_witness :
    jsonParse (writeExtensionsJson [goodSampleRecord]) =
      some (Json.arr ([goodSampleRecord].map recordToJson)) :=
  extensions_json_roundtrip [goodSampleRecord] (by simp)
    (by
      intro x hx
      rw [List.mem_singleton] at hx
      subst hx
      refine ⟨by simp only [cleanRecord]; decide, by simp [goodSampleRecord],
        by decide, by decide⟩)

end UpdateExtensions
